import Mathlib

/-!
Shallow embedding of the xv6_pa4 demand-paging subsystem (kernel/vm.c
= src/unnamed/part_000, kernel/kalloc.c, kernel/trap.c).

Machine words are modelled as `Nat`; the PTE bit manipulations of the C
source only ever produce values below `2 ^ 64`, and no operation used here
wraps, so no explicit `% 2 ^ 64` is needed.  C pointers to `struct page`
are modelled as `Option Nat` holding the index of the metadata entry
(`NULL` is `none`); kernel addresses are plain `Nat`.  Locks are elided:
the embedding is of the sequential behaviour, which is what the claims
quantify over.  Kernel panics are modelled with `Except KPanic`.

The global state is split into sub-structures grouping the globals each
C function actually touches (`LruSt` for `pages[]`/LRU-list globals,
`ScanSt` for the clock scan), so that a function's non-interference with
the remaining globals is definitional.
-/

set_option maxRecDepth 10000

/-- Page size, 4096 bytes (spec §1, riscv.h). -/
def PGSIZE : Nat := 4096

/-- Modelled from the spec: riscv.h is not part of src.  xv6's Sv39
`MAXVA` is `1 << (9+9+9+12-1)` (one bit below 39 to avoid sign-extension),
per spec §1/§6 ("39-bit canonical user addresses"). -/
def MAXVA : Nat := 2 ^ 38

/-- Modelled from the spec: memlayout.h is not part of src.  Kernel direct
map base, spec §6 ("kernel direct map begins at KERNBASE"); xv6's value. -/
def KERNBASE : Nat := 0x80000000

/-- Modelled from the spec: memlayout.h is not part of src.  Top of
physical RAM; xv6's `KERNBASE + 128*1024*1024`. -/
def PHYSTOP : Nat := KERNBASE + 128 * 1024 * 1024

/-- Modelled from the spec: the trampoline page sits at the top of the
virtual address space (spec §6), `MAXVA - PGSIZE` in xv6. -/
def TRAMPOLINE : Nat := MAXVA - PGSIZE

/-- Modelled from the spec: `end[]` (first address after the kernel image)
is a linker symbol, not in src.  Its exact value only gates `kfree`'s
range check; any page-aligned address a little above `KERNBASE` is
faithful.  We fix 2 MiB above `KERNBASE`. -/
def KERNEND : Nat := KERNBASE + 2 * 1024 * 1024

/-- PTE valid bit (bit 0). -/
def PTE_V : Nat := 1
/-- PTE readable bit (bit 1). -/
def PTE_R : Nat := 2
/-- PTE writable bit (bit 2). -/
def PTE_W : Nat := 4
/-- PTE executable bit (bit 3). -/
def PTE_X : Nat := 8
/-- PTE user-accessible bit (bit 4). -/
def PTE_U : Nat := 16
/-- PTE accessed bit (bit 6). -/
def PTE_A : Nat := 64
/-- PTE dirty bit (bit 7). -/
def PTE_D : Nat := 128
/-- Modelled from the spec: the software `SWAP` bit is bit 9
(spec §6: "PTE bit layout (bits 0..9): ... SWAP(9)"). -/
def PTE_SWAP : Nat := 512

/-- `PA2PTE(pa) = ((pa) >> 12) << 10` (riscv.h, standard xv6;
spec §6: PPN in bits 10..53). -/
def PA2PTE (pa : Nat) : Nat := (pa >>> 12) <<< 10

/-- `PTE2PA(pte) = ((pte) >> 10) << 12` (riscv.h, standard xv6). -/
def PTE2PA (pte : Nat) : Nat := (pte >>> 10) <<< 12

/-- `PTE_FLAGS(pte) = (pte) & 0x3FF` (riscv.h, standard xv6). -/
def PTE_FLAGS (pte : Nat) : Nat := pte &&& 0x3FF

/-- Modelled from the spec: `PTE2PPN` is defined in the missing riscv.h.
It recovers the swap-slot index that `evictpage` stores as
`blkno << 12` (part_000 line 917), so it must be `pte >> 12` for the
spec §8 round-trip law ("a page written before eviction and read after
swap-in yields identical bytes") to hold, as it does per the spec. -/
def PTE2PPN (pte : Nat) : Nat := pte >>> 12

/-- `PX(level, va) = (va >> (12 + 9*level)) & 0x1FF` (riscv.h). -/
def PX (level va : Nat) : Nat := (va >>> (12 + 9 * level)) &&& 0x1FF

/-- Bit mask for clearing `PTE_A` (`~PTE_A` on a 64-bit word). -/
def NOT_A : Nat := 2 ^ 64 - 1 - PTE_A

/-- Bit mask for clearing `PTE_V` (`~PTE_V` on a 64-bit word). -/
def NOT_V : Nat := 2 ^ 64 - 1 - PTE_V

/-- Bit mask for clearing `PTE_SWAP` (`~PTE_SWAP` on a 64-bit word). -/
def NOT_SWAP : Nat := 2 ^ 64 - 1 - PTE_SWAP

/-- Bit mask for clearing `PTE_U` (`~PTE_U` on a 64-bit word). -/
def NOT_U : Nat := 2 ^ 64 - 1 - PTE_U

/-- Modelled from the spec: `struct page` (its header is not in src; the
fields are those of spec §3 "Page metadata entry" and the ones the src
accesses).  `prev`/`next` are `struct page *` pointers, modelled as the
index of the target entry (`none` = NULL); `pagetable` is the owning root
(a kernel address, 0 = NULL); `vaddr` is the mapped user virtual address
(stored as a pointer in C, 0 = NULL). -/
structure Page where
  is_page_table : Bool
  in_lru : Bool
  pagetable : Nat
  vaddr : Nat
  prev : Option Nat
  next : Option Nat
deriving DecidableEq

/-- Kernel panic reasons; each constructor corresponds to one `panic()`
string of the source, plus `fuel` standing for an unbounded C loop being
cut off by the embedding's fuel (never a real outcome), and `nullDeref`
standing for the C program dereferencing a null `struct page *`. -/
inductive KPanic where
  | walkOOR                -- "walk" (va >= MAXVA)
  | clockVaddr             -- "clock_hand vaddr invalid"
  | evictVaddr             -- "invalid victim vaddr"
  | allocswapFull          -- "allocswap: out of swap space"
  | freeswapBad            -- "freeswap: invalid blkno"
  | kfreeBad               -- "kfree"
  | mapVaAlign             -- "mappages: va not aligned"
  | mapSzAlign             -- "mappages: size not aligned"
  | mapSzZero              -- "mappages: size"
  | mapRemap               -- "mappages: remap"
  | unmapAlign             -- "uvmunmap: not aligned"
  | unmapWalk              -- "uvmunmap: walk"
  | unmapNotMapped         -- "uvmunmap: not mapped"
  | unmapNotLeaf           -- "uvmunmap: not a leaf"
  | copyNoPte              -- "uvmcopy: pte should exist"
  | copyNotPresent         -- "uvmcopy: page not present"
  | freewalkLeaf           -- "freewalk: leaf"
  | fuel                   -- embedding artefact: fuel exhausted
  | nullDeref              -- embedding artefact: C would fault on NULL
deriving DecidableEq

/-- The globals of the page-metadata table and LRU list: `pages[]`
(kalloc.c line 28), `lru_head`, `lru_tail` (vm.c lines 24-25) and
`num_lru_pages` (kalloc.c line 31).  These are exactly the globals
`lru_add` and `lru_remove` touch. -/
structure LruSt where
  pages : Nat → Page
  lru_head : Option Nat
  lru_tail : Option Nat
  num_lru_pages : Int

/-- The full global state of the subsystem: the LRU globals, the clock
cursor (vm.c line 781), the frame free-list (`kmem`, kalloc.c), the swap
bitmap and counters (vm.c), plus memory.  Memory is split by role, a
standard embedding choice: `ptmem frame idx` is the 64-bit PTE at slot
`idx` of the page-table page whose base address is `frame`; `datamem
frame off` is byte `off` of the data page at base address `frame`;
`swapdev slot` is the page-sized content of a swap slot. -/
structure Kstate where
  lru : LruSt
  clock_hand : Option Nat
  freelist : List Nat
  swap_bitmap : List Bool
  swap_out_count : Int
  swap_in_count : Int
  ptmem : Nat → Nat → Nat
  datamem : Nat → Nat → Nat
  swapdev : Nat → Nat → Nat

/-- Pointwise update of the metadata array at entry `i`. -/
def pupd (pgs : Nat → Page) (i : Nat) (g : Page → Page) : Nat → Page :=
  fun j => if j = i then g (pgs i) else pgs j

/-- `pages[i].next = v`. -/
def setNextL (l : LruSt) (i : Nat) (v : Option Nat) : LruSt :=
  { l with pages := pupd l.pages i (fun e => { e with next := v }) }

/-- `pages[i].prev = v`. -/
def setPrevL (l : LruSt) (i : Nat) (v : Option Nat) : LruSt :=
  { l with pages := pupd l.pages i (fun e => { e with prev := v }) }

/-- `pages[i].in_lru = v`. -/
def setInLruL (l : LruSt) (i : Nat) (v : Bool) : LruSt :=
  { l with pages := pupd l.pages i (fun e => { e with in_lru := v }) }

/-- `pages[i].vaddr = v`. -/
def setVaddrL (l : LruSt) (i : Nat) (v : Nat) : LruSt :=
  { l with pages := pupd l.pages i (fun e => { e with vaddr := v }) }

/-- `lru_add(p, pagetable, vaddr, use_lock)` (part_000 lines 65-151),
acting on the globals it touches.  The `use_lock` parameter only toggles
lock acquisition and the consistency check, both elided here.
Statement-by-statement translation; each C assignment becomes one state
update, reads happening against the state current at that program
point. -/
def lru_addL (l : LruSt) (p : Nat) (pagetable vaddr : Nat) : LruSt :=
  -- if (p < &pages[0] || p >= &pages[PHYSTOP/PGSIZE]) return;
  if PHYSTOP / PGSIZE ≤ p then l
  -- if ((uint64)vaddr >= MAXVA) return;
  else if MAXVA ≤ vaddr then l
  -- if (p->is_page_table) return;
  else if (l.pages p).is_page_table then l
  -- if (p->is_page_table || vaddr >= MAXVA) return;  (redundant double check)
  else if (l.pages p).is_page_table || decide (MAXVA ≤ vaddr) then l
  else
    -- p->pagetable = pagetable; p->vaddr = (char*)vaddr;
    let l := { l with
      pages := pupd l.pages p (fun e => { e with pagetable := pagetable, vaddr := vaddr }) }
    -- int was_in_list = p->in_lru;
    let was_in_list := (l.pages p).in_lru
    -- if (was_in_list) { ... unlink ... }
    let l :=
      if was_in_list then
        if l.lru_head = some p ∧ (l.pages p).next = none ∧ (l.pages p).prev = none then
          l  -- empty-list special case: leave as is
        else
          -- if (p->prev) p->prev->next = p->next;
          let l := match (l.pages p).prev with
                   | some q => setNextL l q (l.pages p).next
                   | none => l
          -- if (p->next) p->next->prev = p->prev;
          let l := match (l.pages p).next with
                   | some q => setPrevL l q (l.pages p).prev
                   | none => l
          -- if (lru_head == p) lru_head = p->next;
          let l := if l.lru_head = some p then { l with lru_head := (l.pages p).next } else l
          -- if (lru_tail == p) lru_tail = p->prev;
          let l := if l.lru_tail = some p then { l with lru_tail := (l.pages p).prev } else l
          -- p->prev = p->next = NULL; p->in_lru = 0; num_lru_pages--;
          let l := setPrevL (setNextL l p none) p none
          let l := setInLruL l p false
          { l with num_lru_pages := l.num_lru_pages - 1 }
      else l
    -- if (!lru_head) { ... } else { ... }
    if l.lru_head = none then
      let l := { l with lru_head := some p, lru_tail := some p }
      let l := setPrevL (setNextL l p (some p)) p (some p)
      let l := setInLruL l p true
      { l with num_lru_pages := 1 }
    else
      -- p->next = lru_head; p->prev = lru_tail;
      let l := setNextL l p l.lru_head
      let l := setPrevL l p l.lru_tail
      -- lru_head->prev = p;
      let l := match l.lru_head with
               | some h => setPrevL l h (some p)
               | none => l
      -- lru_tail->next = p;  (NULL tail would fault in C)
      let l := match l.lru_tail with
               | some t => setNextL l t (some p)
               | none => l
      -- lru_tail = p; p->in_lru = 1;
      let l := { l with lru_tail := some p }
      let l := setInLruL l p true
      -- if (!was_in_list) num_lru_pages++;
      if was_in_list then l else { l with num_lru_pages := l.num_lru_pages + 1 }

/-- `lru_remove(p, use_lock)` (part_000 lines 154-189), acting on the
globals it touches. -/
def lru_removeL (l : LruSt) (p : Nat) : LruSt :=
  if (l.pages p).in_lru then
    let l :=
      if l.lru_head = some p ∧ l.lru_head = l.lru_tail then
        { l with lru_head := none, lru_tail := none }
      else
        -- if (lru_head == p) lru_head = p->next;
        let l := if l.lru_head = some p then { l with lru_head := (l.pages p).next } else l
        -- if (lru_tail == p) lru_tail = p->prev;
        let l := if l.lru_tail = some p then { l with lru_tail := (l.pages p).prev } else l
        -- if (lru_head) lru_head->prev = lru_tail;
        let l := match l.lru_head with
                 | some h => setPrevL l h l.lru_tail
                 | none => l
        -- if (lru_tail) lru_tail->next = lru_head;
        let l := match l.lru_tail with
                 | some t => setNextL l t l.lru_head
                 | none => l
        l
    -- p->prev = p->next = NULL; p->in_lru = 0; p->vaddr = 0; num_lru_pages--;
    let l := setPrevL (setNextL l p none) p none
    let l := setInLruL l p false
    let l := setVaddrL l p 0
    { l with num_lru_pages := l.num_lru_pages - 1 }
  else l

/-- `lru_add` on the full state (it touches no other globals). -/
def lru_add (s : Kstate) (p : Nat) (pagetable vaddr : Nat) : Kstate :=
  { s with lru := lru_addL s.lru p pagetable vaddr }

/-- `lru_remove` on the full state (it touches no other globals). -/
def lru_remove (s : Kstate) (p : Nat) : Kstate :=
  { s with lru := lru_removeL s.lru p }

/-- `allocswap()` (part_000 lines 200-214): first zero bit of the bitmap;
panics when the bitmap is full. -/
def allocswap (s : Kstate) : Except KPanic (Nat × Kstate) :=
  match s.swap_bitmap.findIdx? (· = false) with
  | some i => .ok (i, { s with swap_bitmap := s.swap_bitmap.set i true })
  | none => .error .allocswapFull

/-- `freeswap(blkno)` (part_000 lines 217-226). -/
def freeswap (s : Kstate) (blkno : Nat) : Except KPanic Kstate :=
  if s.swap_bitmap.length ≤ blkno then .error .freeswapBad
  else .ok { s with swap_bitmap := s.swap_bitmap.set blkno false }

/-- Modelled from the spec: `swapwrite(pa, blkno)` is provided by the
disk driver (spec §2.4, §6), not in src: synchronously copy the page at
physical address `pa` to swap slot `blkno`; always succeeds (§7). -/
def swapwrite (s : Kstate) (pa blkno : Nat) : Kstate :=
  { s with swapdev := fun b => if b = blkno then s.datamem pa else s.swapdev b }

/-- Modelled from the spec: `swapread(pa, blkno)` is provided by the disk
driver (spec §2.4, §6), not in src: synchronously copy swap slot `blkno`
into the page at physical address `pa`; always succeeds (§7). -/
def swapread (s : Kstate) (pa blkno : Nat) : Kstate :=
  { s with datamem := fun a => if a = pa then s.swapdev blkno else s.datamem a }

/-- `kfree(pa)` (kalloc.c lines 70-87): range-check, fill the page with
junk byte 1, push on the free-list head. -/
def kfree (s : Kstate) (pa : Nat) : Except KPanic Kstate :=
  if pa % PGSIZE ≠ 0 ∨ pa < KERNEND ∨ PHYSTOP ≤ pa then .error .kfreeBad
  else .ok { s with
    datamem := fun a => if a = pa then (fun _ => 1) else s.datamem a,
    ptmem := fun b => if b = pa then (fun _ => 0x0101010101010101) else s.ptmem b,
    freelist := pa :: s.freelist }

/-- `walk(pagetable, va, 0)` (part_000 lines 304-336 specialized to
`alloc == 0`, the form used by `select_victim`, `evictpage`, `walkaddr`,
`uvmunmap`, `uvmcopy` and `usertrap`): pure descent over the page-table
memory `ptm`, returning the location (page-table page base, slot index)
of the level-0 PTE, `none` when an intermediate PTE is invalid.  The C
call graph is `walk → kalloc → evictpage → select_victim →
walk(alloc=0)`; it bottoms out because the inner call never allocates,
which this stratified definition mirrors (the full `walk` is defined
below `kalloc`). -/
def walk0 (ptm : Nat → Nat → Nat) (pagetable va : Nat) :
    Except KPanic (Option (Nat × Nat)) :=
  if MAXVA ≤ va then .error .walkOOR
  else
    let pte2 := ptm pagetable (PX 2 va)
    if pte2 &&& PTE_V ≠ 0 then
      let pte1 := ptm (PTE2PA pte2) (PX 1 va)
      if pte1 &&& PTE_V ≠ 0 then
        .ok (some (PTE2PA pte1, PX 0 va))
      else .ok none
    else .ok none

/-- The globals touched by the `select_victim` scan: the LRU globals,
the clock cursor, and PTE memory (A-bit clears and PTE reads). -/
structure ScanSt where
  lru : LruSt
  clock_hand : Option Nat
  ptmem : Nat → Nat → Nat

/-- The `while (1)` scan of `select_victim` (part_000 lines 814-863),
with fuel standing in for the unbounded C loop (`.error .fuel` is an
embedding artefact, never the behaviour of the C code).  `start` is the
snapshot taken at line 811. -/
def svLoop (start : Nat) : Nat → ScanSt → Except KPanic (Option Nat × ScanSt)
  | 0, _ => .error .fuel
  | fuel+1, sc =>
    match sc.clock_hand with
    | none => .error .nullDeref
    | some ch =>
      let e := sc.lru.pages ch
      match walk0 sc.ptmem e.pagetable e.vaddr with
      | .error pn => .error pn
      | .ok opte =>
        -- rule 1: !pte || !(*pte & PTE_V) || vaddr >= KERNBASE || vaddr >= TRAMPOLINE
        let skip : Bool :=
          match opte with
          | none => true
          | some (b, i) =>
            decide (sc.ptmem b i &&& PTE_V = 0) || decide (KERNBASE ≤ e.vaddr) ||
              decide (TRAMPOLINE ≤ e.vaddr)
        if skip then
          let sc := { sc with clock_hand := e.next }
          if sc.clock_hand = some start then
            .ok (some start, { sc with clock_hand := (sc.lru.pages start).next })
          else svLoop start fuel sc
        else
          match opte with
          | none => .error .nullDeref  -- unreachable: `skip` covers `none`
          | some (b, i) =>
            if sc.ptmem b i &&& PTE_A ≠ 0 then
              -- rule 2: clear A, advance, move to tail (unless already tail)
              let sc := { sc with ptmem := fun b' i' =>
                if b' = b ∧ i' = i then sc.ptmem b i &&& NOT_A else sc.ptmem b' i' }
              let sc := { sc with clock_hand := (sc.lru.pages ch).next }
              let sc :=
                if sc.lru.lru_tail ≠ some ch then
                  let sc := { sc with lru := lru_removeL sc.lru ch }
                  -- note: arguments are read after lru_remove zeroed p->vaddr
                  { sc with
                    lru := lru_addL sc.lru ch (sc.lru.pages ch).pagetable (sc.lru.pages ch).vaddr }
                else sc
              if sc.clock_hand = some start then
                .ok (some start, { sc with clock_hand := (sc.lru.pages start).next })
              else svLoop start fuel sc
            else
              -- rule 3: victim found
              .ok (some ch, { sc with clock_hand := e.next })

/-- `select_victim()` on the scan globals (part_000 lines 785-864). -/
def select_victimS (fuel : Nat) (sc : ScanSt) : Except KPanic (Option Nat × ScanSt) :=
  match sc.lru.lru_head with
  | none => .ok (none, sc)
  | some _ =>
    let sc := if sc.clock_hand = none then { sc with clock_hand := sc.lru.lru_head } else sc
    match sc.clock_hand with
    | none => .error .nullDeref  -- unreachable: head is non-null here
    | some ch0 =>
      if MAXVA ≤ (sc.lru.pages ch0).vaddr then .error .clockVaddr
      else svLoop ch0 fuel sc

/-- `select_victim()` on the full state (it touches no other globals). -/
def select_victim (fuel : Nat) (s : Kstate) : Except KPanic (Option Nat × Kstate) :=
  match select_victimS fuel ⟨s.lru, s.clock_hand, s.ptmem⟩ with
  | .error e => .error e
  | .ok (v, sc) =>
    .ok (v, { s with lru := sc.lru, clock_hand := sc.clock_hand, ptmem := sc.ptmem })

/-- Write the 64-bit PTE at page-table page `b`, slot `i`. -/
def setPte (s : Kstate) (b i v : Nat) : Kstate :=
  { s with ptmem := fun b' i' => if b' = b ∧ i' = i then v else s.ptmem b' i' }

/-- `evictpage()` (part_000 lines 868-934). -/
def evictpage (fuel : Nat) (s : Kstate) : Except KPanic (Bool × Kstate) :=
  match select_victim fuel s with
  | .error e => .error e
  | .ok (none, s) => .ok (false, s)
  | .ok (some victim, s) =>
    let victim_pagetable := (s.lru.pages victim).pagetable
    let victim_vaddr := (s.lru.pages victim).vaddr
    if MAXVA ≤ victim_vaddr then .error .evictVaddr
    else
      match walk0 s.ptmem victim_pagetable victim_vaddr with
      | .error e => .error e
      | .ok none => .ok (false, s)
      | .ok (some (b, i)) =>
        if s.ptmem b i &&& PTE_V = 0 then .ok (false, s)
        else
          let pa := PTE2PA (s.ptmem b i)
          match allocswap s with
          | .error e => .error e
          | .ok (blkno, s) =>
            let s := swapwrite s pa blkno
            let s := { s with swap_out_count := s.swap_out_count + 1 }
            let s := lru_remove s victim
            -- flags = PTE_FLAGS(*pte) & (PTE_R|PTE_W|PTE_X|PTE_U)
            let flags := PTE_FLAGS (s.ptmem b i) &&& (PTE_R ||| PTE_W ||| PTE_X ||| PTE_U)
            -- *pte = (blkno << 12) | (flags & ~PTE_V) | PTE_SWAP
            let s := setPte s b i ((blkno <<< 12) ||| (flags &&& NOT_V) ||| PTE_SWAP)
            match kfree s pa with
            | .error e => .error e
            | .ok s =>
              let s := { s with lru := { s.lru with
                pages := pupd s.lru.pages (pa / PGSIZE) (fun e =>
                  { e with pagetable := 0, vaddr := 0, in_lru := false,
                           is_page_table := false }) } }
              .ok (true, s)

/-- `kalloc()` (kalloc.c lines 95-120): pop the free-list head; on empty
list call `evictpage()` and retry on success (`goto retry`, modelled by
fuel; `.error .fuel` never occurs for sufficient fuel since a successful
eviction refills the list). -/
def kalloc : Nat → Kstate → Except KPanic (Option Nat × Kstate)
  | 0, _ => .error .fuel
  | fuel+1, s =>
    match s.freelist with
    | r :: rest =>
      -- memset((char*)r, 5, PGSIZE); return r
      let s' := { s with
                  freelist := rest,
                  datamem := fun a => if a = r then (fun _ => 5) else s.datamem a,
                  ptmem := fun b => if b = r then (fun _ => 0x0505050505050505) else s.ptmem b }
      .ok (some r, s')
    | [] =>
      match evictpage (fuel + 1) s with
      | .error e => .error e
      | .ok (false, s) => .ok (none, s)
      | .ok (true, s) => kalloc fuel s

/-- The `for (level = 2; level > 0; level--)` descent of `walk`
(part_000 lines 314-334) with `alloc` honoured: at an invalid
intermediate PTE, allocate a page-table page via `kalloc`, zero it, mark
its metadata entry (note the source indexes `pages[]` by
`(address - KERNBASE)/PGSIZE` here, unlike the `pa/PGSIZE` used
elsewhere), and install the intermediate PTE. -/
def walkLevel (fuel : Nat) (va : Nat) (alloc : Bool) :
    Nat → Nat → Kstate → Except KPanic (Option Nat × Kstate)
  | 0, base, s => .ok (some base, s)
  | level+1, base, s =>
    let pte := s.ptmem base (PX (level+1) va)
    if pte &&& PTE_V ≠ 0 then
      walkLevel fuel va alloc level (PTE2PA pte) s
    else if !alloc then .ok (none, s)
    else
      match kalloc fuel s with
      | .error e => .error e
      | .ok (none, s) => .ok (none, s)
      | .ok (some newpt, s) =>
        -- memset(pagetable, 0, PGSIZE)
        let s := { s with
          ptmem := fun b => if b = newpt then (fun _ => 0) else s.ptmem b,
          datamem := fun a => if a = newpt then (fun _ => 0) else s.datamem a }
        -- pages[((uint64)pagetable - KERNBASE) / PGSIZE]: is_page_table = 1, vaddr = 0
        let s := { s with lru := { s.lru with
          pages := pupd s.lru.pages ((newpt - KERNBASE) / PGSIZE) (fun e =>
            { e with is_page_table := true, vaddr := 0 }) } }
        -- *pte = PA2PTE(pagetable) | PTE_V
        let s := setPte s base (PX (level+1) va) (PA2PTE newpt ||| PTE_V)
        walkLevel fuel va alloc level newpt s

/-- `walk(pagetable, va, alloc)` (part_000 lines 304-336), full version. -/
def walk (fuel : Nat) (s : Kstate) (pagetable va : Nat) (alloc : Bool) :
    Except KPanic (Option (Nat × Nat) × Kstate) :=
  if MAXVA ≤ va then .error .walkOOR
  else
    match walkLevel fuel va alloc 2 pagetable s with
    | .error e => .error e
    | .ok (none, s) => .ok (none, s)
    | .ok (some base, s) => .ok (some (base, PX 0 va), s)

/-- The body of `mappages`'s `for(;;)` loop (part_000 lines 407-436),
recursing on the number of pages left; the `n = 0` base case is the
`a == last` break. -/
def mappagesLoop (fuel : Nat) (pagetable perm : Nat) :
    Nat → Nat → Nat → Kstate → Except KPanic (Int × Kstate)
  | 0, _, _, s => .ok (0, s)  -- unreachable: mappages passes size/PGSIZE ≥ 1
  | n+1, a, pa, s =>
    match walk fuel s pagetable a true with
    | .error e => .error e
    | .ok (none, s) => .ok (-1, s)
    | .ok (some (b, i), s) =>
      if s.ptmem b i &&& PTE_V ≠ 0 then .error .mapRemap
      else
        let s := setPte s b i (PA2PTE pa ||| perm ||| PTE_V)
        let s :=
          if perm &&& PTE_U ≠ 0 then
            let pg := pa / PGSIZE
            if !(s.lru.pages pg).in_lru && !(s.lru.pages pg).is_page_table &&
                decide (a < MAXVA) then
              lru_add s pg pagetable a
            else s
          else s
        if n = 0 then .ok (0, s)
        else mappagesLoop fuel pagetable perm n (a + PGSIZE) (pa + PGSIZE) s

/-- `mappages(pagetable, va, size, pa, perm)` (part_000 lines 390-438). -/
def mappages (fuel : Nat) (s : Kstate) (pagetable va size pa perm : Nat) :
    Except KPanic (Int × Kstate) :=
  if va % PGSIZE ≠ 0 then .error .mapVaAlign
  else if size % PGSIZE ≠ 0 then .error .mapSzAlign
  else if size = 0 then .error .mapSzZero
  else mappagesLoop fuel pagetable perm (size / PGSIZE) va pa s

/-- The per-page body of `uvmunmap`'s loop (part_000 lines 452-482),
recursing on the number of pages left. -/
def uvmunmapLoop (pagetable : Nat) (do_free : Bool) :
    Nat → Nat → Kstate → Except KPanic Kstate
  | 0, _, s => .ok s
  | n+1, a, s =>
    match walk0 s.ptmem pagetable a with
    | .error e => .error e
    | .ok none => .error .unmapWalk
    | .ok (some (b, i)) =>
      let pte := s.ptmem b i
      if pte &&& PTE_V = 0 then .error .unmapNotMapped
      else if PTE_FLAGS pte = PTE_V then .error .unmapNotLeaf
      else
        let step : Except KPanic Kstate :=
          if do_free then
            let pa := PTE2PA pte
            let pg := pa / PGSIZE
            -- (the null/invalid vaddr printf warnings are elided)
            let s :=
              if (s.lru.pages pg).in_lru then
                let s := lru_remove s pg
                { s with lru := setVaddrL s.lru pg 0 }
              else s
            kfree s pa
          else if pte &&& PTE_SWAP ≠ 0 then
            freeswap s (PTE2PPN pte)
          else .ok s
        match step with
        | .error e => .error e
        | .ok s =>
          let s := setPte s b i 0
          uvmunmapLoop pagetable do_free n (a + PGSIZE) s

/-- `uvmunmap(pagetable, va, npages, do_free)` (part_000 lines 443-483). -/
def uvmunmap (s : Kstate) (pagetable va npages : Nat) (do_free : Bool) :
    Except KPanic Kstate :=
  if va % PGSIZE ≠ 0 then .error .unmapAlign
  else uvmunmapLoop pagetable do_free npages va s

/-- `walkaddr(pagetable, va)` (part_000 lines 341-373), including the
implicit swap-in path. -/
def walkaddr (fuel : Nat) (s : Kstate) (pagetable va : Nat) :
    Except KPanic (Nat × Kstate) :=
  match walk0 s.ptmem pagetable va with
  | .error e => .error e
  | .ok none => .ok (0, s)
  | .ok (some (b, i)) =>
    let pte := s.ptmem b i
    if pte &&& PTE_V = 0 ∧ pte &&& PTE_SWAP ≠ 0 then
      let blkno := PTE2PPN pte
      match kalloc fuel s with
      | .error e => .error e
      | .ok (none, s) => .ok (0, s)
      | .ok (some mem, s) =>
        let s := swapread s mem blkno
        match freeswap s blkno with
        | .error e => .error e
        | .ok s =>
          let s := { s with swap_in_count := s.swap_in_count + 1 }
          -- *pte = PA2PTE(mem) | (PTE_FLAGS(*pte) & ~PTE_SWAP) | PTE_V  (re-reads *pte)
          let s := setPte s b i (PA2PTE mem ||| (PTE_FLAGS (s.ptmem b i) &&& NOT_SWAP) ||| PTE_V)
          let pg := mem / PGSIZE
          let s :=
            if !(s.lru.pages pg).in_lru && !(s.lru.pages pg).is_page_table &&
                decide (va ≠ 0) && decide (va < MAXVA) then
              lru_add s pg pagetable va
            else s
          .ok (mem, s)
    else if pte &&& PTE_V = 0 ∨ pte &&& PTE_U = 0 then .ok (0, s)
    else .ok (PTE2PA pte, s)

/-- The frame-allocation retry of `usertrap`'s page-fault arm
(trap.c lines 87-101): `kalloc`, on failure `evictpage` then `kalloc`
again; `none` means the process gets killed. -/
def usertrap_alloc_retry (fuel : Nat) (s : Kstate) :
    Except KPanic (Option Nat × Kstate) :=
  match kalloc fuel s with
  | .error e => .error e
  | .ok (some m, s) => .ok (some m, s)
  | .ok (none, s) =>
    match evictpage fuel s with
    | .error e => .error e
    | .ok (false, s) => .ok (none, s)
    | .ok (true, s) => kalloc fuel s

/-- The page-fault arm of `usertrap()` (trap.c lines 70-126), entered
when `scause` is 13 or 15 with faulting address `va`.  Returns `true`
when the faulting process gets killed (`p->killed = 1`). -/
def usertrap_swapin (fuel : Nat) (s : Kstate) (pagetable va : Nat) :
    Except KPanic (Bool × Kstate) :=
  match walk0 s.ptmem pagetable va with
  | .error e => .error e
  | .ok none => .ok (true, s)  -- "unexpected scause": kill
  | .ok (some (b, i)) =>
    if s.ptmem b i &&& PTE_SWAP ≠ 0 then
      match usertrap_alloc_retry fuel s with
      | .error e => .error e
      | .ok (none, s) => .ok (true, s)  -- kill
      | .ok (some mem, s) =>
        -- blkno = PTE2PPN(*pte)  (read after the allocation)
        let blkno := PTE2PPN (s.ptmem b i)
        let s := swapread s mem blkno
        match freeswap s blkno with
        | .error e => .error e
        | .ok s =>
          -- flags = PTE_FLAGS(*pte) & (PTE_R|PTE_W|PTE_X|PTE_U)
          let flags := PTE_FLAGS (s.ptmem b i) &&& (PTE_R ||| PTE_W ||| PTE_X ||| PTE_U)
          let s := setPte s b i (PA2PTE mem ||| (flags &&& NOT_SWAP) ||| PTE_V)
          let pg := mem / PGSIZE
          let s :=
            if !(s.lru.pages pg).in_lru && !(s.lru.pages pg).is_page_table &&
                decide (va < MAXVA) then
              lru_add s pg pagetable va
            else s
          .ok (false, s)
    else .ok (true, s)  -- "unexpected scause": kill

/-- The failure path of `uvmcopy` (part_000 lines 664-666): unmap the
pages already installed in the child and return -1. -/
def uvmcopyErr (new i : Nat) (s : Kstate) : Except KPanic (Int × Kstate) :=
  match uvmunmap s new 0 (i / PGSIZE) true with
  | .error e => .error e
  | .ok s => .ok (-1, s)

/-- The `for (i = 0; i < sz; i += PGSIZE)` loop of `uvmcopy`
(part_000 lines 615-661). -/
def uvmcopyLoop (fuel old new sz : Nat) (i : Nat) (s : Kstate) :
    Except KPanic (Int × Kstate) :=
  if _h : i < sz then
    match walk0 s.ptmem old i with
    | .error e => .error e
    | .ok none => .error .copyNoPte
    | .ok (some (b, pi)) =>
      let pte := s.ptmem b pi
      if pte &&& PTE_V = 0 ∧ pte &&& PTE_SWAP ≠ 0 then
        -- swapped page: fresh frame, read slot, map into child, parent untouched
        match kalloc fuel s with
        | .error e => .error e
        | .ok (none, s) => uvmcopyErr new i s
        | .ok (some mem, s) =>
          -- blkno = PTE2PPN(*pte)  (read after the allocation)
          let blkno := PTE2PPN (s.ptmem b pi)
          let s := swapread s mem blkno
          let flags := PTE_FLAGS (s.ptmem b pi) &&& (PTE_R ||| PTE_W ||| PTE_X ||| PTE_U)
          match mappages fuel s new i PGSIZE mem flags with
          | .error e => .error e
          | .ok (rc, s) =>
            if rc ≠ 0 then
              match kfree s mem with
              | .error e => .error e
              | .ok s => uvmcopyErr new i s
            else uvmcopyLoop fuel old new sz (i + PGSIZE) s
      else if pte &&& PTE_V = 0 then .error .copyNotPresent
      else
        let pa := PTE2PA pte
        let flags := PTE_FLAGS pte
        -- (the null/invalid vaddr printf warnings on the source page are elided)
        match kalloc fuel s with
        | .error e => .error e
        | .ok (none, s) => uvmcopyErr new i s
        | .ok (some mem, s) =>
          -- memmove(mem, (char*)pa, PGSIZE)
          let s := { s with datamem := fun a => if a = mem then s.datamem pa else s.datamem a }
          match mappages fuel s new i PGSIZE mem flags with
          | .error e => .error e
          | .ok (rc, s) =>
            if rc ≠ 0 then
              match kfree s mem with
              | .error e => .error e
              | .ok s => uvmcopyErr new i s
            else uvmcopyLoop fuel old new sz (i + PGSIZE) s
  else .ok (0, s)
termination_by sz - i
decreasing_by all_goals (simp [PGSIZE]; omega)

/-- `uvmcopy(old, new, sz)` (part_000 lines 607-667). -/
def uvmcopy (fuel : Nat) (s : Kstate) (old new sz : Nat) :
    Except KPanic (Int × Kstate) :=
  uvmcopyLoop fuel old new sz 0 s

mutual
/-- `freewalk(pagetable)` (part_000 lines 569-589): free the 512 entries,
then clear the page-table flags of this frame's metadata entry (indexed
by `(address - KERNBASE)/PGSIZE` in the source) and free the frame.  The
`dfuel` bounds the recursion depth (3 suffices for Sv39). -/
def freewalk : Nat → Nat → Kstate → Except KPanic Kstate
  | 0, _, _ => .error .fuel
  | dfuel+1, pagetable, s =>
    match freewalkLoop dfuel pagetable 512 s with
    | .error e => .error e
    | .ok s =>
      let s := { s with lru := { s.lru with
        pages := pupd s.lru.pages ((pagetable - KERNBASE) / PGSIZE) (fun e =>
          { e with is_page_table := false, vaddr := 0 }) } }
      kfree s pagetable

/-- The `for (i = 0; i < 512; i++)` loop of `freewalk`, recursing on the
number of entries left (`i = 512 - n`). -/
def freewalkLoop : Nat → Nat → Nat → Kstate → Except KPanic Kstate
  | _, _, 0, s => .ok s
  | dfuel, pagetable, n+1, s =>
    let pte := s.ptmem pagetable (512 - (n+1))
    if pte &&& PTE_V ≠ 0 ∧ pte &&& (PTE_R ||| PTE_W ||| PTE_X) = 0 then
      match freewalk dfuel (PTE2PA pte) s with
      | .error e => .error e
      | .ok s =>
        let s := setPte s pagetable (512 - (n+1)) 0
        freewalkLoop dfuel pagetable n s
    else if pte &&& PTE_V ≠ 0 then .error .freewalkLeaf
    else freewalkLoop dfuel pagetable n s
end

/-!  Concrete scaffolding used by the claim theorems. -/

/-- A zeroed metadata entry (`kinit` clears the array, kalloc.c 47-52). -/
def page0 : Page := ⟨false, false, 0, 0, none, none⟩

/-- A baseline state with empty structures. -/
def base0 : Kstate :=
  { lru := ⟨fun _ => page0, none, none, 0⟩, clock_hand := none, freelist := [],
    swap_bitmap := [], swap_out_count := 0, swap_in_count := 0,
    ptmem := fun _ _ => 0, datamem := fun _ _ => 0, swapdev := fun _ _ => 0 }

/-- Concrete root page-table page address. -/
def rootPT : Nat := 0x87000000
/-- Concrete level-1 page-table page address. -/
def l1PT : Nat := 0x87001000
/-- Concrete level-0 page-table page address. -/
def l0PT : Nat := 0x87002000
/-- Concrete user frame address. -/
def userPA : Nat := 0x87003000
/-- Concrete user virtual address (page 5). -/
def userVA : Nat := 0x5000

/-- A three-level page-table memory mapping `va` to the leaf value
`leaf` through `rootPT → l1PT → l0PT`. -/
def ptmemFor (va leaf : Nat) : Nat → Nat → Nat := fun b i =>
  if b = rootPT ∧ i = PX 2 va then PA2PTE l1PT ||| PTE_V
  else if b = l1PT ∧ i = PX 1 va then PA2PTE l0PT ||| PTE_V
  else if b = l0PT ∧ i = PX 0 va then leaf
  else 0

/-- State whose leaf PTE for `userVA` is swapped-out
(`V=0, SWAP=1`, R/W/U preserved, slot 0), slot 0 allocated. -/
def sSwapped : Kstate :=
  { base0 with
    swap_bitmap := [true],
    ptmem := ptmemFor userVA ((0 <<< 12) ||| (PTE_R ||| PTE_W ||| PTE_U) ||| PTE_SWAP) }

/-!  C1.  `uvmunmap` on a swapped-out PTE with `do_free` set. -/

/-- C1: on a page-aligned va whose leaf PTE is swapped-out (`V=0`,
`SWAP=1`, slot 0), `uvmunmap(pagetable, va, 1, do_free)` panics
`"uvmunmap: not mapped"` for `do_free = 1` and for `do_free = 0` alike:
the `(*pte & PTE_V) == 0` panic (part_000 line 455) fires before the
swap branch is ever reached, so the slot is not freed and the PTE is not
zeroed, contrary to the claim that the call frees the slot and does not
abort.  (Independently, the `freeswap` branch at line 473 sits in the
`else` of `do_free`, so it could only ever run with `do_free = 0`.) -/
theorem c1_uvmunmap_swapped_panics :
    uvmunmap sSwapped rootPT userVA 1 true = .error .unmapNotMapped ∧
    uvmunmap sSwapped rootPT userVA 1 false = .error .unmapNotMapped ∧
    sSwapped.ptmem l0PT (PX 0 userVA) &&& PTE_V = 0 ∧
    sSwapped.ptmem l0PT (PX 0 userVA) &&& PTE_SWAP ≠ 0 := by
  refine ⟨rfl, rfl, by decide, by decide⟩

/-!  C3.  LRU population-count consistency. -/

/-- The node count of the circular-list traversal of
`check_lru_consistency` (part_000 lines 38-54): starting at the head
(counted), follow `next` while the pointer is non-null and has not
returned to the head. -/
def lruWalkCount (s : Kstate) (h : Nat) : Nat → Option Nat → Nat → Nat
  | 0, _, acc => acc
  | fuel+1, cur, acc =>
    match cur with
    | none => acc
    | some c => if c = h then acc else lruWalkCount s h fuel (s.lru.pages c).next (acc + 1)

/-- Number of nodes reachable from `lru_head` (as counted by
`check_lru_consistency`). -/
def lruLen (s : Kstate) (fuel : Nat) : Nat :=
  match s.lru.lru_head with
  | none => 0
  | some h => lruWalkCount s h fuel (s.lru.pages h).next 1

/-- A well-formed two-node circular LRU list over entries 1 and 2. -/
def sTwo : Kstate :=
  { base0 with
    lru := ⟨fun i =>
      if i = 1 then ⟨false, true, 100, 0x1000, some 2, some 2⟩
      else if i = 2 then ⟨false, true, 200, 0x2000, some 1, some 1⟩
      else page0,
      some 1, some 2, 2⟩ }

/-- C3: `lru_add` on a frame that is already linked does not leave the
population count unchanged: on the well-formed two-node list `sTwo`,
relocating entry 1 to the tail leaves both entries linked (`in_lru = 1`,
circular traversal counts 2 nodes) while `num_lru_pages` drops to 1 —
the unlink decrements the count (part_000 line 118) but the relink is
guarded by `!was_in_list` (line 136) and never restores it.  This
contradicts the consistency property that `check_lru_consistency`
itself asserts (lines 55-57). -/
theorem c3_lru_add_relink_breaks_count :
    (lru_add sTwo 1 100 0x1000).lru.num_lru_pages = 1 ∧
    ((lru_add sTwo 1 100 0x1000).lru.pages 1).in_lru = true ∧
    ((lru_add sTwo 1 100 0x1000).lru.pages 2).in_lru = true ∧
    lruLen (lru_add sTwo 1 100 0x1000) 10 = 2 ∧
    sTwo.lru.num_lru_pages = 2 ∧ lruLen sTwo 10 = 2 := by
  refine ⟨by decide, by decide, by decide, by decide, by decide, by decide⟩

/-!  C4.  `walkaddr` return conditions and the User bit. -/

/-- State whose leaf PTE for `userVA` is swapped-out with the User bit
clear (`V=0, SWAP=1, R=1, U=0`, slot 0); one free frame available. -/
def sSwappedNoU : Kstate :=
  { base0 with
    freelist := [userPA],
    swap_bitmap := [true],
    ptmem := ptmemFor userVA ((0 <<< 12) ||| PTE_R ||| PTE_SWAP) }

/-- C4 counterexample: on `sSwappedNoU`, whose leaf PTE for `userVA` has
the User bit clear (`U=0`) and is swapped-out, `walkaddr` returns the
nonzero physical address of the freshly allocated frame: the swap-in
path (part_000 lines 347-370) tests only `!(*pte & PTE_V) && (*pte &
PTE_SWAP)` and never consults `PTE_U`, refuting the claim that
`walkaddr` never returns a nonzero address for a PTE whose User bit is
clear. -/
theorem c4_walkaddr_noU_counterexample :
    (∃ s', walkaddr 10 sSwappedNoU rootPT userVA = .ok (userPA, s')) ∧
    userPA ≠ 0 ∧
    sSwappedNoU.ptmem l0PT (PX 0 userVA) &&& PTE_U = 0 ∧
    sSwappedNoU.ptmem l0PT (PX 0 userVA) &&& PTE_V = 0 ∧
    sSwappedNoU.ptmem l0PT (PX 0 userVA) &&& PTE_SWAP ≠ 0 :=
  ⟨⟨_, rfl⟩, by decide, by decide, by decide, by decide⟩

/-- C4 as amended: `walkaddr(pagetable, va)` returns 0 whenever the leaf
PTE is absent, or invalid without `SWAP` (`V=0 ∧ SWAP=0`), or resident
without the User bit (`V=1 ∧ U=0`); but on the swap-in path
(`V=0 ∧ SWAP=1`) it returns the new frame's address regardless of the
User bit (the counterexample above). -/
theorem c4_walkaddr_returns_zero (fuel : Nat) (s : Kstate) (pt va b i : Nat)
    (h : walk0 s.ptmem pt va = .ok none ∨
         (walk0 s.ptmem pt va = .ok (some (b, i)) ∧
           ((s.ptmem b i &&& PTE_V = 0 ∧ s.ptmem b i &&& PTE_SWAP = 0) ∨
            (s.ptmem b i &&& PTE_V ≠ 0 ∧ s.ptmem b i &&& PTE_U = 0)))) :
    walkaddr fuel s pt va = .ok (0, s) := by
  rcases h with h | ⟨h, hc⟩
  · simp [walkaddr, h]
  · rcases hc with ⟨hv, hs⟩ | ⟨hv, hu⟩
    · simp [walkaddr, h, hv, hs]
    · simp [walkaddr, h, hv, hu]

/-- State whose leaf PTE for `userVA` is resident but not user
accessible (`V=1, R=1, U=0`), e.g. a guard page after `uvmclear`. -/
def sResidentNoU : Kstate :=
  { base0 with ptmem := ptmemFor userVA (PA2PTE userPA ||| PTE_R ||| PTE_V) }

/-- Witness for `c4_walkaddr_returns_zero` at the concrete resident
non-user page `sResidentNoU`. -/
theorem c4_walkaddr_returns_zero_witness :
    walkaddr 5 sResidentNoU rootPT userVA = .ok (0, sResidentNoU) :=
  c4_walkaddr_returns_zero 5 sResidentNoU rootPT userVA l0PT (PX 0 userVA)
    (Or.inr ⟨rfl, Or.inr ⟨by decide, by decide⟩⟩)

/-!  C10.  The `va != 0` guard on `walkaddr`'s swap-in LRU reinsertion. -/

/-- State whose leaf PTE for virtual address 0 is swapped-out
(`V=0, SWAP=1, R/W/U`, slot 3); slot 3 allocated and holding known
bytes; one free frame. -/
def sSwapAtZero : Kstate :=
  { base0 with
    freelist := [userPA],
    swap_bitmap := [true, true, true, true],
    swapdev := fun b => if b = 3 then (fun o => o + 9) else (fun _ => 0),
    ptmem := ptmemFor 0 ((3 <<< 12) ||| (PTE_R ||| PTE_W ||| PTE_U) ||| PTE_SWAP) }

/-- Same as `sSwapAtZero` but the swapped page is at `userVA ≠ 0`
(slot 0). -/
def sSwapAtNZ : Kstate :=
  { base0 with
    freelist := [userPA],
    swap_bitmap := [true],
    ptmem := ptmemFor userVA ((0 <<< 12) ||| (PTE_R ||| PTE_W ||| PTE_U) ||| PTE_SWAP) }

/-- C10: faulting in the swapped page at virtual address 0 through
`walkaddr` makes it resident (bytes read from the slot) but never
reinserts it into the LRU list — the guard at part_000 line 366 requires
`va != 0` — while the `usertrap` fault path (trap.c line 117), whose
guard lacks `va != 0`, reinserts it; and for a swapped page at a nonzero
va, `walkaddr` does reinsert. -/
theorem c10_walkaddr_va0_lru_guard :
    (∃ s₁, walkaddr 10 sSwapAtZero rootPT 0 = .ok (userPA, s₁) ∧
      (s₁.lru.pages (userPA / PGSIZE)).in_lru = false ∧
      s₁.lru.lru_head = none ∧
      s₁.ptmem l0PT 0 &&& PTE_V ≠ 0 ∧
      s₁.datamem userPA 4 = 13) ∧
    (∃ s₂, usertrap_swapin 10 sSwapAtZero rootPT 0 = .ok (false, s₂) ∧
      (s₂.lru.pages (userPA / PGSIZE)).in_lru = true ∧
      s₂.lru.lru_head = some (userPA / PGSIZE)) ∧
    (∃ s₃, walkaddr 10 sSwapAtNZ rootPT userVA = .ok (userPA, s₃) ∧
      (s₃.lru.pages (userPA / PGSIZE)).in_lru = true) :=
  ⟨⟨_, rfl, by decide, by decide, by decide, by decide⟩,
   ⟨_, rfl, by decide, by decide⟩,
   ⟨_, rfl, by decide⟩⟩

/-!  C6/C9.  Frame-effect lemmas for `select_victim`, `evictpage`,
`kalloc`. -/

/-- `select_victim` only touches the LRU globals, the clock cursor and
PTE memory: the free-list, swap bitmap, data memory, swap device and
counters come through unchanged. -/
theorem select_victim_frame {fuel : Nat} {s : Kstate} {v : Option Nat} {s' : Kstate}
    (h : select_victim fuel s = .ok (v, s')) :
    s'.freelist = s.freelist ∧ s'.swap_bitmap = s.swap_bitmap ∧
    s'.datamem = s.datamem ∧ s'.swapdev = s.swapdev ∧
    s'.swap_out_count = s.swap_out_count ∧ s'.swap_in_count = s.swap_in_count := by
  unfold select_victim at h
  split at h
  · exact absurd h (by simp)
  · rename_i p heq
    obtain ⟨v', sc⟩ := p
    simp only [Except.ok.injEq, Prod.mk.injEq] at h
    obtain ⟨-, h2⟩ := h
    subst h2
    exact ⟨rfl, rfl, rfl, rfl, rfl, rfl⟩

/-- `allocswap` succeeds exactly by setting the first zero bit. -/
theorem allocswap_spec {s : Kstate} {i : Nat} {s' : Kstate}
    (h : allocswap s = .ok (i, s')) :
    s.swap_bitmap.findIdx? (· = false) = some i ∧
    s' = { s with swap_bitmap := s.swap_bitmap.set i true } := by
  unfold allocswap at h
  split at h
  · rename_i j heq
    simp only [Except.ok.injEq, Prod.mk.injEq] at h
    obtain ⟨h1, h2⟩ := h
    subst h1
    exact ⟨heq, h2.symm⟩
  · exact absurd h (by simp)

/-- Frame effect of a completed `evictpage` call: the free-list never
shrinks -- it is unchanged on failure and gains exactly the victim's
frame at its head on success -- and the swap bitmap is unchanged on
failure while on success exactly the first free slot is allocated.
(`evictpage` never pops the free-list: it never calls `kalloc`.) -/
theorem evictpage_frame {fuel : Nat} {s : Kstate} {r : Bool} {s' : Kstate}
    (h : evictpage fuel s = .ok (r, s')) :
    s.freelist.IsSuffix s'.freelist ∧
    (if r then
       (∃ pa, s'.freelist = pa :: s.freelist) ∧
       (∃ i, s.swap_bitmap.findIdx? (· = false) = some i ∧
             s'.swap_bitmap = s.swap_bitmap.set i true)
     else s'.freelist = s.freelist ∧ s'.swap_bitmap = s.swap_bitmap) := by
  unfold evictpage at h
  split at h
  · exact absurd h (by simp)
  · -- select_victim returned (none, s₁)
    rename_i s1 heq
    simp only [Except.ok.injEq, Prod.mk.injEq] at h
    obtain ⟨h1, h2⟩ := h
    subst h1; subst h2
    obtain ⟨hf, hb, -, -, -, -⟩ := select_victim_frame heq
    simp [hf, hb]
  · -- select_victim returned (some victim, s₁)
    rename_i victim s1 heq
    obtain ⟨hf1, hb1, -, -, -, -⟩ := select_victim_frame heq
    dsimp only [] at h
    split at h
    · exact absurd h (by simp)
    split at h
    · exact absurd h (by simp)
    · -- walk0 = .ok none
      simp only [Except.ok.injEq, Prod.mk.injEq] at h
      obtain ⟨h1, h2⟩ := h
      subst h1; subst h2
      simp [hf1, hb1]
    · -- walk0 = .ok (some (b, i))
      split at h
      · -- PTE invalid: failure
        simp only [Except.ok.injEq, Prod.mk.injEq] at h
        obtain ⟨h1, h2⟩ := h
        subst h1; subst h2
        simp [hf1, hb1]
      · -- resident: allocate slot and evict
        split at h
        · exact absurd h (by simp)
        · rename_i blkno s2 halloc
          obtain ⟨hidx, hs2⟩ := allocswap_spec halloc
          split at h
          · exact absurd h (by simp)
          · -- kfree succeeded
            rename_i s3 hkf
            simp only [Except.ok.injEq, Prod.mk.injEq] at h
            obtain ⟨h1, h2⟩ := h
            subst h1; subst h2
            unfold kfree at hkf
            split at hkf
            · exact absurd hkf (by simp)
            · simp only [Except.ok.injEq] at hkf
              subst hkf
              subst hs2
              rw [← hf1, ← hb1]
              refine ⟨List.suffix_cons _ _, ?_⟩
              rw [if_pos rfl]
              exact ⟨⟨_, rfl⟩, ⟨blkno, hidx, rfl⟩⟩

/-- C9: `evictpage` never calls `kalloc` and never removes a frame from
the free-list: on any completed call the free-list of the input state is
a suffix of the output free-list (it never shrinks); on success the only
free-list effect is the push of the victim's frame (`kfree`, part_000
line 923) and the only resource acquired is the single swap slot
returned by `allocswap` (line 898, the first free bit of the bitmap);
on failure both are untouched. -/
theorem c9_evictpage_frame_effect {fuel : Nat} {s : Kstate} {r : Bool} {s' : Kstate}
    (h : evictpage fuel s = .ok (r, s')) :
    s.freelist.IsSuffix s'.freelist ∧
    (if r then
       (∃ pa, s'.freelist = pa :: s.freelist) ∧
       (∃ i, s.swap_bitmap.findIdx? (· = false) = some i ∧
             s'.swap_bitmap = s.swap_bitmap.set i true)
     else s'.freelist = s.freelist ∧ s'.swap_bitmap = s.swap_bitmap) :=
  evictpage_frame h

/-- A concrete state with one resident user page (frame `userPA`, mapped
at `userVA` with `R|W|U`, A-bit clear), a single-node LRU list, an empty
free-list and one free swap slot. -/
def sOneResident : Kstate :=
  { base0 with
    lru := ⟨fun i =>
      if i = userPA / PGSIZE then
        ⟨false, true, rootPT, userVA, some (userPA / PGSIZE), some (userPA / PGSIZE)⟩
      else page0,
      some (userPA / PGSIZE), some (userPA / PGSIZE), 1⟩,
    swap_bitmap := [false],
    datamem := fun a => if a = userPA then (fun o => o + 7) else (fun _ => 0),
    ptmem := ptmemFor userVA (PA2PTE userPA ||| (PTE_W ||| PTE_R ||| PTE_U) ||| PTE_V) }

/-- The state after evicting the one resident page of `sOneResident`. -/
def sOneEvicted : Kstate :=
  match evictpage 10 sOneResident with
  | .ok (_, s') => s'
  | .error _ => base0

/-- Witness for `c9_evictpage_frame_effect` on the concrete state
`sOneResident`, where eviction succeeds. -/
theorem c9_evictpage_frame_effect_witness :
    evictpage 10 sOneResident = .ok (true, sOneEvicted) ∧
    (sOneResident.freelist.IsSuffix sOneEvicted.freelist ∧
     (if true then
        (∃ pa, sOneEvicted.freelist = pa :: sOneResident.freelist) ∧
        (∃ i, sOneResident.swap_bitmap.findIdx? (· = false) = some i ∧
              sOneEvicted.swap_bitmap = sOneResident.swap_bitmap.set i true)
      else sOneEvicted.freelist = sOneResident.freelist ∧
           sOneEvicted.swap_bitmap = sOneResident.swap_bitmap)) :=
  ⟨rfl, @c9_evictpage_frame_effect 10 sOneResident true sOneEvicted rfl⟩

/-- C6: `kalloc()` pops and returns the free-list head when the list is
non-empty; on an empty list it invokes `evictpage()` and retries on
success (the retry pops the frame the eviction pushed); and it returns
null exactly when the list was empty and eviction failed. -/
theorem c6_kalloc (fuel : Nat) (s : Kstate) :
    (∀ a rest, s.freelist = a :: rest →
       ∃ s', kalloc (fuel + 1) s = .ok (some a, s') ∧ s'.freelist = rest) ∧
    (∀ s', s.freelist = [] → evictpage (fuel + 1) s = .ok (false, s') →
       kalloc (fuel + 1) s = .ok (none, s')) ∧
    (∀ s', s.freelist = [] → evictpage (fuel + 1 + 1) s = .ok (true, s') →
       ∃ a s'', s'.freelist = a :: s.freelist ∧ kalloc (fuel + 1 + 1) s = .ok (some a, s'')) ∧
    (∀ s', kalloc fuel s = .ok (none, s') →
       s.freelist = [] ∧ evictpage fuel s = .ok (false, s')) := by
  refine ⟨?_, ?_, ?_, ?_⟩
  · intro a rest hf
    refine ⟨{ s with
              freelist := rest,
              datamem := fun x => if x = a then (fun _ => 5) else s.datamem x,
              ptmem := fun b => if b = a then (fun _ => 0x0505050505050505) else s.ptmem b },
            ?_, rfl⟩
    rw [kalloc, hf]
  · intro s' hf hev
    rw [kalloc, hf, hev]
  · intro s' hf hev
    obtain ⟨-, hpush⟩ := evictpage_frame hev
    rw [if_pos rfl] at hpush
    obtain ⟨⟨pa, hpa⟩, -⟩ := hpush
    refine ⟨pa, { s' with
                  freelist := s.freelist,
                  datamem := fun x => if x = pa then (fun _ => 5) else s'.datamem x,
                  ptmem := fun b => if b = pa then (fun _ => 0x0505050505050505) else s'.ptmem b },
            hpa, ?_⟩
    simp only [kalloc, hf, hev, hpa]
  · intro s' h
    match fuel with
    | 0 => simp [kalloc] at h
    | g + 1 =>
      rw [kalloc] at h
      split at h
      · simp at h
      · rename_i hf
        split at h
        · simp at h
        · rename_i s1 hev
          simp only [Except.ok.injEq, Prod.mk.injEq] at h
          obtain ⟨-, h2⟩ := h
          subst h2
          exact ⟨hf, hev⟩
        · rename_i s1 hev
          obtain ⟨-, hpush⟩ := evictpage_frame hev
          rw [if_pos rfl] at hpush
          obtain ⟨⟨pa, hpa⟩, -⟩ := hpush
          match g with
          | 0 => simp [kalloc] at h
          | k + 1 =>
            rw [kalloc, hpa] at h
            simp at h

/-- A state whose free-list holds the single frame `userPA`. -/
def sFreeOne : Kstate := { base0 with freelist := [userPA] }

/-- Witness for `c6_kalloc`: popping the concrete one-frame free-list. -/
theorem c6_kalloc_witness :
    ∃ s', kalloc (4 + 1) sFreeOne = .ok (some userPA, s') ∧ s'.freelist = [] :=
  (c6_kalloc 4 sFreeOne).1 userPA [] rfl

/-!  C2.  Evict / swap-in round trip. -/

/-- The R/W/X permission combination selected by three booleans, always
with the User bit (the claim quantifies over user pages). -/
def permBits (r w x : Bool) : Nat :=
  (bif r then PTE_R else 0) ||| (bif w then PTE_W else 0) |||
  (bif x then PTE_X else 0) ||| PTE_U

/-- A state with one resident user page at `userVA` (frame `userPA`)
holding bytes `B`, permissions `permBits r w x` plus optionally the
Access bit, a single-node LRU list, an empty free-list and one free swap
slot. -/
def sRound (B : Nat → Nat) (r w x a : Bool) : Kstate :=
  { base0 with
    lru := ⟨fun i =>
      if i = userPA / PGSIZE then
        ⟨false, true, rootPT, userVA, some (userPA / PGSIZE), some (userPA / PGSIZE)⟩
      else page0,
      some (userPA / PGSIZE), some (userPA / PGSIZE), 1⟩,
    swap_bitmap := [false],
    datamem := fun addr => if addr = userPA then B else (fun _ => 0),
    ptmem := ptmemFor userVA
      (PA2PTE userPA ||| permBits r w x ||| (bif a then PTE_A else 0) ||| PTE_V) }

/-!  Bit-manipulation toolkit: general facts about `&&&`, `|||`, `<<<`,
`>>>` on `Nat`, used to reason about the PTE encodings symbolically. -/

theorem lorLandDistrib (a b c : Nat) : (a ||| b) &&& c = (a &&& c) ||| (b &&& c) :=
  Nat.and_distrib_right ..

theorem shiftLeftLandSmall (a k c : Nat) (h : c < 2 ^ k) : (a <<< k) &&& c = 0 := by
  apply Nat.eq_of_testBit_eq
  intro i
  rw [Nat.testBit_and, Nat.testBit_shiftLeft, Nat.zero_testBit]
  by_cases hik : k ≤ i
  · have : c.testBit i = false :=
      Nat.testBit_lt_two_pow (lt_of_lt_of_le h (Nat.pow_le_pow_right (by norm_num) hik))
    simp [this]
  · simp [hik]

theorem lorShiftRight (a b k : Nat) : (a ||| b) >>> k = (a >>> k) ||| (b >>> k) := by
  apply Nat.eq_of_testBit_eq
  intro i
  simp [Nat.testBit_or, Nat.testBit_shiftRight]

theorem shiftLeftShiftRightSelf (a k : Nat) : (a <<< k) >>> k = a := by
  rw [Nat.shiftLeft_eq, Nat.shiftRight_eq_div_pow, Nat.mul_div_cancel]
  exact Nat.pos_pow_of_pos k (by norm_num)

theorem shiftRightSmall (a k : Nat) (h : a < 2 ^ k) : a >>> k = 0 := by
  rw [Nat.shiftRight_eq_div_pow]
  exact Nat.div_eq_of_lt h

theorem notASpell : NOT_A = (2 ^ 64 - 1) ^^^ (2 ^ 6) := by decide

theorem testBitNotA (j : Nat) (hj : j < 64) (hj6 : j ≠ 6) : NOT_A.testBit j = true := by
  rw [notASpell, Nat.testBit_xor, Nat.testBit_two_pow_sub_one, Nat.testBit_two_pow]
  simp [hj, hj6, Ne.symm hj6]

theorem clearAShiftRight (pte : Nat) (h64 : pte < 2 ^ 64) :
    (pte &&& NOT_A) >>> 10 = pte >>> 10 := by
  apply Nat.eq_of_testBit_eq
  intro i
  rw [Nat.testBit_shiftRight, Nat.testBit_shiftRight, Nat.testBit_and]
  by_cases hi : 10 + i < 64
  · rw [testBitNotA (10 + i) hi (by omega), Bool.and_true]
  · have : pte.testBit (10 + i) = false :=
      Nat.testBit_lt_two_pow (lt_of_lt_of_le h64 (Nat.pow_le_pow_right (by norm_num) (by omega)))
    simp [this]

/-- `walk0` resolves a three-level chain given by pointwise equations on
the page-table memory. -/
theorem walk0_chain {ptm : Nat → Nat → Nat} {root va v2 v1 : Nat}
    (hva : va < MAXVA)
    (h2 : ptm root (PX 2 va) = v2) (h2v : v2 &&& PTE_V ≠ 0)
    (h1 : ptm (PTE2PA v2) (PX 1 va) = v1) (h1v : v1 &&& PTE_V ≠ 0) :
    walk0 ptm root va = .ok (some (PTE2PA v1, PX 0 va)) := by
  unfold walk0
  rw [if_neg (not_le.mpr hva), h2, if_pos h2v, h1, if_pos h1v]

theorem maskFlagsRWXU (x : Nat) : PTE_FLAGS x &&& 30 = x &&& 30 := by
  rw [PTE_FLAGS, Nat.land_assoc, show (0x3FF : Nat) &&& 30 = 30 from by decide]

/-- `select_victim` on a single-node LRU list whose page is resident:
within one iteration it returns that node as the victim (clearing the
Access bit first when it is set), leaves the LRU fields untouched and
parks the cursor back on the node. -/
theorem sv_single (fuel : Nat) (s : Kstate) {root va v2 v1 pte : Nat} (pg : Nat)
    (hva : va < KERNBASE)
    (h2 : s.ptmem root (PX 2 va) = v2) (h2v : v2 &&& PTE_V ≠ 0)
    (h1 : s.ptmem (PTE2PA v2) (PX 1 va) = v1) (h1v : v1 &&& PTE_V ≠ 0)
    (hleaf : s.ptmem (PTE2PA v1) (PX 0 va) = pte) (hpv : pte &&& PTE_V ≠ 0)
    (h64 : pte < 2 ^ 64)
    (hhead : s.lru.lru_head = some pg) (htail : s.lru.lru_tail = some pg)
    (hpage : s.lru.pages pg = ⟨false, true, root, va, some pg, some pg⟩)
    (hclock : s.clock_hand = none)
    (hd4 : PTE2PA v1 ≠ root) (hd5 : PTE2PA v1 ≠ PTE2PA v2) :
    ∃ q P,
      select_victim (fuel + 1) s =
        .ok (some pg, { s with clock_hand := some pg, ptmem := P }) ∧
      P root (PX 2 va) = v2 ∧
      P (PTE2PA v2) (PX 1 va) = v1 ∧
      P (PTE2PA v1) (PX 0 va) = q ∧
      q &&& PTE_V ≠ 0 ∧
      PTE_FLAGS q &&& 30 = pte &&& 30 ∧
      PTE2PA q = PTE2PA pte := by
  have hva' : va < MAXVA := lt_trans hva (by decide)
  have hnva : ¬ MAXVA ≤ va := not_le.mpr hva'
  have hnk : ¬ KERNBASE ≤ va := not_le.mpr hva
  have hnt : ¬ TRAMPOLINE ≤ va := not_le.mpr (lt_trans hva (by decide))
  have hw := walk0_chain hva' h2 h2v h1 h1v
  by_cases hA : pte &&& PTE_A = 0
  · refine ⟨pte, s.ptmem, ?_, h2, h1, hleaf, hpv, maskFlagsRWXU pte, rfl⟩
    simp [select_victim, select_victimS, svLoop, hclock, hhead, hpage, hnva, hnk, hnt,
      hw, hleaf, hpv, hA]
  · refine ⟨pte &&& NOT_A,
      fun b' i' => if b' = PTE2PA v1 ∧ i' = PX 0 va then pte &&& NOT_A else s.ptmem b' i',
      ?_, ?_, ?_, ?_, ?_, ?_, ?_⟩
    · simp [select_victim, select_victimS, svLoop, hclock, hhead, hpage, hnva, hnk, hnt,
        hw, hleaf, hpv, htail, hA]
    · have hne : ¬(root = PTE2PA v1 ∧ PX 2 va = PX 0 va) := fun hc => hd4 hc.1.symm
      simp [hne, h2]
    · have hne : ¬(PTE2PA v2 = PTE2PA v1 ∧ PX 1 va = PX 0 va) := fun hc => hd5 hc.1.symm
      simp [hne, h1]
    · simp
    · rw [Nat.land_assoc, show NOT_A &&& PTE_V = PTE_V from by decide]
      exact hpv
    · rw [PTE_FLAGS, Nat.land_assoc, Nat.land_assoc,
        show NOT_A &&& (0x3FF &&& 30) = 30 from by decide]
    · rw [PTE2PA, PTE2PA, clearAShiftRight pte h64]

theorem PTE2PA_mod (x : Nat) : PTE2PA x % PGSIZE = 0 := by
  rw [PTE2PA, Nat.shiftLeft_eq, PGSIZE]
  norm_num [Nat.mul_mod_left]

/-- `evictpage` on a single-node LRU list holding one resident user page:
it writes the page to the first free swap slot `k`, pushes its frame on
the free-list head, rewrites the leaf PTE to the swapped-out encoding
`(k << 12) | RWXU-flags | PTE_SWAP` and clears the victim's metadata
entry, leaving the page-walk chain intact. -/
theorem evictpage_single (fuel : Nat) (s : Kstate) {root va v2 v1 pte k : Nat}
    (hva : va < KERNBASE)
    (h2 : s.ptmem root (PX 2 va) = v2) (h2v : v2 &&& PTE_V ≠ 0)
    (h1 : s.ptmem (PTE2PA v2) (PX 1 va) = v1) (h1v : v1 &&& PTE_V ≠ 0)
    (hleaf : s.ptmem (PTE2PA v1) (PX 0 va) = pte) (hpv : pte &&& PTE_V ≠ 0)
    (h64 : pte < 2 ^ 64)
    (hhead : s.lru.lru_head = some (PTE2PA pte / PGSIZE))
    (htail : s.lru.lru_tail = some (PTE2PA pte / PGSIZE))
    (hpage : s.lru.pages (PTE2PA pte / PGSIZE) =
      ⟨false, true, root, va, some (PTE2PA pte / PGSIZE), some (PTE2PA pte / PGSIZE)⟩)
    (hclock : s.clock_hand = none)
    (hswap : s.swap_bitmap.findIdx? (· = false) = some k)
    (hlo : KERNEND ≤ PTE2PA pte) (hhi : PTE2PA pte < PHYSTOP)
    (hd1 : PTE2PA pte ≠ root) (hd2 : PTE2PA pte ≠ PTE2PA v2) (hd3 : PTE2PA pte ≠ PTE2PA v1)
    (hd4 : PTE2PA v1 ≠ root) (hd5 : PTE2PA v1 ≠ PTE2PA v2) :
    ∃ sE, evictpage (fuel + 1) s = .ok (true, sE) ∧
      sE.ptmem root (PX 2 va) = v2 ∧
      sE.ptmem (PTE2PA v2) (PX 1 va) = v1 ∧
      sE.ptmem (PTE2PA v1) (PX 0 va) = (k <<< 12) ||| (pte &&& 30) ||| PTE_SWAP ∧
      sE.freelist = PTE2PA pte :: s.freelist ∧
      sE.swap_bitmap = s.swap_bitmap.set k true ∧
      sE.swapdev k = s.datamem (PTE2PA pte) ∧
      (sE.lru.pages (PTE2PA pte / PGSIZE)).in_lru = false ∧
      (sE.lru.pages (PTE2PA pte / PGSIZE)).is_page_table = false := by
  obtain ⟨q, P, hsv, hP2, hP1, hPl, hqv, hqf, hqpa⟩ :=
    sv_single fuel s (PTE2PA pte / PGSIZE) hva h2 h2v h1 h1v hleaf hpv h64
      hhead htail hpage hclock hd4 hd5
  have hva' : va < MAXVA := lt_trans hva (by decide)
  have hnva : ¬ MAXVA ≤ va := not_le.mpr hva'
  have hwP := walk0_chain hva' hP2 h2v hP1 h1v
  have hrwxu : (PTE_R ||| PTE_W ||| PTE_X ||| PTE_U) = 30 := by decide
  have hnv : (pte &&& 30) &&& NOT_V = pte &&& 30 := by
    rw [Nat.land_assoc, show (30 : Nat) &&& NOT_V = 30 from by decide]
  have hmod : PTE2PA pte % PGSIZE = 0 := PTE2PA_mod pte
  have hge : ¬ PTE2PA pte < KERNEND := not_lt.mpr hlo
  have hlt : ¬ PHYSTOP ≤ PTE2PA pte := not_le.mpr hhi
  have hne1 : root ≠ PTE2PA pte := Ne.symm hd1
  have hne2 : PTE2PA v2 ≠ PTE2PA pte := Ne.symm hd2
  have hne3 : PTE2PA v1 ≠ PTE2PA pte := Ne.symm hd3
  have hne4 : root ≠ PTE2PA v1 := Ne.symm hd4
  have hne5 : PTE2PA v2 ≠ PTE2PA v1 := Ne.symm hd5
  have hswap2 : List.findIdx? (fun x => !x) s.swap_bitmap = some k := by
    simpa using hswap
  exact ⟨_,
    by simp [evictpage, hsv, hpage, hnva, allocswap, hswap2, swapwrite, lru_remove,
         lru_removeL, setPte, kfree, setNextL, setPrevL, setInLruL, setVaddrL, pupd,
         hwP, hPl, hqv, hqpa, hrwxu, hqf, hnv, hmod, hge, hlt, hhead, htail]
       rfl,
    by simp [hne1, hne4, hP2],
    by simp [hne2, hne5, hP1],
    by simp [hne3],
    rfl,
    rfl,
    by simp,
    by simp [pupd],
    by simp [pupd]⟩

/-!  Facts about the swapped-out PTE encoding `(k << 12) | m | PTE_SWAP`
(with `m` holding only R/W/X/U bits) and the resident re-encoding
`PA2PTE pa | m | PTE_V`, as produced by `evictpage` and the two
swap-in paths. -/

theorem maskAbsorb (m c : Nat) (hm : m &&& 30 = m) : m &&& c = m &&& (30 &&& c) := by
  conv_lhs => rw [← hm]
  rw [Nat.land_assoc]

theorem swEnc_V (k m : Nat) (hm : m &&& 30 = m) :
    ((k <<< 12) ||| m ||| PTE_SWAP) &&& PTE_V = 0 := by
  rw [lorLandDistrib, lorLandDistrib, shiftLeftLandSmall k 12 PTE_V (by decide),
    maskAbsorb m PTE_V hm, show (30 : Nat) &&& PTE_V = 0 from by decide, Nat.and_zero,
    show PTE_SWAP &&& PTE_V = 0 from by decide]
  decide

theorem swEnc_S (k m : Nat) (hm : m &&& 30 = m) :
    ((k <<< 12) ||| m ||| PTE_SWAP) &&& PTE_SWAP = PTE_SWAP := by
  rw [lorLandDistrib, lorLandDistrib, shiftLeftLandSmall k 12 PTE_SWAP (by decide),
    maskAbsorb m PTE_SWAP hm, show (30 : Nat) &&& PTE_SWAP = 0 from by decide, Nat.and_zero,
    show PTE_SWAP &&& PTE_SWAP = PTE_SWAP from by decide]
  decide

theorem swEnc_PPN (k m : Nat) (hm : m &&& 30 = m) :
    PTE2PPN ((k <<< 12) ||| m ||| PTE_SWAP) = k := by
  have hle : m ≤ 30 := by conv_lhs => rw [← hm]
                          exact Nat.and_le_right
  rw [PTE2PPN, lorShiftRight, lorShiftRight, shiftLeftShiftRightSelf,
    shiftRightSmall m 12 (lt_of_le_of_lt hle (by decide)),
    show PTE_SWAP >>> 12 = 0 from by decide, Nat.or_zero, Nat.or_zero]

theorem swEnc_flags (k m : Nat) (hm : m &&& 30 = m) :
    PTE_FLAGS ((k <<< 12) ||| m ||| PTE_SWAP) &&& 30 = m := by
  rw [PTE_FLAGS, Nat.land_assoc, show (0x3FF : Nat) &&& 30 = 30 from by decide,
    lorLandDistrib, lorLandDistrib, shiftLeftLandSmall k 12 30 (by decide), hm,
    show PTE_SWAP &&& 30 = 0 from by decide, Nat.zero_or, Nat.or_zero]

theorem swEnc_flagsNS (k m : Nat) (hm : m &&& 30 = m) :
    PTE_FLAGS ((k <<< 12) ||| m ||| PTE_SWAP) &&& NOT_SWAP = m := by
  rw [PTE_FLAGS, Nat.land_assoc, show (0x3FF : Nat) &&& NOT_SWAP = 0x1FF from by decide,
    lorLandDistrib, lorLandDistrib, shiftLeftLandSmall k 12 0x1FF (by decide),
    maskAbsorb m 0x1FF hm, show (30 : Nat) &&& 0x1FF = 30 from by decide, hm,
    show PTE_SWAP &&& 0x1FF = 0 from by decide, Nat.zero_or, Nat.or_zero]

theorem resEnc_V (pa m : Nat) (hm : m &&& 30 = m) :
    (PA2PTE pa ||| m ||| PTE_V) &&& PTE_V ≠ 0 := by
  rw [lorLandDistrib, lorLandDistrib, PA2PTE, shiftLeftLandSmall _ 10 PTE_V (by decide),
    maskAbsorb m PTE_V hm, show (30 : Nat) &&& PTE_V = 0 from by decide, Nat.and_zero,
    show PTE_V &&& PTE_V = PTE_V from by decide]
  decide

theorem resEnc_RWXU (pa m : Nat) (hm : m &&& 30 = m) :
    (PA2PTE pa ||| m ||| PTE_V) &&& 30 = m := by
  rw [lorLandDistrib, lorLandDistrib, PA2PTE, shiftLeftLandSmall _ 10 30 (by decide),
    hm, show PTE_V &&& 30 = 0 from by decide, Nat.zero_or, Nat.or_zero]

theorem resEnc_PA (pa m : Nat) (hm : m &&& 30 = m) (hpa : pa % PGSIZE = 0) :
    PTE2PA (PA2PTE pa ||| m ||| PTE_V) = pa := by
  have hle : m ≤ 30 := by conv_lhs => rw [← hm]
                          exact Nat.and_le_right
  have hdvd : (2 : Nat) ^ 12 ∣ pa :=
    Nat.dvd_of_mod_eq_zero (by rw [show (2 : Nat) ^ 12 = PGSIZE from by decide]; exact hpa)
  rw [PTE2PA, PA2PTE, lorShiftRight, lorShiftRight, shiftLeftShiftRightSelf,
    shiftRightSmall m 10 (lt_of_le_of_lt hle (by decide)),
    show PTE_V >>> 10 = 0 from by decide, Nat.or_zero, Nat.or_zero,
    Nat.shiftRight_eq_div_pow, Nat.shiftLeft_eq]
  exact Nat.div_mul_cancel hdvd

/-- The `usertrap` page-fault arm on a state whose leaf PTE for `va` is
the swapped-out encoding and whose free-list head is `pa`: it allocates
`pa`, reads the swap slot into it, frees the slot and installs a resident
leaf `PA2PTE pa | m | PTE_V`; the process is not killed. -/
theorem trap_swapin_single (fuel : Nat) (t : Kstate) {root va v2 v1 m k pa : Nat}
    {rest : List Nat}
    (hva : va < KERNBASE)
    (h2 : t.ptmem root (PX 2 va) = v2) (h2v : v2 &&& PTE_V ≠ 0)
    (h1 : t.ptmem (PTE2PA v2) (PX 1 va) = v1) (h1v : v1 &&& PTE_V ≠ 0)
    (hleaf : t.ptmem (PTE2PA v1) (PX 0 va) = (k <<< 12) ||| m ||| PTE_SWAP)
    (hm : m &&& 30 = m)
    (hfree : t.freelist = pa :: rest)
    (hk : k < t.swap_bitmap.length)
    (hd3 : PTE2PA v1 ≠ pa)
    (hinlru : (t.lru.pages (pa / PGSIZE)).in_lru = false)
    (hispt : (t.lru.pages (pa / PGSIZE)).is_page_table = false) :
    ∃ sT, usertrap_swapin (fuel + 1) t root va = .ok (false, sT) ∧
      sT.ptmem (PTE2PA v1) (PX 0 va) = PA2PTE pa ||| m ||| PTE_V ∧
      sT.datamem pa = t.swapdev k := by
  have hva' : va < MAXVA := lt_trans hva (by decide)
  have hw := walk0_chain hva' h2 h2v h1 h1v
  have hS : ((k <<< 12) ||| m ||| PTE_SWAP) &&& PTE_SWAP ≠ 0 := by
    rw [swEnc_S k m hm]; decide
  have hppn := swEnc_PPN k m hm
  have hrwxu : (PTE_R ||| PTE_W ||| PTE_X ||| PTE_U) = 30 := by decide
  have hfl := swEnc_flags k m hm
  have hns : m &&& NOT_SWAP = m := by
    rw [maskAbsorb m NOT_SWAP hm, show (30 : Nat) &&& NOT_SWAP = 30 from by decide, hm]
  have hkk : ¬ t.swap_bitmap.length ≤ k := not_le.mpr hk
  exact ⟨_,
    by simp [usertrap_swapin, usertrap_alloc_retry, kalloc, hfree, swapread, freeswap,
         setPte, hw, hleaf, hS, hppn, hrwxu, hfl, hns, hkk, hd3, hinlru, hispt, hva']
       rfl,
    by simp [lru_add],
    by simp [lru_add]⟩

/-- `walkaddr`'s implicit swap-in on a state whose leaf PTE for `va` is
the swapped-out encoding and whose free-list head is `pa`: it allocates
`pa`, reads the swap slot, frees the slot, installs a resident leaf
`PA2PTE pa | m | PTE_V` and returns `pa`. -/
theorem walkaddr_swapin_single (fuel : Nat) (t : Kstate) {root va v2 v1 m k pa : Nat}
    {rest : List Nat}
    (hva : va < KERNBASE) (hva0 : va ≠ 0)
    (h2 : t.ptmem root (PX 2 va) = v2) (h2v : v2 &&& PTE_V ≠ 0)
    (h1 : t.ptmem (PTE2PA v2) (PX 1 va) = v1) (h1v : v1 &&& PTE_V ≠ 0)
    (hleaf : t.ptmem (PTE2PA v1) (PX 0 va) = (k <<< 12) ||| m ||| PTE_SWAP)
    (hm : m &&& 30 = m)
    (hfree : t.freelist = pa :: rest)
    (hk : k < t.swap_bitmap.length)
    (hd3 : PTE2PA v1 ≠ pa)
    (hinlru : (t.lru.pages (pa / PGSIZE)).in_lru = false)
    (hispt : (t.lru.pages (pa / PGSIZE)).is_page_table = false) :
    ∃ sW, walkaddr (fuel + 1) t root va = .ok (pa, sW) ∧
      sW.ptmem (PTE2PA v1) (PX 0 va) = PA2PTE pa ||| m ||| PTE_V ∧
      sW.datamem pa = t.swapdev k := by
  have hva' : va < MAXVA := lt_trans hva (by decide)
  have hw := walk0_chain hva' h2 h2v h1 h1v
  have hV := swEnc_V k m hm
  have hS : ((k <<< 12) ||| m ||| PTE_SWAP) &&& PTE_SWAP ≠ 0 := by
    rw [swEnc_S k m hm]; decide
  have hppn := swEnc_PPN k m hm
  have hfns := swEnc_flagsNS k m hm
  have hkk : ¬ t.swap_bitmap.length ≤ k := not_le.mpr hk
  exact ⟨_,
    by simp [walkaddr, kalloc, hfree, swapread, freeswap, setPte, hw, hleaf,
         hV, hS, hppn, hfns, hkk, hd3, hinlru, hispt, hva', hva0]
       rfl,
    by simp [lru_add],
    by simp [lru_add]⟩

/-- C2: for any user page with a resident leaf PTE `pte` (any R/W/X
permissions, Access bit set or clear) that is the single node of the LRU
list, `evictpage` completes successfully -- writing the page's bytes to
the first free swap slot and rewriting the PTE to the swapped-out
encoding -- and faulting the page back in, either through the `usertrap`
swap path or through `walkaddr`'s implicit swap-in (both of which read
the slot index recovered from the PTE), completes without panic and
yields a resident leaf PTE (`V` set) with exactly the original R/W/X/U
permission bits, mapping a frame whose bytes equal the bytes the page
held before eviction. -/
theorem c2_evict_swapin_roundtrip (fuel f1 f2 : Nat) (s : Kstate)
    {root va v2 v1 pte k : Nat}
    (hva : va < KERNBASE) (hva0 : va ≠ 0)
    (h2 : s.ptmem root (PX 2 va) = v2) (h2v : v2 &&& PTE_V ≠ 0)
    (h1 : s.ptmem (PTE2PA v2) (PX 1 va) = v1) (h1v : v1 &&& PTE_V ≠ 0)
    (hleaf : s.ptmem (PTE2PA v1) (PX 0 va) = pte) (hpv : pte &&& PTE_V ≠ 0)
    (h64 : pte < 2 ^ 64)
    (hhead : s.lru.lru_head = some (PTE2PA pte / PGSIZE))
    (htail : s.lru.lru_tail = some (PTE2PA pte / PGSIZE))
    (hpage : s.lru.pages (PTE2PA pte / PGSIZE) =
      ⟨false, true, root, va, some (PTE2PA pte / PGSIZE), some (PTE2PA pte / PGSIZE)⟩)
    (hclock : s.clock_hand = none)
    (hswap : s.swap_bitmap.findIdx? (· = false) = some k)
    (hlo : KERNEND ≤ PTE2PA pte) (hhi : PTE2PA pte < PHYSTOP)
    (hd1 : PTE2PA pte ≠ root) (hd2 : PTE2PA pte ≠ PTE2PA v2) (hd3 : PTE2PA pte ≠ PTE2PA v1)
    (hd4 : PTE2PA v1 ≠ root) (hd5 : PTE2PA v1 ≠ PTE2PA v2) :
    ∃ sE sT sW,
      evictpage (fuel + 1) s = .ok (true, sE) ∧
      usertrap_swapin (f1 + 1) sE root va = .ok (false, sT) ∧
      walkaddr (f2 + 1) sE root va = .ok (PTE2PA pte, sW) ∧
      sT.ptmem (PTE2PA v1) (PX 0 va) &&& PTE_V ≠ 0 ∧
      sT.ptmem (PTE2PA v1) (PX 0 va) &&& (PTE_R ||| PTE_W ||| PTE_X ||| PTE_U) =
        pte &&& (PTE_R ||| PTE_W ||| PTE_X ||| PTE_U) ∧
      PTE2PA (sT.ptmem (PTE2PA v1) (PX 0 va)) = PTE2PA pte ∧
      sT.datamem (PTE2PA pte) = s.datamem (PTE2PA pte) ∧
      sW.ptmem (PTE2PA v1) (PX 0 va) &&& PTE_V ≠ 0 ∧
      sW.ptmem (PTE2PA v1) (PX 0 va) &&& (PTE_R ||| PTE_W ||| PTE_X ||| PTE_U) =
        pte &&& (PTE_R ||| PTE_W ||| PTE_X ||| PTE_U) ∧
      PTE2PA (sW.ptmem (PTE2PA v1) (PX 0 va)) = PTE2PA pte ∧
      sW.datamem (PTE2PA pte) = s.datamem (PTE2PA pte) := by
  obtain ⟨sE, hE, hE2, hE1, hEl, hEfree, hEbit, hEdev, hEin, hEpt⟩ :=
    evictpage_single fuel s hva h2 h2v h1 h1v hleaf hpv h64 hhead htail hpage hclock
      hswap hlo hhi hd1 hd2 hd3 hd4 hd5
  have hm : (pte &&& 30) &&& 30 = pte &&& 30 := by
    rw [Nat.land_assoc, show (30 : Nat) &&& 30 = 30 from by decide]
  have hk : k < sE.swap_bitmap.length := by
    rw [hEbit, List.length_set]
    exact (List.findIdx?_eq_some_iff_findIdx_eq.mp hswap).1
  obtain ⟨sT, hT, hTl, hTd⟩ :=
    trap_swapin_single f1 sE hva hE2 h2v hE1 h1v hEl hm hEfree hk (Ne.symm hd3) hEin hEpt
  obtain ⟨sW, hW, hWl, hWd⟩ :=
    walkaddr_swapin_single f2 sE hva hva0 hE2 h2v hE1 h1v hEl hm hEfree hk
      (Ne.symm hd3) hEin hEpt
  have hrwxu : (PTE_R ||| PTE_W ||| PTE_X ||| PTE_U) = 30 := by decide
  refine ⟨sE, sT, sW, hE, hT, hW, ?_, ?_, ?_, ?_, ?_, ?_, ?_, ?_⟩
  · rw [hTl]; exact resEnc_V _ _ hm
  · rw [hTl, hrwxu, resEnc_RWXU _ _ hm]
  · rw [hTl, resEnc_PA _ _ hm (PTE2PA_mod pte)]
  · rw [hTd, hEdev]
  · rw [hWl]; exact resEnc_V _ _ hm
  · rw [hWl, hrwxu, resEnc_RWXU _ _ hm]
  · rw [hWl, resEnc_PA _ _ hm (PTE2PA_mod pte)]
  · rw [hWd, hEdev]

/-- Witness for `c2_evict_swapin_roundtrip`: the concrete single-page
state `sRound` with bytes `(o + 11) % 256`, permissions R/W/X/U and the
Access bit set. -/
theorem c2_evict_swapin_roundtrip_witness :
    ∃ sE sT sW,
      evictpage 10 (sRound (fun o => (o + 11) % 256) true true true true) = .ok (true, sE) ∧
      usertrap_swapin 10 sE rootPT userVA = .ok (false, sT) ∧
      walkaddr 10 sE rootPT userVA = .ok (userPA, sW) ∧
      sT.ptmem l0PT (PX 0 userVA) &&& PTE_V ≠ 0 ∧
      sT.ptmem l0PT (PX 0 userVA) &&& (PTE_R ||| PTE_W ||| PTE_X ||| PTE_U) =
        (PA2PTE userPA ||| permBits true true true ||| PTE_A ||| PTE_V) &&&
          (PTE_R ||| PTE_W ||| PTE_X ||| PTE_U) ∧
      PTE2PA (sT.ptmem l0PT (PX 0 userVA)) = userPA ∧
      sT.datamem userPA =
        (sRound (fun o => (o + 11) % 256) true true true true).datamem userPA ∧
      sW.ptmem l0PT (PX 0 userVA) &&& PTE_V ≠ 0 ∧
      sW.ptmem l0PT (PX 0 userVA) &&& (PTE_R ||| PTE_W ||| PTE_X ||| PTE_U) =
        (PA2PTE userPA ||| permBits true true true ||| PTE_A ||| PTE_V) &&&
          (PTE_R ||| PTE_W ||| PTE_X ||| PTE_U) ∧
      PTE2PA (sW.ptmem l0PT (PX 0 userVA)) = userPA ∧
      sW.datamem userPA =
        (sRound (fun o => (o + 11) % 256) true true true true).datamem userPA :=
  @c2_evict_swapin_roundtrip 9 9 9 (sRound (fun o => (o + 11) % 256) true true true true)
    rootPT userVA (PA2PTE l1PT ||| PTE_V) (PA2PTE l0PT ||| PTE_V)
    (PA2PTE userPA ||| permBits true true true ||| PTE_A ||| PTE_V) 0
    (by decide) (by decide) rfl (by decide) rfl (by decide) rfl (by decide) (by decide)
    rfl rfl rfl rfl rfl (by decide) (by decide) (by decide) (by decide) (by decide)
    (by decide) (by decide)

/-- `walk` with a fully prebuilt chain: when both intermediate PTEs are
already valid, the allocating walk descends without allocating and
leaves the state unchanged. -/
theorem walk_prebuilt (fuel : Nat) (t : Kstate) {pt va w2 w1 : Nat} (alloc : Bool)
    (hva : va < MAXVA)
    (h2 : t.ptmem pt (PX 2 va) = w2) (h2v : w2 &&& PTE_V ≠ 0)
    (h1 : t.ptmem (PTE2PA w2) (PX 1 va) = w1) (h1v : w1 &&& PTE_V ≠ 0) :
    walk fuel t pt va alloc = .ok (some (PTE2PA w1, PX 0 va), t) := by
  have hnva : ¬ MAXVA ≤ va := not_le.mpr hva
  unfold walk
  rw [if_neg hnva]
  show (match walkLevel fuel va alloc (1 + 1) pt t with
    | Except.error e => Except.error e
    | Except.ok (none, s) => Except.ok (none, s)
    | Except.ok (some base, s) => Except.ok (some (base, PX 0 va), s)) =
      Except.ok (some (PTE2PA w1, PX 0 va), t)
  simp [walkLevel, h2, h2v, h1, h1v, hnva]

/-- C5: `uvmcopy` over one page whose parent PTE is swapped-out, with the
child's intermediate page tables prebuilt and one free frame `mem`: the
copy succeeds, the child receives a resident leaf `PA2PTE mem | m | V`
carrying exactly the parent's R/W/X/U bits `m`, the fresh frame is
filled from the parent's swap slot, and the parent's PTE word, the swap
bitmap and the slot contents are all left unchanged. -/
theorem c5_uvmcopy_swapped_deep_copy (fuel : Nat) (s : Kstate)
    {old new v2 v1 w2 w1 m k mem : Nat} {rest : List Nat}
    (hp2 : s.ptmem old (PX 2 0) = v2) (hp2v : v2 &&& PTE_V ≠ 0)
    (hp1 : s.ptmem (PTE2PA v2) (PX 1 0) = v1) (hp1v : v1 &&& PTE_V ≠ 0)
    (hpl : s.ptmem (PTE2PA v1) (PX 0 0) = (k <<< 12) ||| m ||| PTE_SWAP)
    (hm : m &&& 30 = m) (hU : m &&& PTE_U ≠ 0)
    (hc2 : s.ptmem new (PX 2 0) = w2) (hc2v : w2 &&& PTE_V ≠ 0)
    (hc1 : s.ptmem (PTE2PA w2) (PX 1 0) = w1) (hc1v : w1 &&& PTE_V ≠ 0)
    (hcl : s.ptmem (PTE2PA w1) (PX 0 0) = 0)
    (hfree : s.freelist = mem :: rest)
    (hm3 : PTE2PA v1 ≠ mem)
    (hm4 : new ≠ mem) (hm5 : PTE2PA w2 ≠ mem) (hm6 : PTE2PA w1 ≠ mem)
    (hw1v1 : PTE2PA w1 ≠ PTE2PA v1)
    (hinlru : (s.lru.pages (mem / PGSIZE)).in_lru = false)
    (hispt : (s.lru.pages (mem / PGSIZE)).is_page_table = false) :
    ∃ sC, uvmcopy (fuel + 1) s old new PGSIZE = .ok (0, sC) ∧
      sC.ptmem (PTE2PA w1) (PX 0 0) = PA2PTE mem ||| m ||| PTE_V ∧
      sC.ptmem (PTE2PA v1) (PX 0 0) = (k <<< 12) ||| m ||| PTE_SWAP ∧
      sC.swap_bitmap = s.swap_bitmap ∧
      sC.swapdev = s.swapdev ∧
      sC.datamem mem = s.swapdev k := by
  have hva' : (0 : Nat) < MAXVA := by decide
  have hw0 := walk0_chain hva' hp2 hp2v hp1 hp1v
  have hV := swEnc_V k m hm
  have hS : ((k <<< 12) ||| m ||| PTE_SWAP) &&& PTE_SWAP ≠ 0 := by
    rw [swEnc_S k m hm]; decide
  have hppn := swEnc_PPN k m hm
  have hrwxu : (PTE_R ||| PTE_W ||| PTE_X ||| PTE_U) = 30 := by decide
  have hfl := swEnc_flags k m hm
  have hdiv : PGSIZE / PGSIZE = 1 := by decide
  have hmod : PGSIZE % PGSIZE = 0 := by decide
  have hpg : PGSIZE ≠ 0 := by decide
  have hMX : MAXVA ≠ 0 := by decide
  have h0 : (0 : Nat) < PGSIZE := by decide
  have hv1w1 : PTE2PA v1 ≠ PTE2PA w1 := Ne.symm hw1v1
  exact ⟨_,
    by simp [uvmcopy, uvmcopyLoop, hw0, hpl, hV, hS, kalloc, hfree, hppn, swapread,
         setPte, mappages, mappagesLoop, walk, walkLevel, hdiv, hmod, hpg, hMX, h0,
         hm3, hm4, hm5, hm6, hc2, hc2v, hc1, hc1v, hcl, hrwxu, hfl, hU,
         hinlru, hispt, hv1w1, hw1v1, hva']
       rfl,
    by simp [lru_add],
    by simp [lru_add, hv1w1, hm3, hpl],
    by simp [lru_add],
    by simp [lru_add],
    by simp [lru_add]⟩

/-- Concrete child root page-table page address. -/
def childRoot : Nat := 0x87004000
/-- Concrete child level-1 page-table page address. -/
def childL1 : Nat := 0x87005000
/-- Concrete child level-0 page-table page address. -/
def childL0 : Nat := 0x87006000

/-- Concrete state for the `uvmcopy` swapped-page witness: parent chain
`rootPT → l1PT → l0PT` with the page at va 0 swapped out to slot 0
(R/W/X/U), child chain `childRoot → childL1 → childL0` prebuilt with an
empty leaf, one free frame and slot 0 holding known bytes. -/
def sCopy : Kstate :=
  { base0 with
    freelist := [userPA],
    swap_bitmap := [true],
    swapdev := fun b => if b = 0 then (fun o => o + 3) else (fun _ => 0),
    ptmem := fun b i =>
      if b = rootPT ∧ i = PX 2 0 then PA2PTE l1PT ||| PTE_V
      else if b = l1PT ∧ i = PX 1 0 then PA2PTE l0PT ||| PTE_V
      else if b = l0PT ∧ i = PX 0 0 then (0 <<< 12) ||| 30 ||| PTE_SWAP
      else if b = childRoot ∧ i = PX 2 0 then PA2PTE childL1 ||| PTE_V
      else if b = childL1 ∧ i = PX 1 0 then PA2PTE childL0 ||| PTE_V
      else 0 }

/-- Witness for `c5_uvmcopy_swapped_deep_copy` at the concrete state
`sCopy`. -/
theorem c5_uvmcopy_swapped_deep_copy_witness :
    ∃ sC, uvmcopy 10 sCopy rootPT childRoot PGSIZE = .ok (0, sC) ∧
      sC.ptmem childL0 (PX 0 0) = PA2PTE userPA ||| 30 ||| PTE_V ∧
      sC.ptmem l0PT (PX 0 0) = (0 <<< 12) ||| 30 ||| PTE_SWAP ∧
      sC.swap_bitmap = sCopy.swap_bitmap ∧
      sC.swapdev = sCopy.swapdev ∧
      sC.datamem userPA = sCopy.swapdev 0 :=
  @c5_uvmcopy_swapped_deep_copy 9 sCopy rootPT childRoot
    (PA2PTE l1PT ||| PTE_V) (PA2PTE l0PT ||| PTE_V)
    (PA2PTE childL1 ||| PTE_V) (PA2PTE childL0 ||| PTE_V) 30 0 userPA []
    rfl (by decide) rfl (by decide) rfl (by decide) (by decide)
    rfl (by decide) rfl (by decide) rfl rfl
    (by decide) (by decide) (by decide) (by decide) (by decide) rfl rfl

/-!  C8.  The `is_page_table` / `in_lru` mutual exclusion invariant. -/

/-- Boundary index: metadata entries at indices `>= KERNBASE / PGSIZE`
correspond to direct-map frame addresses (used by `lru_add` call sites),
while `walk`/`freewalk` index `pages[]` by `(address - KERNBASE)/PGSIZE`,
which for allocatable frames is `< (PHYSTOP - KERNBASE)/PGSIZE`, far
below `KERNBASE / PGSIZE`.  The two families never collide. -/
def KBIDX : Nat := KERNBASE / PGSIZE

/-- Invariant on the LRU globals: `in_lru` entries sit at direct-map
indices, `is_page_table` entries sit below `KBIDX`, and every list
pointer (node `next`/`prev`, `lru_head`, `lru_tail`) targets a
direct-map index. -/
structure LruInv (l : LruSt) : Prop where
  inlru_hi : ∀ i, (l.pages i).in_lru = true → KBIDX ≤ i
  pt_lo : ∀ i, (l.pages i).is_page_table = true → i < KBIDX
  next_hi : ∀ i j, (l.pages i).next = some j → KBIDX ≤ j
  prev_hi : ∀ i j, (l.pages i).prev = some j → KBIDX ≤ j
  head_hi : ∀ j, l.lru_head = some j → KBIDX ≤ j
  tail_hi : ∀ j, l.lru_tail = some j → KBIDX ≤ j

/-- Invariant on the full state: the LRU invariant, a direct-map clock
cursor, and a free-list of allocatable frame addresses. -/
structure C8Inv (s : Kstate) : Prop where
  lru : LruInv s.lru
  clock_hi : ∀ j, s.clock_hand = some j → KBIDX ≤ j
  free_range : ∀ pa ∈ s.freelist, KERNEND ≤ pa ∧ pa < PHYSTOP

/-- Rebuild an `LruInv` along field-wise equalities. -/
theorem lruInv_cast {l l2 : LruSt} (h : LruInv l)
    (hp : l2.pages = l.pages) (hh : l2.lru_head = l.lru_head)
    (ht : l2.lru_tail = l.lru_tail) : LruInv l2 := by
  refine ⟨?_, ?_, ?_, ?_, ?_, ?_⟩
  · intro i; rw [hp]; exact h.inlru_hi i
  · intro i; rw [hp]; exact h.pt_lo i
  · intro i j; rw [hp]; exact h.next_hi i j
  · intro i j; rw [hp]; exact h.prev_hi i j
  · intro j; rw [hh]; exact h.head_hi j
  · intro j; rw [ht]; exact h.tail_hi j

/-- A pointwise metadata update preserves `LruInv` when the written
entry respects the four per-entry bounds. -/
theorem pupd_inv {l : LruSt} {p : Nat} {g : Page → Page} (h : LruInv l)
    (hin : (g (l.pages p)).in_lru = true → KBIDX ≤ p)
    (hpt : (g (l.pages p)).is_page_table = true → p < KBIDX)
    (hnx : ∀ j, (g (l.pages p)).next = some j → KBIDX ≤ j)
    (hpv : ∀ j, (g (l.pages p)).prev = some j → KBIDX ≤ j) :
    LruInv { l with pages := pupd l.pages p g } := by
  refine ⟨?_, ?_, ?_, ?_, h.head_hi, h.tail_hi⟩
  · intro a ha
    by_cases hap : a = p
    · subst hap; exact hin (by simpa [pupd] using ha)
    · exact h.inlru_hi a (by simpa [pupd, hap] using ha)
  · intro a ha
    by_cases hap : a = p
    · subst hap; exact hpt (by simpa [pupd] using ha)
    · exact h.pt_lo a (by simpa [pupd, hap] using ha)
  · intro a j ha
    by_cases hap : a = p
    · subst hap; exact hnx j (by simpa [pupd] using ha)
    · exact h.next_hi a j (by simpa [pupd, hap] using ha)
  · intro a j ha
    by_cases hap : a = p
    · subst hap; exact hpv j (by simpa [pupd] using ha)
    · exact h.prev_hi a j (by simpa [pupd, hap] using ha)

theorem setNextL_inv {l : LruSt} {p : Nat} {v : Option Nat} (h : LruInv l)
    (hv : ∀ j, v = some j → KBIDX ≤ j) : LruInv (setNextL l p v) :=
  pupd_inv h (h.inlru_hi p) (h.pt_lo p) hv (h.prev_hi p)

theorem setPrevL_inv {l : LruSt} {p : Nat} {v : Option Nat} (h : LruInv l)
    (hv : ∀ j, v = some j → KBIDX ≤ j) : LruInv (setPrevL l p v) :=
  pupd_inv h (h.inlru_hi p) (h.pt_lo p) (h.next_hi p) hv

theorem setInLruL_inv {l : LruSt} {p : Nat} {b : Bool} (h : LruInv l)
    (hb : b = true → KBIDX ≤ p) : LruInv (setInLruL l p b) :=
  pupd_inv h hb (h.pt_lo p) (h.next_hi p) (h.prev_hi p)

theorem setVaddrL_inv {l : LruSt} {p v : Nat} (h : LruInv l) :
    LruInv (setVaddrL l p v) :=
  pupd_inv h (h.inlru_hi p) (h.pt_lo p) (h.next_hi p) (h.prev_hi p)

/-- The `if (lru_head == p) lru_head = p->next` fix-up. -/
theorem headfix_inv (x : LruSt) (p : Nat) (hx : LruInv x) :
    LruInv (if x.lru_head = some p then { x with lru_head := (x.pages p).next } else x) := by
  split
  · exact ⟨hx.inlru_hi, hx.pt_lo, hx.next_hi, hx.prev_hi, hx.next_hi p, hx.tail_hi⟩
  · exact hx

/-- The `if (lru_tail == p) lru_tail = p->prev` fix-up. -/
theorem tailfix_inv (x : LruSt) (p : Nat) (hx : LruInv x) :
    LruInv (if x.lru_tail = some p then { x with lru_tail := (x.pages p).prev } else x) := by
  split
  · exact ⟨hx.inlru_hi, hx.pt_lo, hx.next_hi, hx.prev_hi, hx.head_hi, hx.prev_hi p⟩
  · exact hx

/-- The `if (p->prev) p->prev->next = p->next` unlink step. -/
theorem unlink_step1_inv (x : LruSt) (p : Nat) (hx : LruInv x) :
    LruInv (match (x.pages p).prev with
            | some q => setNextL x q (x.pages p).next
            | none => x) := by
  cases hc : (x.pages p).prev with
  | none => exact hx
  | some q => exact setNextL_inv hx (hx.next_hi p)

/-- The `if (p->next) p->next->prev = p->prev` unlink step. -/
theorem unlink_step2_inv (x : LruSt) (p : Nat) (hx : LruInv x) :
    LruInv (match (x.pages p).next with
            | some q => setPrevL x q (x.pages p).prev
            | none => x) := by
  cases hc : (x.pages p).next with
  | none => exact hx
  | some q => exact setPrevL_inv hx (hx.prev_hi p)

/-- The `if (lru_head) lru_head->prev = lru_tail` step of `lru_remove`. -/
theorem remove_step3_inv (x : LruSt) (hx : LruInv x) :
    LruInv (match x.lru_head with
            | some hh => setPrevL x hh x.lru_tail
            | none => x) := by
  cases hc : x.lru_head with
  | none => exact hx
  | some hh => exact setPrevL_inv hx hx.tail_hi

/-- The `if (lru_tail) lru_tail->next = lru_head` step of `lru_remove`. -/
theorem remove_step4_inv (x : LruSt) (hx : LruInv x) :
    LruInv (match x.lru_tail with
            | some t => setNextL x t x.lru_head
            | none => x) := by
  cases hc : x.lru_tail with
  | none => exact hx
  | some t => exact setNextL_inv hx hx.head_hi

/-- The tail-insertion phase of `lru_add` preserves the invariant. -/
theorem lru_linkphase_inv (l1 : LruSt) (p : Nat) (was : Bool) (h : LruInv l1)
    (hp : KBIDX ≤ p) :
    LruInv (
      if l1.lru_head = none then
        let a := { l1 with lru_head := some p, lru_tail := some p }
        let b := setPrevL (setNextL a p (some p)) p (some p)
        let c := setInLruL b p true
        { c with num_lru_pages := 1 }
      else
        let a := setNextL l1 p l1.lru_head
        let b := setPrevL a p a.lru_tail
        let c := match b.lru_head with
                 | some hh => setPrevL b hh (some p)
                 | none => b
        let d := match c.lru_tail with
                 | some t => setNextL c t (some p)
                 | none => c
        let e := { d with lru_tail := some p }
        let f := setInLruL e p true
        if was then f else { f with num_lru_pages := f.num_lru_pages + 1 }) := by
  have hsome : ∀ j : Nat, some p = some j → KBIDX ≤ j := by
    intro j hj; cases hj; exact hp
  split
  · dsimp only
    have hA2 : LruInv { l1 with lru_head := some p, lru_tail := some p } :=
      ⟨h.inlru_hi, h.pt_lo, h.next_hi, h.prev_hi, hsome, hsome⟩
    exact lruInv_cast (setInLruL_inv (setPrevL_inv (setNextL_inv hA2 hsome) hsome)
      (fun _ => hp)) rfl rfl rfl
  · dsimp only
    have ha : LruInv (setNextL l1 p l1.lru_head) := setNextL_inv h h.head_hi
    generalize hA : setNextL l1 p l1.lru_head = A at ha ⊢
    have hb : LruInv (setPrevL A p A.lru_tail) := setPrevL_inv ha ha.tail_hi
    generalize hB : setPrevL A p A.lru_tail = B at hb ⊢
    have hc : LruInv (match B.lru_head with
        | some hh => setPrevL B hh (some p)
        | none => B) := by
      cases hch : B.lru_head with
      | none => exact hb
      | some hh => exact setPrevL_inv hb hsome
    generalize hC : (match B.lru_head with
        | some hh => setPrevL B hh (some p)
        | none => B) = C at hc ⊢
    have hd : LruInv (match C.lru_tail with
        | some t => setNextL C t (some p)
        | none => C) := by
      cases hct : C.lru_tail with
      | none => exact hc
      | some t => exact setNextL_inv hc hsome
    generalize hD : (match C.lru_tail with
        | some t => setNextL C t (some p)
        | none => C) = D at hd ⊢
    have he : LruInv { D with lru_tail := some p } :=
      ⟨hd.inlru_hi, hd.pt_lo, hd.next_hi, hd.prev_hi, hd.head_hi, hsome⟩
    have hf : LruInv (setInLruL { D with lru_tail := some p } p true) :=
      setInLruL_inv he (fun _ => hp)
    split
    · exact hf
    · exact lruInv_cast hf rfl rfl rfl
/-- `lru_add` preserves the LRU invariant when the added index is a
direct-map index (as at every call site, where it is `pa / PGSIZE` of a
mapped frame). -/
theorem lru_addL_inv {l : LruSt} {p pt va : Nat} (h : LruInv l) (hp : KBIDX ≤ p) :
    LruInv (lru_addL l p pt va) := by
  unfold lru_addL
  split
  · exact h
  split
  · exact h
  split
  · exact h
  split
  · exact h
  dsimp only
  have h0 : LruInv { l with pages := pupd l.pages p (fun e => { e with pagetable := pt, vaddr := va }) } :=
    pupd_inv h (h.inlru_hi p) (h.pt_lo p) (h.next_hi p) (h.prev_hi p)
  by_cases hw : (pupd l.pages p (fun e => { e with pagetable := pt, vaddr := va }) p).in_lru = true
  · simp only [if_pos hw]
    by_cases hs : l.lru_head = some p ∧
        (pupd l.pages p (fun e => { e with pagetable := pt, vaddr := va }) p).next = none ∧
        (pupd l.pages p (fun e => { e with pagetable := pt, vaddr := va }) p).prev = none
    · simp only [if_pos hs]
      exact lru_linkphase_inv _ p true h0 hp
    · simp only [if_neg hs]
      have hU : LruInv (
          let L0 : LruSt := { l with pages := pupd l.pages p (fun e => { e with pagetable := pt, vaddr := va }) }
          let m1 := match (L0.pages p).prev with
                    | some q => setNextL L0 q (L0.pages p).next
                    | none => L0
          let m2 := match (m1.pages p).next with
                    | some q => setPrevL m1 q (m1.pages p).prev
                    | none => m1
          let m3 := if m2.lru_head = some p then { m2 with lru_head := (m2.pages p).next } else m2
          let m4 := if m3.lru_tail = some p then { m3 with lru_tail := (m3.pages p).prev } else m3
          let m5 := setPrevL (setNextL m4 p none) p none
          let m6 := setInLruL m5 p false
          { m6 with num_lru_pages := m6.num_lru_pages - 1 }) := by
        dsimp only
        have hm1 := unlink_step1_inv { l with pages := pupd l.pages p (fun e => { e with pagetable := pt, vaddr := va }) } p h0
        generalize hM1 : (match ({ l with pages := pupd l.pages p (fun e => { e with pagetable := pt, vaddr := va }) } : LruSt).pages p |>.prev with
            | some q => setNextL { l with pages := pupd l.pages p (fun e => { e with pagetable := pt, vaddr := va }) } q (({ l with pages := pupd l.pages p (fun e => { e with pagetable := pt, vaddr := va }) } : LruSt).pages p).next
            | none => { l with pages := pupd l.pages p (fun e => { e with pagetable := pt, vaddr := va }) }) = M1 at hm1 ⊢
        have hm2 := unlink_step2_inv M1 p hm1
        generalize hM2 : (match (M1.pages p).next with
            | some q => setPrevL M1 q (M1.pages p).prev
            | none => M1) = M2 at hm2 ⊢
        have hm3 := headfix_inv M2 p hm2
        generalize hM3 : (if M2.lru_head = some p then
            { M2 with lru_head := (M2.pages p).next } else M2) = M3 at hm3 ⊢
        have hm4 := tailfix_inv M3 p hm3
        generalize hM4 : (if M3.lru_tail = some p then
            { M3 with lru_tail := (M3.pages p).prev } else M3) = M4 at hm4 ⊢
        have hnone : ∀ j : Nat, (none : Option Nat) = some j → KBIDX ≤ j := by
          intro j hj; exact absurd hj (by simp)
        have hm6 : LruInv (setInLruL (setPrevL (setNextL M4 p none) p none) p false) :=
          setInLruL_inv (setPrevL_inv (setNextL_inv hm4 hnone) hnone) (by simp)
        exact lruInv_cast hm6 rfl rfl rfl
      exact lru_linkphase_inv _ p true hU hp
  · simp only [if_neg hw]
    exact lru_linkphase_inv _ p false h0 hp

/-- `lru_remove` preserves the LRU invariant unconditionally. -/
theorem lru_removeL_inv {l : LruSt} {p : Nat} (h : LruInv l) :
    LruInv (lru_removeL l p) := by
  unfold lru_removeL
  split
  · dsimp only
    have hnone : ∀ j : Nat, (none : Option Nat) = some j → KBIDX ≤ j := by
      intro j hj; exact absurd hj (by simp)
    by_cases hs : l.lru_head = some p ∧ l.lru_head = l.lru_tail
    · simp only [if_pos hs]
      have hI : LruInv { l with lru_head := none, lru_tail := none } :=
        ⟨h.inlru_hi, h.pt_lo, h.next_hi, h.prev_hi, hnone, hnone⟩
      exact lruInv_cast (setVaddrL_inv (setInLruL_inv
        (setPrevL_inv (setNextL_inv hI hnone) hnone) (by simp))) rfl rfl rfl
    · simp only [if_neg hs]
      have hI : LruInv (
          let m1 := if l.lru_head = some p then { l with lru_head := (l.pages p).next } else l
          let m2 := if m1.lru_tail = some p then { m1 with lru_tail := (m1.pages p).prev } else m1
          let m3 := match m2.lru_head with
                    | some hh => setPrevL m2 hh m2.lru_tail
                    | none => m2
          match m3.lru_tail with
          | some t => setNextL m3 t m3.lru_head
          | none => m3) := by
        dsimp only
        have hm1 := headfix_inv l p h
        generalize hM1 : (if l.lru_head = some p then
            { l with lru_head := (l.pages p).next } else l) = M1 at hm1 ⊢
        have hm2 := tailfix_inv M1 p hm1
        generalize hM2 : (if M1.lru_tail = some p then
            { M1 with lru_tail := (M1.pages p).prev } else M1) = M2 at hm2 ⊢
        have hm3 := remove_step3_inv M2 hm2
        generalize hM3 : (match M2.lru_head with
            | some hh => setPrevL M2 hh M2.lru_tail
            | none => M2) = M3 at hm3 ⊢
        exact remove_step4_inv M3 hm3
      exact lruInv_cast (setVaddrL_inv (setInLruL_inv
        (setPrevL_inv (setNextL_inv hI hnone) hnone) (by simp))) rfl rfl rfl
  · exact h

/-- The clock scan preserves the LRU invariant and the cursor bound: the
only LRU mutation it performs is the rule-2 relocation
`lru_remove; lru_add` at the cursor index, which the cursor bound keeps
in the direct-map range. -/
theorem svLoop_inv {start : Nat} : ∀ {fuel : Nat} {sc : ScanSt} {v : Option Nat} {sc' : ScanSt},
    LruInv sc.lru → (∀ j, sc.clock_hand = some j → KBIDX ≤ j) →
    svLoop start fuel sc = .ok (v, sc') →
    LruInv sc'.lru ∧ (∀ j, sc'.clock_hand = some j → KBIDX ≤ j)
  | 0, sc, v, sc', h1, h2, h => by simp [svLoop] at h
  | fuel+1, sc, v, sc', h1, h2, h => by
    simp only [svLoop] at h
    split at h
    · exact absurd h (by simp)
    · rename_i ch hch
      split at h
      · exact absurd h (by simp)
      · rename_i opte hopte
        split at h
        · -- rule 1: skip
          split at h
          · simp only [Except.ok.injEq, Prod.mk.injEq] at h
            obtain ⟨-, h⟩ := h
            subst h
            exact ⟨h1, fun j hj => h1.next_hi start j hj⟩
          · refine svLoop_inv ?_ ?_ h
            · exact h1
            · exact fun j hj => h1.next_hi ch j hj
        · split at h
          · exact absurd h (by simp)
          · rename_i b i
            split at h
            · -- rule 2: clear A, advance, maybe relocate
              by_cases htl : sc.lru.lru_tail ≠ some ch
              · simp only [if_pos htl] at h
                have hrel : LruInv (lru_addL (lru_removeL sc.lru ch) ch
                    ((lru_removeL sc.lru ch).pages ch).pagetable
                    ((lru_removeL sc.lru ch).pages ch).vaddr) :=
                  lru_addL_inv (lru_removeL_inv h1) (h2 ch hch)
                split at h
                · simp only [Except.ok.injEq, Prod.mk.injEq] at h
                  obtain ⟨-, h⟩ := h
                  subst h
                  exact ⟨hrel, fun j hj => hrel.next_hi start j hj⟩
                · refine svLoop_inv ?_ ?_ h
                  · exact hrel
                  · exact fun j hj => h1.next_hi ch j hj
              · simp only [if_neg htl] at h
                split at h
                · simp only [Except.ok.injEq, Prod.mk.injEq] at h
                  obtain ⟨-, h⟩ := h
                  subst h
                  exact ⟨h1, fun j hj => h1.next_hi start j hj⟩
                · refine svLoop_inv ?_ ?_ h
                  · exact h1
                  · exact fun j hj => h1.next_hi ch j hj
            · -- rule 3: victim found
              simp only [Except.ok.injEq, Prod.mk.injEq] at h
              obtain ⟨-, h⟩ := h
              subst h
              exact ⟨h1, fun j hj => h1.next_hi ch j hj⟩

/-- Rebuild a `C8Inv` along field-wise equalities. -/
theorem c8Inv_cast {s s2 : Kstate} (h : C8Inv s) (hl : s2.lru = s.lru)
    (hc : s2.clock_hand = s.clock_hand) (hf : s2.freelist = s.freelist) : C8Inv s2 := by
  refine ⟨?_, ?_, ?_⟩
  · rw [hl]; exact h.lru
  · intro j; rw [hc]; exact h.clock_hi j
  · intro pa hpa; rw [hf] at hpa; exact h.free_range pa hpa

/-- `select_victimS` preserves the scan invariant. -/
theorem select_victimS_inv {fuel : Nat} {sc0 : ScanSt} {v : Option Nat} {sc2 : ScanSt}
    (h1 : LruInv sc0.lru) (h2 : ∀ j, sc0.clock_hand = some j → KBIDX ≤ j)
    (h : select_victimS fuel sc0 = .ok (v, sc2)) :
    LruInv sc2.lru ∧ (∀ j, sc2.clock_hand = some j → KBIDX ≤ j) := by
  simp only [select_victimS] at h
  split at h
  · simp only [Except.ok.injEq, Prod.mk.injEq] at h
    obtain ⟨-, h⟩ := h
    subst h
    exact ⟨h1, h2⟩
  · rename_i hd hhd
    by_cases hcl : sc0.clock_hand = none
    · simp only [if_pos hcl] at h
      split at h
      · exact absurd h (by simp)
      · split at h
        · exact absurd h (by simp)
        · refine svLoop_inv ?_ ?_ h
          · exact h1
          · exact fun j hj => h1.head_hi j hj
    · simp only [if_neg hcl] at h
      split at h
      · exact absurd h (by simp)
      · split at h
        · exact absurd h (by simp)
        · refine svLoop_inv ?_ ?_ h
          · exact h1
          · exact h2

/-- `select_victim` preserves the state invariant. -/
theorem select_victim_inv {fuel : Nat} {s : Kstate} {v : Option Nat} {s2 : Kstate}
    (hinv : C8Inv s) (h : select_victim fuel s = .ok (v, s2)) : C8Inv s2 := by
  unfold select_victim at h
  split at h
  · exact absurd h (by simp)
  · rename_i p heq
    obtain ⟨v2, sc⟩ := p
    simp only [Except.ok.injEq, Prod.mk.injEq] at h
    obtain ⟨-, h2⟩ := h
    subst h2
    have hs := select_victimS_inv hinv.lru hinv.clock_hi heq
    exact ⟨hs.1, hs.2, hinv.free_range⟩

/-- `kfree` preserves the state invariant: the pushed frame passed the
range checks. -/
theorem kfree_inv {s : Kstate} {pa : Nat} {s2 : Kstate}
    (hinv : C8Inv s) (h : kfree s pa = .ok s2) : C8Inv s2 := by
  unfold kfree at h
  split at h
  · exact absurd h (by simp)
  · rename_i hc
    push_neg at hc
    simp only [Except.ok.injEq] at h
    subst h
    refine ⟨hinv.lru, hinv.clock_hi, ?_⟩
    intro q hq
    rcases List.mem_cons.mp hq with rfl | hq2
    · exact ⟨hc.2.1, hc.2.2⟩
    · exact hinv.free_range q hq2

set_option maxHeartbeats 1000000 in
/-- `evictpage` preserves the state invariant: its LRU mutations are a
`lru_remove` at the victim and the final metadata clear, and its
free-list change goes through `kfree`'s range checks. -/
theorem evictpage_inv {fuel : Nat} {s : Kstate} {r : Bool} {s2 : Kstate}
    (hinv : C8Inv s) (h : evictpage fuel s = .ok (r, s2)) : C8Inv s2 := by
  simp only [evictpage] at h
  split at h
  · exact absurd h (by simp)
  · rename_i s1 heq
    simp only [Except.ok.injEq, Prod.mk.injEq] at h
    obtain ⟨-, h⟩ := h
    subst h
    exact select_victim_inv hinv heq
  · rename_i victim s1 heq
    have hs1 : C8Inv s1 := select_victim_inv hinv heq
    split at h
    · exact absurd h (by simp)
    · split at h
      · exact absurd h (by simp)
      · rename_i opte hopte
        simp only [Except.ok.injEq, Prod.mk.injEq] at h
        obtain ⟨-, h⟩ := h
        subst h
        exact hs1
      · rename_i b i hopte
        split at h
        · simp only [Except.ok.injEq, Prod.mk.injEq] at h
          obtain ⟨-, h⟩ := h
          subst h
          exact hs1
        · split at h
          · exact absurd h (by simp)
          · rename_i blkno s3 halloc
            obtain ⟨hfind, hrec⟩ := allocswap_spec halloc
            subst hrec
            split at h
            · exact absurd h (by simp)
            · rename_i s4 hkfree
              simp only [Except.ok.injEq, Prod.mk.injEq] at h
              obtain ⟨-, h⟩ := h
              subst h
              have hs3 : C8Inv { s1 with swap_bitmap := s1.swap_bitmap.set blkno true } :=
                ⟨hs1.lru, hs1.clock_hi, hs1.free_range⟩
              have hs4 : C8Inv s4 := by
                refine kfree_inv ?_ hkfree
                exact ⟨lru_removeL_inv hs1.lru, hs1.clock_hi, hs1.free_range⟩
              refine ⟨?_, hs4.clock_hi, hs4.free_range⟩
              exact pupd_inv hs4.lru (by simp) (by simp)
                (fun j hj => hs4.lru.next_hi _ j hj) (fun j hj => hs4.lru.prev_hi _ j hj)

/-- `kalloc` preserves the state invariant. -/
theorem kalloc_inv : ∀ {fuel : Nat} {s : Kstate} {r : Option Nat} {s2 : Kstate},
    C8Inv s → kalloc fuel s = .ok (r, s2) → C8Inv s2
  | 0, s, r, s2, hinv, h => by simp [kalloc] at h
  | fuel+1, s, r, s2, hinv, h => by
    simp only [kalloc] at h
    split at h
    · rename_i q rest hfree
      simp only [Except.ok.injEq, Prod.mk.injEq] at h
      obtain ⟨-, h⟩ := h
      subst h
      refine ⟨hinv.lru, hinv.clock_hi, ?_⟩
      intro pa hpa
      exact hinv.free_range pa (by rw [hfree]; exact List.mem_cons_of_mem _ hpa)
    · split at h
      · exact absurd h (by simp)
      · rename_i s1 hev
        simp only [Except.ok.injEq, Prod.mk.injEq] at h
        obtain ⟨-, h⟩ := h
        subst h
        exact evictpage_inv hinv hev
      · rename_i s1 hev
        exact kalloc_inv (evictpage_inv hinv hev) h

/-- A frame returned by `kalloc` lies in the allocatable range. -/
theorem kalloc_range : ∀ {fuel : Nat} {s : Kstate} {q : Nat} {s2 : Kstate},
    C8Inv s → kalloc fuel s = .ok (some q, s2) → KERNEND ≤ q ∧ q < PHYSTOP
  | 0, s, q, s2, hinv, h => by simp [kalloc] at h
  | fuel+1, s, q, s2, hinv, h => by
    simp only [kalloc] at h
    split at h
    · rename_i q2 rest hfree
      simp only [Except.ok.injEq, Prod.mk.injEq, Option.some.injEq] at h
      obtain ⟨hq, -⟩ := h
      subst hq
      exact hinv.free_range _ (by rw [hfree]; exact List.mem_cons_self _ _)
    · split at h
      · exact absurd h (by simp)
      · rename_i s1 hev
        simp at h
      · rename_i s1 hev
        exact kalloc_range (evictpage_inv hinv hev) h

/-- The index `(newpt - KERNBASE) / PGSIZE` of a kalloc-returned frame
lies strictly below `KBIDX`: page-table flags never reach the direct-map
index range. -/
theorem ptidx_lt_KBIDX {newpt : Nat} (h1 : KERNEND ≤ newpt) (h2 : newpt < PHYSTOP) :
    (newpt - KERNBASE) / PGSIZE < KBIDX := by
  have hs : newpt - KERNBASE ≤ 0x7FFFFFF := by
    have : PHYSTOP = KERNBASE + 0x8000000 := by decide
    omega
  calc (newpt - KERNBASE) / PGSIZE ≤ 0x7FFFFFF / PGSIZE := Nat.div_le_div_right hs
    _ < KBIDX := by decide

/-- `walkLevel` preserves the state invariant: the only metadata write
is the `is_page_table` mark at the low index of a freshly allocated
page-table page. -/
theorem walkLevel_inv : ∀ {level : Nat} {fuel va : Nat} {alloc : Bool} {base : Nat}
    {s : Kstate} {r : Option Nat} {s2 : Kstate},
    C8Inv s → walkLevel fuel va alloc level base s = .ok (r, s2) → C8Inv s2
  | 0, fuel, va, alloc, base, s, r, s2, hinv, h => by
    simp only [walkLevel, Except.ok.injEq, Prod.mk.injEq] at h
    obtain ⟨-, h⟩ := h
    subst h
    exact hinv
  | level+1, fuel, va, alloc, base, s, r, s2, hinv, h => by
    simp only [walkLevel] at h
    split at h
    · exact walkLevel_inv hinv h
    · split at h
      · simp only [Except.ok.injEq, Prod.mk.injEq] at h
        obtain ⟨-, h⟩ := h
        subst h
        exact hinv
      · split at h
        · exact absurd h (by simp)
        · rename_i s1 hal
          simp only [Except.ok.injEq, Prod.mk.injEq] at h
          obtain ⟨-, h⟩ := h
          subst h
          exact kalloc_inv hinv hal
        · rename_i newpt s1 hal
          have hs1 : C8Inv s1 := kalloc_inv hinv hal
          have hrange := kalloc_range hinv hal
          refine walkLevel_inv ?_ h
          refine ⟨?_, hs1.clock_hi, hs1.free_range⟩
          refine pupd_inv hs1.lru ?_ ?_
            (fun j hj => hs1.lru.next_hi _ j hj) (fun j hj => hs1.lru.prev_hi _ j hj)
          · intro hin
            exact hs1.lru.inlru_hi _ hin
          · intro _
            exact ptidx_lt_KBIDX hrange.1 hrange.2

/-- `walk` preserves the state invariant. -/
theorem walk_inv {fuel : Nat} {s : Kstate} {pagetable va : Nat} {alloc : Bool}
    {r : Option (Nat × Nat)} {s2 : Kstate}
    (hinv : C8Inv s) (h : walk fuel s pagetable va alloc = .ok (r, s2)) : C8Inv s2 := by
  unfold walk at h
  split at h
  · exact absurd h (by simp)
  · split at h
    · exact absurd h (by simp)
    · rename_i s3 heq
      simp only [Except.ok.injEq, Prod.mk.injEq] at h
      obtain ⟨-, h⟩ := h
      subst h
      exact walkLevel_inv hinv heq
    · rename_i base s3 heq
      simp only [Except.ok.injEq, Prod.mk.injEq] at h
      obtain ⟨-, h⟩ := h
      subst h
      exact walkLevel_inv hinv heq

/-- `mappagesLoop` preserves the state invariant when the mapped frame
addresses lie in the direct map (as at the call sites, which map
kalloc-returned frames): its LRU mutation is an `lru_add` at index
`pa / PGSIZE`. -/
theorem mappagesLoop_inv : ∀ {n : Nat} {fuel pagetable perm a pa : Nat} {s : Kstate}
    {rc : Int} {s2 : Kstate},
    C8Inv s → KERNBASE ≤ pa → mappagesLoop fuel pagetable perm n a pa s = .ok (rc, s2) →
    C8Inv s2
  | 0, fuel, pagetable, perm, a, pa, s, rc, s2, hinv, hpa, h => by
    simp only [mappagesLoop, Except.ok.injEq, Prod.mk.injEq] at h
    obtain ⟨-, h⟩ := h
    subst h
    exact hinv
  | n+1, fuel, pagetable, perm, a, pa, s, rc, s2, hinv, hpa, h => by
    simp only [mappagesLoop] at h
    split at h
    · exact absurd h (by simp)
    · rename_i s1 hw
      simp only [Except.ok.injEq, Prod.mk.injEq] at h
      obtain ⟨-, h⟩ := h
      subst h
      exact walk_inv hinv hw
    · rename_i b i s1 hw
      have hs1 : C8Inv s1 := walk_inv hinv hw
      split at h
      · exact absurd h (by simp)
      · split at h
        · simp only [Except.ok.injEq, Prod.mk.injEq] at h
          obtain ⟨-, h⟩ := h
          subst h
          split
          · split
            · exact ⟨lru_addL_inv hs1.lru (Nat.div_le_div_right hpa),
                hs1.clock_hi, hs1.free_range⟩
            · exact ⟨hs1.lru, hs1.clock_hi, hs1.free_range⟩
          · exact ⟨hs1.lru, hs1.clock_hi, hs1.free_range⟩
        · refine mappagesLoop_inv ?_ (le_trans hpa (Nat.le_add_right _ _)) h
          split
          · split
            · exact ⟨lru_addL_inv hs1.lru (Nat.div_le_div_right hpa),
                hs1.clock_hi, hs1.free_range⟩
            · exact ⟨hs1.lru, hs1.clock_hi, hs1.free_range⟩
          · exact ⟨hs1.lru, hs1.clock_hi, hs1.free_range⟩

/-- `mappages` preserves the state invariant for direct-map frames. -/
theorem mappages_inv {fuel : Nat} {s : Kstate} {pagetable va size pa perm : Nat}
    {rc : Int} {s2 : Kstate}
    (hinv : C8Inv s) (hpa : KERNBASE ≤ pa)
    (h : mappages fuel s pagetable va size pa perm = .ok (rc, s2)) : C8Inv s2 := by
  unfold mappages at h
  split at h
  · exact absurd h (by simp)
  · split at h
    · exact absurd h (by simp)
    · split at h
      · exact absurd h (by simp)
      · exact mappagesLoop_inv hinv hpa h

/-- `uvmunmapLoop` preserves the state invariant: its LRU mutations are
`lru_remove`s and its free-list pushes go through `kfree`. -/
theorem uvmunmapLoop_inv : ∀ {n : Nat} {pagetable : Nat} {do_free : Bool} {a : Nat}
    {s : Kstate} {s2 : Kstate},
    C8Inv s → uvmunmapLoop pagetable do_free n a s = .ok s2 → C8Inv s2
  | 0, pagetable, do_free, a, s, s2, hinv, h => by
    simp only [uvmunmapLoop, Except.ok.injEq] at h
    subst h
    exact hinv
  | n+1, pagetable, do_free, a, s, s2, hinv, h => by
    simp only [uvmunmapLoop] at h
    split at h
    · exact absurd h (by simp)
    · exact absurd h (by simp)
    · rename_i b i hw
      split at h
      · exact absurd h (by simp)
      · split at h
        · exact absurd h (by simp)
        · split at h
          · exact absurd h (by simp)
          · rename_i s3 hstep
            refine uvmunmapLoop_inv ?_ h
            have hs3 : C8Inv s3 := by
              split at hstep
              · refine kfree_inv ?_ hstep
                split
                · exact ⟨setVaddrL_inv (lru_removeL_inv hinv.lru),
                    hinv.clock_hi, hinv.free_range⟩
                · exact hinv
              · split at hstep
                · unfold freeswap at hstep
                  split at hstep
                  · exact absurd hstep (by simp)
                  · simp only [Except.ok.injEq] at hstep
                    subst hstep
                    exact ⟨hinv.lru, hinv.clock_hi, hinv.free_range⟩
                · simp only [Except.ok.injEq] at hstep
                  subst hstep
                  exact hinv
            exact ⟨hs3.lru, hs3.clock_hi, hs3.free_range⟩

/-- `uvmunmap` preserves the state invariant. -/
theorem uvmunmap_inv {s : Kstate} {pagetable va npages : Nat} {do_free : Bool} {s2 : Kstate}
    (hinv : C8Inv s) (h : uvmunmap s pagetable va npages do_free = .ok s2) : C8Inv s2 := by
  unfold uvmunmap at h
  split at h
  · exact absurd h (by simp)
  · exact uvmunmapLoop_inv hinv h

/-- `walkaddr` (including its implicit swap-in) preserves the state
invariant: the reinserted frame comes from `kalloc`, hence lies in the
direct map. -/
theorem walkaddr_inv {fuel : Nat} {s : Kstate} {pagetable va : Nat} {r : Nat} {s2 : Kstate}
    (hinv : C8Inv s) (h : walkaddr fuel s pagetable va = .ok (r, s2)) : C8Inv s2 := by
  simp only [walkaddr] at h
  split at h
  · exact absurd h (by simp)
  · simp only [Except.ok.injEq, Prod.mk.injEq] at h
    obtain ⟨-, h⟩ := h
    subst h
    exact hinv
  · rename_i b i hw
    split at h
    · split at h
      · exact absurd h (by simp)
      · rename_i s1 hkal
        simp only [Except.ok.injEq, Prod.mk.injEq] at h
        obtain ⟨-, h⟩ := h
        subst h
        exact kalloc_inv hinv hkal
      · rename_i mem s1 hkal
        have hs1 : C8Inv s1 := kalloc_inv hinv hkal
        have hrng := kalloc_range hinv hkal
        have hmem : KERNBASE ≤ mem := le_trans (by decide) hrng.1
        split at h
        · exact absurd h (by simp)
        · rename_i s3 hfs
          have hs3 : C8Inv s3 := by
            unfold freeswap at hfs
            split at hfs
            · exact absurd hfs (by simp)
            · simp only [Except.ok.injEq] at hfs
              subst hfs
              exact ⟨hs1.lru, hs1.clock_hi, hs1.free_range⟩
          simp only [Except.ok.injEq, Prod.mk.injEq] at h
          obtain ⟨-, h⟩ := h
          subst h
          split
          · exact ⟨lru_addL_inv hs3.lru (Nat.div_le_div_right hmem),
              hs3.clock_hi, hs3.free_range⟩
          · exact ⟨hs3.lru, hs3.clock_hi, hs3.free_range⟩
    · split at h
      · simp only [Except.ok.injEq, Prod.mk.injEq] at h
        obtain ⟨-, h⟩ := h
        subst h
        exact hinv
      · simp only [Except.ok.injEq, Prod.mk.injEq] at h
        obtain ⟨-, h⟩ := h
        subst h
        exact hinv

/-- The `usertrap` allocation retry preserves the state invariant. -/
theorem usertrap_alloc_retry_inv {fuel : Nat} {s : Kstate} {r : Option Nat} {s2 : Kstate}
    (hinv : C8Inv s) (h : usertrap_alloc_retry fuel s = .ok (r, s2)) : C8Inv s2 := by
  unfold usertrap_alloc_retry at h
  split at h
  · exact absurd h (by simp)
  · rename_i m s1 hkal
    simp only [Except.ok.injEq, Prod.mk.injEq] at h
    obtain ⟨-, h⟩ := h
    subst h
    exact kalloc_inv hinv hkal
  · rename_i s1 hkal
    have hs1 : C8Inv s1 := kalloc_inv hinv hkal
    split at h
    · exact absurd h (by simp)
    · rename_i s3 hev
      simp only [Except.ok.injEq, Prod.mk.injEq] at h
      obtain ⟨-, h⟩ := h
      subst h
      exact evictpage_inv hs1 hev
    · rename_i s3 hev
      exact kalloc_inv (evictpage_inv hs1 hev) h

/-- A frame returned by the `usertrap` allocation retry lies in the
allocatable range. -/
theorem usertrap_alloc_retry_range {fuel : Nat} {s : Kstate} {q : Nat} {s2 : Kstate}
    (hinv : C8Inv s) (h : usertrap_alloc_retry fuel s = .ok (some q, s2)) :
    KERNEND ≤ q ∧ q < PHYSTOP := by
  unfold usertrap_alloc_retry at h
  split at h
  · exact absurd h (by simp)
  · rename_i m s1 hkal
    simp only [Except.ok.injEq, Prod.mk.injEq, Option.some.injEq] at h
    obtain ⟨hq, -⟩ := h
    subst hq
    exact kalloc_range hinv hkal
  · rename_i s1 hkal
    have hs1 : C8Inv s1 := kalloc_inv hinv hkal
    split at h
    · exact absurd h (by simp)
    · simp at h
    · rename_i s3 hev
      exact kalloc_range (evictpage_inv hs1 hev) h

/-- The `usertrap` page-fault arm preserves the state invariant. -/
theorem usertrap_swapin_inv {fuel : Nat} {s : Kstate} {pagetable va : Nat}
    {killed : Bool} {s2 : Kstate}
    (hinv : C8Inv s) (h : usertrap_swapin fuel s pagetable va = .ok (killed, s2)) :
    C8Inv s2 := by
  simp only [usertrap_swapin] at h
  split at h
  · exact absurd h (by simp)
  · simp only [Except.ok.injEq, Prod.mk.injEq] at h
    obtain ⟨-, h⟩ := h
    subst h
    exact hinv
  · rename_i b i hw
    split at h
    · split at h
      · exact absurd h (by simp)
      · rename_i s1 hretry
        simp only [Except.ok.injEq, Prod.mk.injEq] at h
        obtain ⟨-, h⟩ := h
        subst h
        exact usertrap_alloc_retry_inv hinv hretry
      · rename_i mem s1 hretry
        have hs1 : C8Inv s1 := usertrap_alloc_retry_inv hinv hretry
        have hrng := usertrap_alloc_retry_range hinv hretry
        have hmem : KERNBASE ≤ mem := le_trans (by decide) hrng.1
        split at h
        · exact absurd h (by simp)
        · rename_i s3 hfs
          have hs3 : C8Inv s3 := by
            unfold freeswap at hfs
            split at hfs
            · exact absurd hfs (by simp)
            · simp only [Except.ok.injEq] at hfs
              subst hfs
              exact ⟨hs1.lru, hs1.clock_hi, hs1.free_range⟩
          simp only [Except.ok.injEq, Prod.mk.injEq] at h
          obtain ⟨-, h⟩ := h
          subst h
          split
          · exact ⟨lru_addL_inv hs3.lru (Nat.div_le_div_right hmem),
              hs3.clock_hi, hs3.free_range⟩
          · exact ⟨hs3.lru, hs3.clock_hi, hs3.free_range⟩
    · simp only [Except.ok.injEq, Prod.mk.injEq] at h
      obtain ⟨-, h⟩ := h
      subst h
      exact hinv

/-- `freewalk` and its 512-entry loop preserve the state invariant: the
only metadata write clears `is_page_table`, and the freed frames go
through `kfree`'s range checks. -/
theorem freewalk_both_inv : ∀ (dfuel : Nat),
    (∀ {pagetable : Nat} {s s2 : Kstate},
      C8Inv s → freewalk dfuel pagetable s = .ok s2 → C8Inv s2) ∧
    (∀ {n pagetable : Nat} {s s2 : Kstate},
      C8Inv s → freewalkLoop dfuel pagetable n s = .ok s2 → C8Inv s2) := by
  intro dfuel
  induction dfuel with
  | zero =>
    constructor
    · intro pagetable s s2 hinv h
      simp [freewalk] at h
    · intro n
      induction n with
      | zero =>
        intro pagetable s s2 hinv h
        simp only [freewalkLoop, Except.ok.injEq] at h
        subst h
        exact hinv
      | succ n ihn =>
        intro pagetable s s2 hinv h
        simp only [freewalkLoop] at h
        split at h
        · split at h
          · exact absurd h (by simp)
          · rename_i s3 hfw
            simp [freewalk] at hfw
        · split at h
          · exact absurd h (by simp)
          · exact ihn hinv h
  | succ d ihd =>
    have hP : ∀ {pagetable : Nat} {s s2 : Kstate},
        C8Inv s → freewalk (d + 1) pagetable s = .ok s2 → C8Inv s2 := by
      intro pagetable s s2 hinv h
      simp only [freewalk] at h
      split at h
      · exact absurd h (by simp)
      · rename_i s1 hloop
        have hs1 : C8Inv s1 := ihd.2 hinv hloop
        refine kfree_inv ?_ h
        refine ⟨?_, hs1.clock_hi, hs1.free_range⟩
        refine pupd_inv hs1.lru ?_ (by simp)
          (fun j hj => hs1.lru.next_hi _ j hj) (fun j hj => hs1.lru.prev_hi _ j hj)
        intro hin
        exact hs1.lru.inlru_hi _ hin
    refine ⟨hP, ?_⟩
    intro n
    induction n with
    | zero =>
      intro pagetable s s2 hinv h
      simp only [freewalkLoop, Except.ok.injEq] at h
      subst h
      exact hinv
    | succ n ihn =>
      intro pagetable s s2 hinv h
      simp only [freewalkLoop] at h
      split at h
      · split at h
        · exact absurd h (by simp)
        · rename_i s3 hfw
          have hs3 : C8Inv s3 := hP hinv hfw
          refine ihn ?_ h
          exact ⟨hs3.lru, hs3.clock_hi, hs3.free_range⟩
      · split at h
        · exact absurd h (by simp)
        · exact ihn hinv h

/-- One operation of the paging subsystem, as listed in the claim: the
state before and after a completed (non-panicking) call.  `lru_add` and
`mappages` carry the provenance of their call sites: the frame argument
is a direct-map physical address (`walkaddr` line 366, trap.c line 117
and `mappages` line 430 pass `pa / PGSIZE` of a mapped frame; `kinit`
never links pages). -/
inductive SubsysStep : Kstate → Kstate → Prop where
  | kallocStep {s s2 : Kstate} (fuel : Nat) (r : Option Nat) :
      kalloc fuel s = .ok (r, s2) → SubsysStep s s2
  | kfreeStep {s s2 : Kstate} (pa : Nat) :
      kfree s pa = .ok s2 → SubsysStep s s2
  | walkStep {s s2 : Kstate} (fuel pagetable va : Nat) (alloc : Bool)
      (r : Option (Nat × Nat)) :
      walk fuel s pagetable va alloc = .ok (r, s2) → SubsysStep s s2
  | mappagesStep {s s2 : Kstate} (fuel pagetable va size pa perm : Nat) (rc : Int) :
      KERNBASE ≤ pa →
      mappages fuel s pagetable va size pa perm = .ok (rc, s2) → SubsysStep s s2
  | uvmunmapStep {s s2 : Kstate} (pagetable va npages : Nat) (do_free : Bool) :
      uvmunmap s pagetable va npages do_free = .ok s2 → SubsysStep s s2
  | freewalkStep {s s2 : Kstate} (dfuel pagetable : Nat) :
      freewalk dfuel pagetable s = .ok s2 → SubsysStep s s2
  | lruAddStep (s : Kstate) (p pagetable vaddr : Nat) :
      KBIDX ≤ p → SubsysStep s (lru_add s p pagetable vaddr)
  | lruRemoveStep (s : Kstate) (p : Nat) :
      SubsysStep s (lru_remove s p)
  | evictpageStep {s s2 : Kstate} (fuel : Nat) (r : Bool) :
      evictpage fuel s = .ok (r, s2) → SubsysStep s s2
  | trapSwapinStep {s s2 : Kstate} (fuel pagetable va : Nat) (killed : Bool) :
      usertrap_swapin fuel s pagetable va = .ok (killed, s2) → SubsysStep s s2
  | walkaddrSwapinStep {s s2 : Kstate} (fuel pagetable va r : Nat) :
      walkaddr fuel s pagetable va = .ok (r, s2) → SubsysStep s s2

/-- C8: starting from a state satisfying the range invariant (`in_lru`
entries at direct-map indices, `is_page_table` entries below them, list
pointers and clock in the direct map, free-list inside the allocatable
range), every operation of the subsystem -- kalloc, kfree, walk,
mappages, uvmunmap, freewalk, lru_add, lru_remove, evictpage and the two
swap-in paths -- preserves the invariant, and therefore no frame ever
has `is_page_table` and `in_lru` set at the same time: `walk`/`freewalk`
mark page-table flags at `(frame - KERNBASE)/PGSIZE < KBIDX`, while the
LRU only ever links indices `≥ KBIDX`. -/
theorem c8_pt_lru_exclusion {s s2 : Kstate} (hinv : C8Inv s) (hstep : SubsysStep s s2) :
    C8Inv s2 ∧
    ∀ f, ¬(((s2.lru.pages f).is_page_table = true ∧ (s2.lru.pages f).in_lru = true)) := by
  have h2 : C8Inv s2 := by
    cases hstep with
    | kallocStep fuel r h => exact kalloc_inv hinv h
    | kfreeStep pa h => exact kfree_inv hinv h
    | walkStep fuel pagetable va alloc r h => exact walk_inv hinv h
    | mappagesStep fuel pagetable va size pa perm rc hpa h => exact mappages_inv hinv hpa h
    | uvmunmapStep pagetable va npages do_free h => exact uvmunmap_inv hinv h
    | freewalkStep dfuel pagetable h => exact (freewalk_both_inv dfuel).1 hinv h
    | lruAddStep p pagetable vaddr hp =>
        exact ⟨lru_addL_inv hinv.lru hp, hinv.clock_hi, hinv.free_range⟩
    | lruRemoveStep p =>
        exact ⟨lru_removeL_inv hinv.lru, hinv.clock_hi, hinv.free_range⟩
    | evictpageStep fuel r h => exact evictpage_inv hinv h
    | trapSwapinStep fuel pagetable va killed h => exact usertrap_swapin_inv hinv h
    | walkaddrSwapinStep fuel pagetable va r h => exact walkaddr_inv hinv h
  refine ⟨h2, ?_⟩
  rintro f ⟨hpt, hin⟩
  exact absurd (h2.lru.inlru_hi f hin) (not_le.mpr (h2.lru.pt_lo f hpt))

/-- Witness for `c8_pt_lru_exclusion`: the empty metadata state with one
free frame satisfies the invariant, and linking that frame into the LRU
keeps `is_page_table`/`in_lru` exclusive everywhere. -/
theorem c8_pt_lru_exclusion_witness :
    C8Inv (lru_add sFreeOne (userPA / PGSIZE) rootPT userVA) ∧
    ∀ f, ¬(((lru_add sFreeOne (userPA / PGSIZE) rootPT userVA).lru.pages f).is_page_table = true ∧
          ((lru_add sFreeOne (userPA / PGSIZE) rootPT userVA).lru.pages f).in_lru = true) :=
  c8_pt_lru_exclusion
    ⟨⟨fun _ hi => Bool.noConfusion hi, fun _ hi => Bool.noConfusion hi,
      fun _ j hj => Option.noConfusion hj, fun _ j hj => Option.noConfusion hj,
      fun j hj => Option.noConfusion hj, fun j hj => Option.noConfusion hj⟩,
     fun j hj => Option.noConfusion hj,
     by intro pa hpa
        rcases List.mem_cons.mp hpa with rfl | h2
        · exact ⟨by decide, by decide⟩
        · exact absurd h2 (by simp)⟩
    (SubsysStep.lruAddStep sFreeOne (userPA / PGSIZE) rootPT userVA (by decide))

/-!  ### C7: the `select_victim` scan terminates with a victim

The scan (part_000 lines 814-863) follows `next` pointers around the
LRU list; rule 2 relocates the node under the cursor to the tail via
`lru_remove`/`lru_add`, and the buggy middle-removal (C3) leaves the
neighbours' pointers stale, so each relocation reshapes the
`next`-graph.  Termination is proved by a three-component measure:
(linked nodes with nonzero `vaddr`, linked nodes whose inspected leaf
PTE has the Access bit set, length of a `next`-path from the cursor to
the lap snapshot `start`). -/

/-- The `next`-successor function over the metadata array (`0` for a
NULL pointer; on a closed list the pointer of a linked node is never
NULL). -/
def gnext (pgs : Nat → Page) (x : Nat) : Nat := ((pgs x).next).getD 0

/-- Number of linked metadata entries with nonzero `vaddr` (a rule-2
relocation zeroes the relocated node's `vaddr`, see C3). -/
def vaCount (sc : ScanSt) : Nat :=
  ((Finset.range (PHYSTOP / PGSIZE)).filter
    (fun x => (sc.lru.pages x).in_lru = true ∧ (sc.lru.pages x).vaddr ≠ 0)).card

/-- Location of the leaf PTE the scan inspects for entry `x` (`none`
when the walk finds no leaf or the `vaddr` is out of range). -/
def locOf (sc : ScanSt) (x : Nat) : Option (Nat × Nat) :=
  match walk0 sc.ptmem (sc.lru.pages x).pagetable (sc.lru.pages x).vaddr with
  | .ok o => o
  | .error _ => none

/-- Whether the leaf PTE the scan inspects for entry `x` has the Access
bit set. -/
def aSetB (sc : ScanSt) (x : Nat) : Bool :=
  match locOf sc x with
  | some bi => decide (sc.ptmem bi.1 bi.2 &&& PTE_A ≠ 0)
  | none => false

/-- Number of linked entries whose inspected leaf PTE has the Access
bit set (rule 2 clears exactly one such bit each time it fires). -/
def aCount (sc : ScanSt) : Nat :=
  ((Finset.range (PHYSTOP / PGSIZE)).filter
    (fun x => (sc.lru.pages x).in_lru = true ∧ aSetB sc x = true)).card

/-- The `lru_remove`/`lru_add` relocation of rule 2 (part_000 lines
851-853), arguments read back from the entry after `lru_remove` zeroed
its `vaddr`. -/
def relocL (l : LruSt) (ch : Nat) : LruSt :=
  lru_addL (lru_removeL l ch) ch ((lru_removeL l ch).pages ch).pagetable
    ((lru_removeL l ch).pages ch).vaddr

/-- Loop invariant of the `select_victim` scan with cursor `c` and lap
snapshot `start`: the cursor sits on a linked node; linked nodes form a
`next`-closed set of in-range non-page-table entries with in-range
`vaddr`s; head and tail are linked with `tail->next == head`; `start`
is linked and reachable from the cursor in at least one `next` step;
PTEs are 64-bit words. -/
structure SvInv (start c : Nat) (sc : ScanSt) : Prop where
  clock_eq : sc.clock_hand = some c
  clock_in : (sc.lru.pages c).in_lru = true
  start_in : (sc.lru.pages start).in_lru = true
  closed : ∀ x, (sc.lru.pages x).in_lru = true →
    ∃ y, (sc.lru.pages x).next = some y ∧ (sc.lru.pages y).in_lru = true
  bound : ∀ x, (sc.lru.pages x).in_lru = true → x < PHYSTOP / PGSIZE
  no_pt : ∀ x, (sc.lru.pages x).in_lru = true → (sc.lru.pages x).is_page_table = false
  va_lt : ∀ x, (sc.lru.pages x).in_lru = true → (sc.lru.pages x).vaddr < MAXVA
  head_ex : ∃ hd, sc.lru.lru_head = some hd ∧ (sc.lru.pages hd).in_lru = true
  tail_ex : ∃ tl, sc.lru.lru_tail = some tl ∧ (sc.lru.pages tl).in_lru = true ∧
    (sc.lru.pages tl).next = sc.lru.lru_head
  reach1 : ∃ k, 0 < k ∧ (gnext sc.lru.pages)^[k] c = start
  pte64 : ∀ b i, sc.ptmem b i < 2 ^ 64

/-- What the scan guarantees on return: the victim is a linked entry,
the cursor is left on a linked entry, and the victim either is the lap
snapshot `start` (full lap, no rule-3 choice) or was picked by rule 3
(a mapped user leaf whose Access bit is clear at return time). -/
def SvPost (start v : Nat) (sc : ScanSt) : Prop :=
  (sc.lru.pages v).in_lru = true ∧
  (∀ c, sc.clock_hand = some c → (sc.lru.pages c).in_lru = true) ∧
  (v = start ∨
    ∃ b i, walk0 sc.ptmem (sc.lru.pages v).pagetable (sc.lru.pages v).vaddr =
        .ok (some (b, i)) ∧
      sc.ptmem b i &&& PTE_V ≠ 0 ∧ (sc.lru.pages v).vaddr < KERNBASE ∧
      sc.ptmem b i &&& PTE_A = 0)

theorem clearA_land_V (x : Nat) : (x &&& NOT_A) &&& PTE_V = x &&& PTE_V := by
  rw [Nat.land_assoc, show NOT_A &&& PTE_V = PTE_V from by decide]

theorem clearA_land_A (x : Nat) : (x &&& NOT_A) &&& PTE_A = 0 := by
  rw [Nat.land_assoc, show NOT_A &&& PTE_A = 0 from by decide, Nat.and_zero]

theorem clearA_lt (x : Nat) : x &&& NOT_A < 2 ^ 64 :=
  lt_of_le_of_lt Nat.and_le_right (by decide)

theorem clearA_PTE2PA (x : Nat) (h : x < 2 ^ 64) : PTE2PA (x &&& NOT_A) = PTE2PA x := by
  rw [PTE2PA, PTE2PA, clearAShiftRight x h]

/-- `walk0` only looks at the V bit and the `PTE2PA` field of the PTEs
it reads, so two memories agreeing on those agree on every walk. -/
theorem walk0_keyeq {f ptm : Nat → Nat → Nat}
    (hV : ∀ b i, f b i &&& PTE_V = ptm b i &&& PTE_V)
    (hPA : ∀ b i, PTE2PA (f b i) = PTE2PA (ptm b i)) (pt va : Nat) :
    walk0 f pt va = walk0 ptm pt va := by
  unfold walk0
  by_cases hva : MAXVA ≤ va
  · rw [if_pos hva, if_pos hva]
  rw [if_neg hva, if_neg hva]
  by_cases h2 : ptm pt (PX 2 va) &&& PTE_V ≠ 0
  · rw [if_pos (by rw [hV]; exact h2), if_pos h2, hPA]
    by_cases h1 : ptm (PTE2PA (ptm pt (PX 2 va))) (PX 1 va) &&& PTE_V ≠ 0
    · rw [if_pos (by rw [hV]; exact h1), if_pos h1, hPA]
    · rw [if_neg (by rw [hV]; exact h1), if_neg h1]
  · rw [if_neg (by rw [hV]; exact h2), if_neg h2]

/-- Clearing the Access bit of one PTE changes no `walk0` result. -/
theorem walk0_clearA (ptm : Nat → Nat → Nat) (b0 i0 pt va : Nat)
    (h64 : ∀ b i, ptm b i < 2 ^ 64) :
    walk0 (fun b i => if b = b0 ∧ i = i0 then ptm b0 i0 &&& NOT_A else ptm b i) pt va
      = walk0 ptm pt va := by
  apply walk0_keyeq
  · intro b i
    by_cases hbi : b = b0 ∧ i = i0
    · rw [if_pos hbi, hbi.1, hbi.2, clearA_land_V]
    · rw [if_neg hbi]
  · intro b i
    by_cases hbi : b = b0 ∧ i = i0
    · rw [if_pos hbi, hbi.1, hbi.2, clearA_PTE2PA _ (h64 b0 i0)]
    · rw [if_neg hbi]

/-- Path transport under the relocation's `next`-graph rewrite
`g2 = g[t ↦ ch][ch ↦ g t]`: a `g`-path whose sources avoid `ch`
survives (each step through `t` takes the detour `t → ch → g t`). -/
theorem iterAvoidRewrite {g g2 : Nat → Nat} {t ch : Nat}
    (hgt : g2 t = ch) (hgch : g2 ch = g t)
    (hother : ∀ x, x ≠ t → x ≠ ch → g2 x = g x) :
    ∀ k x, (∀ j, j < k → g^[j] x ≠ ch) → ∃ m, g2^[m] x = g^[k] x := by
  intro k
  induction k with
  | zero => exact fun x _ => ⟨0, rfl⟩
  | succ k ih =>
    intro x havoid
    have hx : x ≠ ch := by
      have h0 := havoid 0 (Nat.succ_pos k)
      simpa using h0
    have hnext : ∀ j, j < k → g^[j] (g x) ≠ ch := by
      intro j hj
      have hj1 := havoid (j + 1) (by omega)
      rwa [Function.iterate_succ_apply] at hj1
    obtain ⟨m, hm⟩ := ih (g x) hnext
    by_cases hxt : x = t
    · subst hxt
      refine ⟨m + 2, ?_⟩
      have h2 : g2^[2] x = g x := by
        have he : g2^[2] x = g2 (g2 x) := by
          rw [Function.iterate_succ_apply, Function.iterate_one]
        rw [he, hgt, hgch]
      rw [Function.iterate_add_apply, h2, Function.iterate_succ_apply]
      exact hm
    · have hgx : g2 x = g x := hother x hxt hx
      refine ⟨m + 1, ?_⟩
      rw [Function.iterate_succ_apply, hgx, Function.iterate_succ_apply]
      exact hm

/-- A shortest positive-length `next`-path from `ch` never revisits
`ch` strictly inside the path. -/
theorem reachMinAvoid {g : Nat → Nat} {ch start : Nat}
    (h : ∃ k, 0 < k ∧ g^[k] ch = start) :
    ∃ k, 0 < k ∧ g^[k] ch = start ∧ ∀ j, 0 < j → j < k → g^[j] ch ≠ ch := by
  have hk := Nat.find_spec h
  refine ⟨Nat.find h, hk.1, hk.2, ?_⟩
  intro j hj0 hjk hcontra
  have hshort : g^[Nat.find h - j] ch = start := by
    calc g^[Nat.find h - j] ch = g^[Nat.find h - j] (g^[j] ch) := by rw [hcontra]
    _ = g^[(Nat.find h - j) + j] ch := (Function.iterate_add_apply g _ j ch).symm
    _ = start := by rw [show Nat.find h - j + j = Nat.find h from by omega]; exact hk.2
  exact Nat.find_min h (by omega) ⟨by omega, hshort⟩

/-- After a rule-2 relocation of the cursor node `ch` (with the lap
check not firing, `g ch ≠ start`), `start` stays reachable in at least
one step from the advanced cursor `g ch` in the rewritten graph. -/
theorem reachAfterReloc {g g2 : Nat → Nat} {t ch start : Nat}
    (hgt : g2 t = ch) (hgch : g2 ch = g t)
    (hother : ∀ x, x ≠ t → x ≠ ch → g2 x = g x)
    (hre : ∃ k, 0 < k ∧ g^[k] ch = start)
    (hne : g ch ≠ start) :
    ∃ m, 0 < m ∧ g2^[m] (g ch) = start := by
  obtain ⟨k, hk0, hks, hkavoid⟩ := reachMinAvoid hre
  have hk2 : 2 ≤ k := by
    rcases Nat.lt_or_ge k 2 with hlt | hge
    · exfalso
      have hk1 : k = 1 := by omega
      subst hk1
      rw [Function.iterate_one] at hks
      exact hne hks
    · exact hge
  have havoid : ∀ j, j < k - 1 → g^[j] (g ch) ≠ ch := by
    intro j hj
    have hj1 := hkavoid (j + 1) (by omega) (by omega)
    rwa [Function.iterate_succ_apply] at hj1
  obtain ⟨m, hm⟩ := iterAvoidRewrite hgt hgch hother (k - 1) (g ch) havoid
  have hms : g2^[m] (g ch) = start := by
    rw [hm]
    calc g^[k-1] (g ch) = g^[(k-1)+1] ch := (Function.iterate_succ_apply g (k - 1) ch).symm
    _ = g^[k] ch := by rw [show k - 1 + 1 = k from by omega]
    _ = start := hks
  refine ⟨m, ?_, hms⟩
  rcases Nat.eq_zero_or_pos m with rfl | hpos
  · exfalso
    rw [Function.iterate_zero_apply] at hms
    exact hne hms
  · exact hpos

/-- Exact effect of `lru_remove` on a linked non-tail node of a list
with `head` and `tail` set: the node is unlinked with `vaddr` zeroed,
the tail's `next` is rewired to the (possibly updated) head, and --
the C3 bug -- the removed node's neighbours keep their stale
pointers. -/
theorem remove_effect {l : LruSt} {ch t hd nc : Nat}
    (hin : (l.pages ch).in_lru = true)
    (hh : l.lru_head = some hd) (ht : l.lru_tail = some t)
    (hnc : (l.pages ch).next = some nc)
    (hne : ch ≠ t) :
    (lru_removeL l ch).lru_head = some (if hd = ch then nc else hd) ∧
    (lru_removeL l ch).lru_tail = some t ∧
    ∀ x, ((lru_removeL l ch).pages x).next
        = (if x = ch then none else if x = t then some (if hd = ch then nc else hd)
           else (l.pages x).next) ∧
      ((lru_removeL l ch).pages x).in_lru = (if x = ch then false else (l.pages x).in_lru) ∧
      ((lru_removeL l ch).pages x).vaddr = (if x = ch then 0 else (l.pages x).vaddr) ∧
      ((lru_removeL l ch).pages x).pagetable = (l.pages x).pagetable ∧
      ((lru_removeL l ch).pages x).is_page_table = (l.pages x).is_page_table := by
  have hsp : ¬ (l.lru_head = some ch ∧ l.lru_head = l.lru_tail) := by
    rw [hh, ht]
    rintro ⟨h1, h2⟩
    rw [Option.some.injEq] at h1 h2
    exact hne (by omega)
  have hts : ¬ (l.lru_tail = some ch) := by
    rw [ht]
    exact fun e => hne (Option.some.inj e).symm
  by_cases hhc : hd = ch
  · subst hhc
    refine ⟨?_, ?_, fun x => ?_⟩
    · simp [lru_removeL, hin, hh, ht, hnc, setNextL, setPrevL, setInLruL, setVaddrL,
        pupd, hne, Ne.symm hne]
    · simp [lru_removeL, hin, hh, ht, hnc, setNextL, setPrevL, setInLruL, setVaddrL,
        pupd, hne, Ne.symm hne]
    · by_cases hxc : x = hd <;> by_cases hxt : x = t <;> by_cases hdn : hd = nc <;>
        by_cases htn : t = nc <;> by_cases hxn : x = nc <;>
        simp_all [lru_removeL, setNextL, setPrevL, setInLruL, setVaddrL, pupd, Ne.symm hne]
  · have hhs : ¬ (l.lru_head = some ch) := by
      rw [hh]
      exact fun e => hhc (Option.some.inj e)
    refine ⟨?_, ?_, fun x => ?_⟩
    · simp [lru_removeL, hin, hh, ht, hnc, setNextL, setPrevL, setInLruL, setVaddrL,
        pupd, hne, Ne.symm hne, hhc, Ne.symm hhc]
    · simp [lru_removeL, hin, hh, ht, hnc, setNextL, setPrevL, setInLruL, setVaddrL,
        pupd, hne, Ne.symm hne, hhc, Ne.symm hhc]
    · by_cases hxc : x = ch <;> by_cases hxt : x = t <;> by_cases hxh : x = hd <;>
        simp_all [lru_removeL, setNextL, setPrevL, setInLruL, setVaddrL, pupd,
          Ne.symm hne, Ne.symm hhc]

/-- Exact effect of `lru_add` on an unlinked, in-range, non-page-table
node with `vaddr` argument `0`, against a non-empty list: the node is
linked at the tail with `next` pointing at the head. -/
theorem add_effect0 {l : LruSt} {ch t hv : Nat} (pt : Nat)
    (hnin : (l.pages ch).in_lru = false)
    (hh : l.lru_head = some hv) (ht : l.lru_tail = some t)
    (hne : ch ≠ t)
    (hbound : ch < PHYSTOP / PGSIZE)
    (hnpt : (l.pages ch).is_page_table = false) :
    (lru_addL l ch pt 0).lru_head = some hv ∧
    (lru_addL l ch pt 0).lru_tail = some ch ∧
    ∀ x, ((lru_addL l ch pt 0).pages x).next
        = (if x = t then some ch else if x = ch then some hv else (l.pages x).next) ∧
      ((lru_addL l ch pt 0).pages x).in_lru = (if x = ch then true else (l.pages x).in_lru) ∧
      ((lru_addL l ch pt 0).pages x).vaddr = (if x = ch then 0 else (l.pages x).vaddr) ∧
      ((lru_addL l ch pt 0).pages x).pagetable
        = (if x = ch then pt else (l.pages x).pagetable) ∧
      ((lru_addL l ch pt 0).pages x).is_page_table = (l.pages x).is_page_table := by
  have hg1 : ¬ (PHYSTOP / PGSIZE ≤ ch) := not_le.mpr hbound
  have hg2 : ¬ (MAXVA ≤ (0 : Nat)) := by decide
  refine ⟨?_, ?_, fun x => ?_⟩
  · simp [lru_addL, hg1, hg2, hnin, hh, ht, hnpt, setNextL, setPrevL, setInLruL,
      setVaddrL, pupd, hne, Ne.symm hne]
  · simp [lru_addL, hg1, hg2, hnin, hh, ht, hnpt, setNextL, setPrevL, setInLruL,
      setVaddrL, pupd, hne, Ne.symm hne]
  · simp only [lru_addL, if_neg hg1, if_neg hg2]
    by_cases hxc : x = ch <;> by_cases hxt : x = t <;> by_cases hxh : x = hv <;>
      by_cases hch : ch = hv <;> by_cases hth : t = hv <;>
      simp_all [setNextL, setPrevL, setInLruL, setVaddrL, pupd, Ne.symm hne]

/-- Exact effect of the rule-2 relocation (`lru_remove` then `lru_add`
with arguments re-read after the removal zeroed `vaddr`) of a linked
non-tail cursor node `ch`: the linked set is unchanged, `ch`'s `vaddr`
becomes `0`, the tail becomes `ch` with `tail->next` landing on the
(possibly updated) head, and every other `next` pointer survives --
including the stale neighbour pointers of C3. -/
theorem reloc_effect {l : LruSt} {ch t hd nc : Nat}
    (hin : (l.pages ch).in_lru = true)
    (hh : l.lru_head = some hd) (ht : l.lru_tail = some t)
    (hnc : (l.pages ch).next = some nc)
    (hne : ch ≠ t)
    (hbound : ch < PHYSTOP / PGSIZE)
    (hnpt : (l.pages ch).is_page_table = false) :
    (relocL l ch).lru_head = some (if hd = ch then nc else hd) ∧
    (relocL l ch).lru_tail = some ch ∧
    ∀ x, ((relocL l ch).pages x).next
        = (if x = t then some ch else if x = ch then some (if hd = ch then nc else hd)
           else (l.pages x).next) ∧
      ((relocL l ch).pages x).in_lru = (l.pages x).in_lru ∧
      ((relocL l ch).pages x).vaddr = (if x = ch then 0 else (l.pages x).vaddr) ∧
      ((relocL l ch).pages x).pagetable = (l.pages x).pagetable ∧
      ((relocL l ch).pages x).is_page_table = (l.pages x).is_page_table := by
  obtain ⟨rh, rt, rfields⟩ := remove_effect hin hh ht hnc hne
  have hva0 : ((lru_removeL l ch).pages ch).vaddr = 0 := by
    rw [(rfields ch).2.2.1, if_pos rfl]
  have hptarg : ((lru_removeL l ch).pages ch).pagetable = (l.pages ch).pagetable :=
    (rfields ch).2.2.2.1
  have hnin : ((lru_removeL l ch).pages ch).in_lru = false := by
    rw [(rfields ch).2.1, if_pos rfl]
  have hnpt2 : ((lru_removeL l ch).pages ch).is_page_table = false := by
    rw [(rfields ch).2.2.2.2]
    exact hnpt
  have hreloc : relocL l ch
      = lru_addL (lru_removeL l ch) ch ((lru_removeL l ch).pages ch).pagetable 0 := by
    rw [relocL, hva0]
  obtain ⟨ah, atl, afields⟩ :=
    @add_effect0 (lru_removeL l ch) ch t (if hd = ch then nc else hd)
      ((lru_removeL l ch).pages ch).pagetable
      hnin rh rt hne hbound hnpt2
  rw [hreloc]
  refine ⟨ah, atl, fun x => ?_⟩
  obtain ⟨an, ai, av, ap, ap2⟩ := afields x
  obtain ⟨rn, ri, rv, rp, rp2⟩ := rfields x
  refine ⟨?_, ?_, ?_, ?_, ?_⟩
  · rw [an]
    by_cases hxt : x = t
    · rw [if_pos hxt, if_pos hxt]
    · rw [if_neg hxt, if_neg hxt]
      by_cases hxc : x = ch
      · rw [if_pos hxc, if_pos hxc]
      · rw [if_neg hxc, if_neg hxc, rn, if_neg hxc, if_neg hxt]
  · rw [ai]
    by_cases hxc : x = ch
    · rw [if_pos hxc, hxc, hin]
    · rw [if_neg hxc, ri, if_neg hxc]
  · rw [av]
    by_cases hxc : x = ch
    · rw [if_pos hxc, if_pos hxc]
    · rw [if_neg hxc, if_neg hxc, rv, if_neg hxc]
  · rw [ap]
    by_cases hxc : x = ch
    · rw [if_pos hxc, hxc, hptarg]
    · rw [if_neg hxc, rp]
  · rw [ap2, rp2]

/-- Below `MAXVA`, `walk0` never errors. -/
theorem walk0_ok (ptm : Nat → Nat → Nat) (pt : Nat) {va : Nat} (hva : va < MAXVA) :
    ∃ o, walk0 ptm pt va = .ok o := by
  unfold walk0
  rw [if_neg (not_le.mpr hva)]
  by_cases h2 : ptm pt (PX 2 va) &&& PTE_V ≠ 0
  · rw [if_pos h2]
    by_cases h1 : ptm (PTE2PA (ptm pt (PX 2 va))) (PX 1 va) &&& PTE_V ≠ 0
    · rw [if_pos h1]
      exact ⟨_, rfl⟩
    · rw [if_neg h1]
      exact ⟨_, rfl⟩
  · rw [if_neg h2]
    exact ⟨_, rfl⟩

/-- One scan iteration, rule-1 case, missing leaf: advance the cursor
(lap check against `start`). -/
theorem svLoop_step_skipN {start f : Nat} {sc : ScanSt} {ch nc : Nat}
    (hc : sc.clock_hand = some ch)
    (hw : walk0 sc.ptmem (sc.lru.pages ch).pagetable (sc.lru.pages ch).vaddr = .ok none)
    (hnc : (sc.lru.pages ch).next = some nc) :
    svLoop start (f + 1) sc =
      (if nc = start then
        .ok (some start, { sc with clock_hand := (sc.lru.pages start).next })
       else svLoop start f { sc with clock_hand := some nc }) := by
  by_cases hlap : nc = start <;>
    simp [svLoop, hc, hw, hnc, hlap]

/-- One scan iteration, rule-1 case, present leaf skipped because it is
invalid or a kernel/trampoline address: advance the cursor. -/
theorem svLoop_step_skipS {start f : Nat} {sc : ScanSt} {ch nc b i : Nat}
    (hc : sc.clock_hand = some ch)
    (hw : walk0 sc.ptmem (sc.lru.pages ch).pagetable (sc.lru.pages ch).vaddr
      = .ok (some (b, i)))
    (hskip : (decide (sc.ptmem b i &&& PTE_V = 0) ||
        decide (KERNBASE ≤ (sc.lru.pages ch).vaddr) ||
        decide (TRAMPOLINE ≤ (sc.lru.pages ch).vaddr)) = true)
    (hnc : (sc.lru.pages ch).next = some nc) :
    svLoop start (f + 1) sc =
      (if nc = start then
        .ok (some start, { sc with clock_hand := (sc.lru.pages start).next })
       else svLoop start f { sc with clock_hand := some nc }) := by
  by_cases hlap : nc = start <;>
    simp [svLoop, hc, hw, hnc, hlap, hskip]

/-- One scan iteration, rule-2 case (Access bit set): clear the bit,
advance the cursor, relocate the node to the tail unless it already is
the tail, then lap check. -/
theorem svLoop_step_rule2 {start f : Nat} {sc : ScanSt} {ch nc b i : Nat}
    (hc : sc.clock_hand = some ch)
    (hw : walk0 sc.ptmem (sc.lru.pages ch).pagetable (sc.lru.pages ch).vaddr
      = .ok (some (b, i)))
    (hV : sc.ptmem b i &&& PTE_V ≠ 0)
    (hKB : (sc.lru.pages ch).vaddr < KERNBASE)
    (hTR : (sc.lru.pages ch).vaddr < TRAMPOLINE)
    (hA : sc.ptmem b i &&& PTE_A ≠ 0)
    (hnc : (sc.lru.pages ch).next = some nc) :
    svLoop start (f + 1) sc =
      (let ptm2 : Nat → Nat → Nat :=
        fun b2 i2 => if b2 = b ∧ i2 = i then sc.ptmem b i &&& NOT_A else sc.ptmem b2 i2
       let lru2 : LruSt :=
        if sc.lru.lru_tail ≠ some ch then relocL sc.lru ch else sc.lru
       if nc = start then
         .ok (some start, ⟨lru2, (lru2.pages start).next, ptm2⟩)
       else svLoop start f ⟨lru2, some nc, ptm2⟩) := by
  have d1 : decide (sc.ptmem b i &&& PTE_V = 0) = false := decide_eq_false hV
  have d2 : decide (KERNBASE ≤ (sc.lru.pages ch).vaddr) = false :=
    decide_eq_false (not_le.mpr hKB)
  have d3 : decide (TRAMPOLINE ≤ (sc.lru.pages ch).vaddr) = false :=
    decide_eq_false (not_le.mpr hTR)
  by_cases hrel : sc.lru.lru_tail ≠ some ch <;> by_cases hlap : nc = start <;>
    simp [svLoop, hc, hw, hnc, hlap, d1, d2, d3, hA, hrel, relocL]

/-- One scan iteration, rule-3 case (mapped user leaf, Access bit
clear): return the cursor node as victim. -/
theorem svLoop_step_rule3 {start f : Nat} {sc : ScanSt} {ch b i : Nat}
    (hc : sc.clock_hand = some ch)
    (hw : walk0 sc.ptmem (sc.lru.pages ch).pagetable (sc.lru.pages ch).vaddr
      = .ok (some (b, i)))
    (hV : sc.ptmem b i &&& PTE_V ≠ 0)
    (hKB : (sc.lru.pages ch).vaddr < KERNBASE)
    (hTR : (sc.lru.pages ch).vaddr < TRAMPOLINE)
    (hA0 : sc.ptmem b i &&& PTE_A = 0) :
    svLoop start (f + 1) sc =
      .ok (some ch, { sc with clock_hand := (sc.lru.pages ch).next }) := by
  have d1 : decide (sc.ptmem b i &&& PTE_V = 0) = false := decide_eq_false hV
  have d2 : decide (KERNBASE ≤ (sc.lru.pages ch).vaddr) = false :=
    decide_eq_false (not_le.mpr hKB)
  have d3 : decide (TRAMPOLINE ≤ (sc.lru.pages ch).vaddr) = false :=
    decide_eq_false (not_le.mpr hTR)
  simp [svLoop, hc, hw, d1, d2, d3, hA0]

/-- Scan-level consequences of a rule-2 relocation: linked set, flags
and page tables preserved, the relocated node's `vaddr` zeroed, the
list still closed with valid head/tail, and the `next`-successor
function either unchanged (cursor at the head) or rewritten exactly at
`t` and `ch`. -/
theorem reloc_scan_facts {l : LruSt} {ch t hd nc : Nat}
    (hin : (l.pages ch).in_lru = true)
    (hh : l.lru_head = some hd) (ht : l.lru_tail = some t)
    (hnc : (l.pages ch).next = some nc)
    (hne : ch ≠ t)
    (hbound : ch < PHYSTOP / PGSIZE)
    (hnpt : (l.pages ch).is_page_table = false)
    (hhin : (l.pages hd).in_lru = true)
    (hncin : (l.pages nc).in_lru = true)
    (htn : (l.pages t).next = l.lru_head) :
    (∀ x, ((relocL l ch).pages x).in_lru = (l.pages x).in_lru) ∧
    (∀ x, ((relocL l ch).pages x).vaddr = (if x = ch then 0 else (l.pages x).vaddr)) ∧
    (∀ x, ((relocL l ch).pages x).pagetable = (l.pages x).pagetable) ∧
    (∀ x, ((relocL l ch).pages x).is_page_table = (l.pages x).is_page_table) ∧
    ((∀ x, (l.pages x).in_lru = true →
      ∃ y, (l.pages x).next = some y ∧ (l.pages y).in_lru = true) →
      ∀ x, ((relocL l ch).pages x).in_lru = true →
      ∃ y, ((relocL l ch).pages x).next = some y ∧ ((relocL l ch).pages y).in_lru = true) ∧
    (∃ hd2, (relocL l ch).lru_head = some hd2 ∧ ((relocL l ch).pages hd2).in_lru = true) ∧
    ((relocL l ch).lru_tail = some ch ∧ ((relocL l ch).pages ch).in_lru = true ∧
      ((relocL l ch).pages ch).next = (relocL l ch).lru_head) ∧
    ((∀ x, gnext (relocL l ch).pages x = gnext l.pages x) ∨
     (gnext (relocL l ch).pages t = ch ∧
      gnext (relocL l ch).pages ch = gnext l.pages t ∧
      ∀ x, x ≠ t → x ≠ ch → gnext (relocL l ch).pages x = gnext l.pages x)) := by
  obtain ⟨eh, et, ef⟩ := reloc_effect hin hh ht hnc hne hbound hnpt
  have fin : ∀ x, ((relocL l ch).pages x).in_lru = (l.pages x).in_lru := fun x => (ef x).2.1
  have fnx : ∀ x, ((relocL l ch).pages x).next
      = (if x = t then some ch else if x = ch then some (if hd = ch then nc else hd)
         else (l.pages x).next) := fun x => (ef x).1
  refine ⟨fin, fun x => (ef x).2.2.1, fun x => (ef x).2.2.2.1, fun x => (ef x).2.2.2.2,
    ?_, ?_, ?_, ?_⟩
  · -- closure
    intro hclosed x hx
    rw [fin x] at hx
    rw [fnx x]
    by_cases hxt : x = t
    · exact ⟨ch, by rw [if_pos hxt], by rw [fin ch]; exact hin⟩
    · rw [if_neg hxt]
      by_cases hxc : x = ch
      · refine ⟨if hd = ch then nc else hd, by rw [if_pos hxc], ?_⟩
        by_cases hdc : hd = ch
        · rw [if_pos hdc, fin nc]
          exact hncin
        · rw [if_neg hdc, fin hd]
          exact hhin
      · rw [if_neg hxc]
        obtain ⟨y, hy, hyin⟩ := hclosed x hx
        exact ⟨y, hy, by rw [fin y]; exact hyin⟩
  · -- head
    refine ⟨if hd = ch then nc else hd, eh, ?_⟩
    by_cases hdc : hd = ch
    · rw [if_pos hdc, fin nc]
      exact hncin
    · rw [if_neg hdc, fin hd]
      exact hhin
  · -- tail
    refine ⟨et, by rw [fin ch]; exact hin, ?_⟩
    rw [fnx ch, if_neg hne, if_pos rfl, eh]
  · -- successor rewrite
    have hgt2 : gnext l.pages t = hd := by
      rw [gnext, htn, hh]
      rfl
    by_cases hdc : hd = ch
    · left
      intro x
      rw [gnext, gnext, fnx x]
      by_cases hxt : x = t
      · rw [if_pos hxt, hxt, htn, hh, hdc]
      · rw [if_neg hxt]
        by_cases hxc : x = ch
        · rw [if_pos hxc, if_pos hdc, hxc, hnc]
        · rw [if_neg hxc]
    · right
      refine ⟨?_, ?_, ?_⟩
      · rw [gnext, fnx t, if_pos rfl]
        rfl
      · rw [gnext, fnx ch, if_neg hne, if_pos rfl, if_neg hdc, hgt2]
        rfl
      · intro x hxt hxc
        rw [gnext, gnext, fnx x, if_neg hxt, if_neg hxc]

/-- Rule-1 advance preserves the scan invariant (cursor moves one
`next` step, everything else untouched). -/
theorem svinv_skip {start ch nc : Nat} {sc : ScanSt}
    (hinv : SvInv start ch sc)
    (hnc : (sc.lru.pages ch).next = some nc)
    (hncin : (sc.lru.pages nc).in_lru = true)
    (hlap : nc ≠ start) :
    SvInv start nc ⟨sc.lru, some nc, sc.ptmem⟩ := by
  obtain ⟨k, hk0, hkr⟩ := hinv.reach1
  have hgch : gnext sc.lru.pages ch = nc := by
    rw [gnext, hnc]
    rfl
  have hk2 : 2 ≤ k := by
    rcases Nat.lt_or_ge k 2 with hlt | hge
    · exfalso
      have hk1 : k = 1 := by omega
      subst hk1
      rw [Function.iterate_one, hgch] at hkr
      exact hlap hkr
    · exact hge
  refine ⟨rfl, hncin, hinv.start_in, hinv.closed, hinv.bound, hinv.no_pt, hinv.va_lt,
    hinv.head_ex, hinv.tail_ex, ⟨k - 1, by omega, ?_⟩, hinv.pte64⟩
  have hstep : (gnext sc.lru.pages)^[k-1] (gnext sc.lru.pages ch)
      = (gnext sc.lru.pages)^[k] ch := by
    calc (gnext sc.lru.pages)^[k-1] (gnext sc.lru.pages ch)
        = (gnext sc.lru.pages)^[(k-1)+1] ch :=
          (Function.iterate_succ_apply (gnext sc.lru.pages) (k - 1) ch).symm
    _ = (gnext sc.lru.pages)^[k] ch := by rw [show k - 1 + 1 = k from by omega]
  rw [hgch] at hstep
  rw [hstep]
  exact hkr

/-- Rule-2 without relocation (cursor already at the tail): the A-bit
clear preserves the scan invariant across the cursor advance. -/
theorem svinv_clear {start ch nc b i : Nat} {sc : ScanSt}
    (hinv : SvInv start ch sc)
    (hnc : (sc.lru.pages ch).next = some nc)
    (hncin : (sc.lru.pages nc).in_lru = true)
    (hlap : nc ≠ start) :
    SvInv start nc ⟨sc.lru, some nc,
      fun b2 i2 => if b2 = b ∧ i2 = i then sc.ptmem b i &&& NOT_A else sc.ptmem b2 i2⟩ := by
  have hbase := svinv_skip hinv hnc hncin hlap
  refine ⟨rfl, hbase.clock_in, hbase.start_in, hbase.closed, hbase.bound, hbase.no_pt,
    hbase.va_lt, hbase.head_ex, hbase.tail_ex, hbase.reach1, ?_⟩
  intro b2 i2
  dsimp only
  by_cases hbi : b2 = b ∧ i2 = i
  · rw [if_pos hbi]
    exact clearA_lt _
  · rw [if_neg hbi]
    exact hinv.pte64 b2 i2

/-- Rule-2 with relocation: the A-bit clear plus the tail relocation of
the cursor node preserve the scan invariant across the cursor
advance. -/
theorem svinv_reloc {start ch nc b i : Nat} {sc : ScanSt}
    (hinv : SvInv start ch sc)
    (hnc : (sc.lru.pages ch).next = some nc)
    (hncin : (sc.lru.pages nc).in_lru = true)
    (hrel : sc.lru.lru_tail ≠ some ch)
    (hlap : nc ≠ start) :
    SvInv start nc ⟨relocL sc.lru ch, some nc,
      fun b2 i2 => if b2 = b ∧ i2 = i then sc.ptmem b i &&& NOT_A else sc.ptmem b2 i2⟩ := by
  obtain ⟨hd, hh, hhin⟩ := hinv.head_ex
  obtain ⟨t, ht, htin, htn⟩ := hinv.tail_ex
  have hne : ch ≠ t := by
    rintro rfl
    exact hrel ht
  obtain ⟨fin, fva, fpt, fis, fclosed, fhead, ftail, fg⟩ :=
    reloc_scan_facts hinv.clock_in hh ht hnc hne (hinv.bound ch hinv.clock_in)
      (hinv.no_pt ch hinv.clock_in) hhin hncin htn
  have hgch : gnext sc.lru.pages ch = nc := by
    rw [gnext, hnc]
    rfl
  refine ⟨rfl, ?_, ?_, fclosed hinv.closed, ?_, ?_, ?_, fhead,
    ⟨ch, ftail.1, ftail.2.1, ftail.2.2⟩, ?_, ?_⟩
  · rw [fin nc]
    exact hncin
  · rw [fin start]
    exact hinv.start_in
  · intro x hx
    rw [fin x] at hx
    exact hinv.bound x hx
  · intro x hx
    rw [fin x] at hx
    rw [fis x]
    exact hinv.no_pt x hx
  · intro x hx
    rw [fin x] at hx
    rw [fva x]
    by_cases hxc : x = ch
    · rw [if_pos hxc]
      decide
    · rw [if_neg hxc]
      exact hinv.va_lt x hx
  · -- reachability of start from the advanced cursor
    obtain ⟨k, hk0, hkr⟩ := hinv.reach1
    rcases fg with hsame | ⟨hgt, hgch2, hother⟩
    · have hfe : gnext (relocL sc.lru ch).pages = gnext sc.lru.pages := funext hsame
      have hk2 : 2 ≤ k := by
        rcases Nat.lt_or_ge k 2 with hlt | hge
        · exfalso
          have hk1 : k = 1 := by omega
          subst hk1
          rw [Function.iterate_one, hgch] at hkr
          exact hlap hkr
        · exact hge
      refine ⟨k - 1, by omega, ?_⟩
      rw [hfe]
      have hstep : (gnext sc.lru.pages)^[k-1] (gnext sc.lru.pages ch)
          = (gnext sc.lru.pages)^[k] ch := by
        calc (gnext sc.lru.pages)^[k-1] (gnext sc.lru.pages ch)
            = (gnext sc.lru.pages)^[(k-1)+1] ch :=
              (Function.iterate_succ_apply (gnext sc.lru.pages) (k - 1) ch).symm
        _ = (gnext sc.lru.pages)^[k] ch := by rw [show k - 1 + 1 = k from by omega]
      rw [hgch] at hstep
      rw [hstep]
      exact hkr
    · have hre : ∃ m, 0 < m ∧ (gnext (relocL sc.lru ch).pages)^[m] (gnext sc.lru.pages ch)
          = start :=
        reachAfterReloc hgt hgch2 hother ⟨k, hk0, hkr⟩ (by rw [hgch]; exact hlap)
      rw [hgch] at hre
      exact hre
  · intro b2 i2
    dsimp only
    by_cases hbi : b2 = b ∧ i2 = i
    · rw [if_pos hbi]
      exact clearA_lt _
    · rw [if_neg hbi]
      exact hinv.pte64 b2 i2

/-- The inspected-leaf location is unchanged by an A-bit clear plus any
metadata change preserving `pagetable` and `vaddr`. -/
theorem locOf_stable {sc : ScanSt} {lr2 : LruSt} {clk2 : Option Nat} {b i : Nat}
    (h64 : ∀ b2 i2, sc.ptmem b2 i2 < 2 ^ 64)
    (heq : ∀ x, (lr2.pages x).pagetable = (sc.lru.pages x).pagetable ∧
      (lr2.pages x).vaddr = (sc.lru.pages x).vaddr) (x : Nat) :
    locOf ⟨lr2, clk2, fun b2 i2 => if b2 = b ∧ i2 = i then sc.ptmem b i &&& NOT_A
      else sc.ptmem b2 i2⟩ x = locOf sc x := by
  have hkey : walk0 (fun b2 i2 => if b2 = b ∧ i2 = i then sc.ptmem b i &&& NOT_A
        else sc.ptmem b2 i2) (lr2.pages x).pagetable (lr2.pages x).vaddr
      = walk0 sc.ptmem (sc.lru.pages x).pagetable (sc.lru.pages x).vaddr := by
    rw [(heq x).1, (heq x).2, walk0_clearA sc.ptmem b i _ _ h64]
  simp only [locOf]
  rw [hkey]

/-- One A-bit clear strictly decreases the count of linked entries with
a set Access bit, across any metadata change preserving the linked set,
`pagetable` and `vaddr`. -/
theorem aCount_clear_lt {sc : ScanSt} {lr2 : LruSt} {clk2 : Option Nat} {ch b i : Nat}
    (h64 : ∀ b2 i2, sc.ptmem b2 i2 < 2 ^ 64)
    (hin : (sc.lru.pages ch).in_lru = true)
    (hbound : ch < PHYSTOP / PGSIZE)
    (hloc : locOf sc ch = some (b, i))
    (hA : sc.ptmem b i &&& PTE_A ≠ 0)
    (hfields : ∀ x, (lr2.pages x).in_lru = (sc.lru.pages x).in_lru ∧
      (lr2.pages x).pagetable = (sc.lru.pages x).pagetable ∧
      (lr2.pages x).vaddr = (sc.lru.pages x).vaddr) :
    aCount ⟨lr2, clk2, fun b2 i2 => if b2 = b ∧ i2 = i then sc.ptmem b i &&& NOT_A
      else sc.ptmem b2 i2⟩ < aCount sc := by
  have hlocs : ∀ x, locOf ⟨lr2, clk2, fun b2 i2 => if b2 = b ∧ i2 = i
        then sc.ptmem b i &&& NOT_A else sc.ptmem b2 i2⟩ x = locOf sc x :=
    locOf_stable h64 (fun x => ⟨(hfields x).2.1, (hfields x).2.2⟩)
  have hsub : (Finset.range (PHYSTOP / PGSIZE)).filter
        (fun x => ((⟨lr2, clk2, fun b2 i2 => if b2 = b ∧ i2 = i then sc.ptmem b i &&& NOT_A
          else sc.ptmem b2 i2⟩ : ScanSt).lru.pages x).in_lru = true ∧
          aSetB ⟨lr2, clk2, fun b2 i2 => if b2 = b ∧ i2 = i then sc.ptmem b i &&& NOT_A
            else sc.ptmem b2 i2⟩ x = true)
      ⊆ (Finset.range (PHYSTOP / PGSIZE)).filter
        (fun x => (sc.lru.pages x).in_lru = true ∧ aSetB sc x = true) := by
    intro x hx
    rw [Finset.mem_filter] at hx ⊢
    obtain ⟨hrg, hx1, hx2⟩ := hx
    refine ⟨hrg, ?_, ?_⟩
    · rw [← (hfields x).1]
      exact hx1
    · rw [aSetB, hlocs x] at hx2
      rw [aSetB]
      rcases hl : locOf sc x with - | bi
      · rw [hl] at hx2
        exact hx2
      · rw [hl] at hx2
        obtain ⟨b2, i2⟩ := bi
        simp only [decide_eq_true_eq] at hx2 ⊢
        by_cases hbi : b2 = b ∧ i2 = i
        · rw [if_pos hbi] at hx2
          exact absurd (clearA_land_A (sc.ptmem b i)) hx2
        · rw [if_neg hbi] at hx2
          exact hx2
  apply Finset.card_lt_card
  rw [Finset.ssubset_iff_of_subset hsub]
  refine ⟨ch, ?_, ?_⟩
  · simp only [Finset.mem_filter, Finset.mem_range]
    refine ⟨hbound, hin, ?_⟩
    rw [aSetB, hloc]
    exact decide_eq_true hA
  · simp only [Finset.mem_filter, Finset.mem_range, not_and]
    intro _ _ hset
    rw [aSetB, hlocs ch, hloc] at hset
    simp only [decide_eq_true_eq] at hset
    apply hset
    simp [clearA_land_A]

/-- Zeroing (at most) the relocated node's `vaddr` never increases the
nonzero-`vaddr` count. -/
theorem vaCount_zero_le {sc : ScanSt} {lr2 : LruSt} {clk2 : Option Nat}
    {ptm2 : Nat → Nat → Nat} {ch : Nat}
    (hfields : ∀ x, (lr2.pages x).in_lru = (sc.lru.pages x).in_lru ∧
      (lr2.pages x).vaddr = (if x = ch then 0 else (sc.lru.pages x).vaddr)) :
    vaCount ⟨lr2, clk2, ptm2⟩ ≤ vaCount sc := by
  apply Finset.card_le_card
  intro x hx
  simp only [Finset.mem_filter, Finset.mem_range] at hx ⊢
  obtain ⟨hrg, hx1, hx2⟩ := hx
  rw [(hfields x).1] at hx1
  rw [(hfields x).2] at hx2
  refine ⟨hrg, hx1, ?_⟩
  by_cases hxc : x = ch
  · rw [if_pos hxc] at hx2
    exact absurd rfl hx2
  · rwa [if_neg hxc] at hx2

/-- Zeroing the `vaddr` of a linked node that had a nonzero `vaddr`
strictly decreases the nonzero-`vaddr` count. -/
theorem vaCount_zero_lt {sc : ScanSt} {lr2 : LruSt} {clk2 : Option Nat}
    {ptm2 : Nat → Nat → Nat} {ch : Nat}
    (hin : (sc.lru.pages ch).in_lru = true)
    (hbound : ch < PHYSTOP / PGSIZE)
    (hva : (sc.lru.pages ch).vaddr ≠ 0)
    (hfields : ∀ x, (lr2.pages x).in_lru = (sc.lru.pages x).in_lru ∧
      (lr2.pages x).vaddr = (if x = ch then 0 else (sc.lru.pages x).vaddr)) :
    vaCount ⟨lr2, clk2, ptm2⟩ < vaCount sc := by
  have hsub : (Finset.range (PHYSTOP / PGSIZE)).filter
        (fun x => ((⟨lr2, clk2, ptm2⟩ : ScanSt).lru.pages x).in_lru = true ∧
          ((⟨lr2, clk2, ptm2⟩ : ScanSt).lru.pages x).vaddr ≠ 0)
      ⊆ (Finset.range (PHYSTOP / PGSIZE)).filter
        (fun x => (sc.lru.pages x).in_lru = true ∧ (sc.lru.pages x).vaddr ≠ 0) := by
    intro x hx
    simp only [Finset.mem_filter, Finset.mem_range] at hx ⊢
    obtain ⟨hrg, hx1, hx2⟩ := hx
    rw [(hfields x).1] at hx1
    rw [(hfields x).2] at hx2
    refine ⟨hrg, hx1, ?_⟩
    by_cases hxc : x = ch
    · rw [if_pos hxc] at hx2
      exact absurd rfl hx2
    · rwa [if_neg hxc] at hx2
  apply Finset.card_lt_card
  rw [Finset.ssubset_iff_of_subset hsub]
  refine ⟨ch, ?_, ?_⟩
  · simp only [Finset.mem_filter, Finset.mem_range]
    exact ⟨hbound, hin, hva⟩
  · simp only [Finset.mem_filter, Finset.mem_range, not_and]
    intro _ _ hx2
    rw [(hfields ch).2, if_pos rfl] at hx2
    exact hx2 rfl

/-- The `select_victim` scan loop always returns a victim from a state
satisfying the scan invariant: nested strong induction on the measure
(nonzero-`vaddr` count, A-set count, `next`-path length from the
cursor to the lap snapshot `start`). -/
theorem svLoop_total : ∀ vb ab k : Nat, ∀ sc : ScanSt, ∀ start c : Nat,
    SvInv start c sc → vaCount sc ≤ vb → aCount sc ≤ ab →
    0 < k → (gnext sc.lru.pages)^[k] c = start →
    ∃ fuel v sc2, svLoop start fuel sc = .ok (some v, sc2) ∧ SvPost start v sc2 := by
  intro vb
  induction vb using Nat.strong_induction_on with
  | _ vb ihv =>
  intro ab
  induction ab using Nat.strong_induction_on with
  | _ ab iha =>
  intro k
  induction k using Nat.strong_induction_on with
  | _ k ihk =>
  intro sc start c hinv hva ha hk hkr
  have hcin := hinv.clock_in
  have hvac : (sc.lru.pages c).vaddr < MAXVA := hinv.va_lt c hcin
  obtain ⟨opte, hw⟩ := walk0_ok sc.ptmem (sc.lru.pages c).pagetable hvac
  obtain ⟨nc, hnc, hncin⟩ := hinv.closed c hcin
  have hgc : gnext sc.lru.pages c = nc := by
    rw [gnext, hnc]
    rfl
  rcases opte with _ | ⟨b, i⟩
  · -- rule 1, missing leaf
    by_cases hlap : nc = start
    · refine ⟨1, start, { sc with clock_hand := (sc.lru.pages start).next }, ?_, ?_⟩
      · rw [svLoop_step_skipN hinv.clock_eq hw hnc, if_pos hlap]
      · refine ⟨hinv.start_in, ?_, Or.inl rfl⟩
        intro c2 hc2
        obtain ⟨y, hy, hyin⟩ := hinv.closed start hinv.start_in
        have hc2b : (sc.lru.pages start).next = some c2 := hc2
        rw [hy] at hc2b
        obtain rfl : y = c2 := Option.some.inj hc2b
        exact hyin
    · have hk2 : 2 ≤ k := by
        rcases Nat.lt_or_ge k 2 with hlt | hge
        · exfalso
          have hk1 : k = 1 := by omega
          subst hk1
          rw [Function.iterate_one, hgc] at hkr
          exact hlap hkr
        · exact hge
      have hkr2 : (gnext sc.lru.pages)^[k - 1] nc = start := by
        calc (gnext sc.lru.pages)^[k-1] nc
            = (gnext sc.lru.pages)^[k-1] (gnext sc.lru.pages c) := by rw [hgc]
        _ = (gnext sc.lru.pages)^[(k-1)+1] c :=
              (Function.iterate_succ_apply (gnext sc.lru.pages) (k - 1) c).symm
        _ = (gnext sc.lru.pages)^[k] c := by rw [show k - 1 + 1 = k from by omega]
        _ = start := hkr
      obtain ⟨F, v, sc2, hF, hpost⟩ :=
        ihk (k - 1) (by omega) ⟨sc.lru, some nc, sc.ptmem⟩ start nc
          (svinv_skip hinv hnc hncin hlap) hva ha (by omega) hkr2
      refine ⟨F + 1, v, sc2, ?_, hpost⟩
      rw [svLoop_step_skipN hinv.clock_eq hw hnc, if_neg hlap]
      exact hF
  · -- leaf present
    by_cases hskipP : sc.ptmem b i &&& PTE_V = 0 ∨ KERNBASE ≤ (sc.lru.pages c).vaddr ∨
        TRAMPOLINE ≤ (sc.lru.pages c).vaddr
    · -- rule 1, skipped leaf
      have hskipB : (decide (sc.ptmem b i &&& PTE_V = 0) ||
          decide (KERNBASE ≤ (sc.lru.pages c).vaddr) ||
          decide (TRAMPOLINE ≤ (sc.lru.pages c).vaddr)) = true := by
        rcases hskipP with h | h | h <;> simp [h]
      by_cases hlap : nc = start
      · refine ⟨1, start, { sc with clock_hand := (sc.lru.pages start).next }, ?_, ?_⟩
        · rw [svLoop_step_skipS hinv.clock_eq hw hskipB hnc, if_pos hlap]
        · refine ⟨hinv.start_in, ?_, Or.inl rfl⟩
          intro c2 hc2
          obtain ⟨y, hy, hyin⟩ := hinv.closed start hinv.start_in
          have hc2b : (sc.lru.pages start).next = some c2 := hc2
          rw [hy] at hc2b
          obtain rfl : y = c2 := Option.some.inj hc2b
          exact hyin
      · have hk2 : 2 ≤ k := by
          rcases Nat.lt_or_ge k 2 with hlt | hge
          · exfalso
            have hk1 : k = 1 := by omega
            subst hk1
            rw [Function.iterate_one, hgc] at hkr
            exact hlap hkr
          · exact hge
        have hkr2 : (gnext sc.lru.pages)^[k - 1] nc = start := by
          calc (gnext sc.lru.pages)^[k-1] nc
              = (gnext sc.lru.pages)^[k-1] (gnext sc.lru.pages c) := by rw [hgc]
          _ = (gnext sc.lru.pages)^[(k-1)+1] c :=
                (Function.iterate_succ_apply (gnext sc.lru.pages) (k - 1) c).symm
          _ = (gnext sc.lru.pages)^[k] c := by rw [show k - 1 + 1 = k from by omega]
          _ = start := hkr
        obtain ⟨F, v, sc2, hF, hpost⟩ :=
          ihk (k - 1) (by omega) ⟨sc.lru, some nc, sc.ptmem⟩ start nc
            (svinv_skip hinv hnc hncin hlap) hva ha (by omega) hkr2
        refine ⟨F + 1, v, sc2, ?_, hpost⟩
        rw [svLoop_step_skipS hinv.clock_eq hw hskipB hnc, if_neg hlap]
        exact hF
    · push_neg at hskipP
      obtain ⟨hV, hKB0, hTR0⟩ := hskipP
      have hKB : (sc.lru.pages c).vaddr < KERNBASE := hKB0
      have hTR : (sc.lru.pages c).vaddr < TRAMPOLINE := hTR0
      by_cases hA : sc.ptmem b i &&& PTE_A ≠ 0
      · -- rule 2
        have hloc : locOf sc c = some (b, i) := by
          simp only [locOf, hw]
        by_cases hrel : sc.lru.lru_tail ≠ some c
        · -- with relocation
          obtain ⟨hd, hh, hhin⟩ := hinv.head_ex
          obtain ⟨t, ht, htin, htn⟩ := hinv.tail_ex
          have hne : c ≠ t := by
            rintro rfl
            exact hrel ht
          obtain ⟨fin, fva, fpt, fis, fclosed, fhead, ftail, fg⟩ :=
            reloc_scan_facts hcin hh ht hnc hne (hinv.bound c hcin)
              (hinv.no_pt c hcin) hhin hncin htn
          by_cases hlap : nc = start
          · -- lap after relocation
            have hstep := @svLoop_step_rule2 start 0 sc c nc b i hinv.clock_eq hw hV hKB hTR hA hnc
            simp only [if_pos hrel, if_pos hlap] at hstep
            refine ⟨1, start, _, hstep, ?_, ?_, Or.inl rfl⟩
            · rw [fin start]
              exact hinv.start_in
            · intro c2 hc2
              obtain ⟨y, hy, hyin⟩ := fclosed hinv.closed start
                (by rw [fin start]; exact hinv.start_in)
              have hc2b : ((relocL sc.lru c).pages start).next = some c2 := hc2
              rw [hy] at hc2b
              obtain rfl : y = c2 := Option.some.inj hc2b
              exact hyin
          · -- advance after relocation
            have hinv2 := @svinv_reloc start c nc b i sc hinv hnc hncin hrel hlap
            obtain ⟨k2, hk20, hkr22⟩ := hinv2.reach1
            have hfieldsA : ∀ x,
                ((relocL sc.lru c).pages x).in_lru = (sc.lru.pages x).in_lru ∧
                ((relocL sc.lru c).pages x).vaddr
                  = (if x = c then 0 else (sc.lru.pages x).vaddr) :=
              fun x => ⟨fin x, fva x⟩
            by_cases hva0 : (sc.lru.pages c).vaddr = 0
            · -- A-count decreases
              have hfieldsB : ∀ x,
                  ((relocL sc.lru c).pages x).in_lru = (sc.lru.pages x).in_lru ∧
                  ((relocL sc.lru c).pages x).pagetable = (sc.lru.pages x).pagetable ∧
                  ((relocL sc.lru c).pages x).vaddr = (sc.lru.pages x).vaddr := by
                intro x
                refine ⟨fin x, fpt x, ?_⟩
                rw [fva x]
                by_cases hxc : x = c
                · rw [if_pos hxc, hxc, hva0]
                · rw [if_neg hxc]
              have hac : aCount ⟨relocL sc.lru c, some nc,
                  fun b2 i2 => if b2 = b ∧ i2 = i then sc.ptmem b i &&& NOT_A
                    else sc.ptmem b2 i2⟩ < aCount sc :=
                aCount_clear_lt hinv.pte64 hcin (hinv.bound c hcin) hloc hA hfieldsB
              have hvle : vaCount ⟨relocL sc.lru c, some nc,
                  fun b2 i2 => if b2 = b ∧ i2 = i then sc.ptmem b i &&& NOT_A
                    else sc.ptmem b2 i2⟩ ≤ vaCount sc :=
                vaCount_zero_le hfieldsA
              obtain ⟨F, v, sc2, hF, hpost⟩ :=
                iha (ab - 1) (by omega) k2 ⟨relocL sc.lru c, some nc,
                  fun b2 i2 => if b2 = b ∧ i2 = i then sc.ptmem b i &&& NOT_A
                    else sc.ptmem b2 i2⟩ start nc hinv2 (le_trans hvle hva) (by omega)
                  hk20 hkr22
              refine ⟨F + 1, v, sc2, ?_, hpost⟩
              have hstep := @svLoop_step_rule2 start F sc c nc b i hinv.clock_eq hw hV hKB hTR hA hnc
              simp only [if_pos hrel, if_neg hlap] at hstep
              rw [hstep]
              exact hF
            · -- vaddr-count decreases
              have hvlt : vaCount ⟨relocL sc.lru c, some nc,
                  fun b2 i2 => if b2 = b ∧ i2 = i then sc.ptmem b i &&& NOT_A
                    else sc.ptmem b2 i2⟩ < vaCount sc :=
                vaCount_zero_lt hcin (hinv.bound c hcin) hva0 hfieldsA
              obtain ⟨F, v, sc2, hF, hpost⟩ :=
                ihv (vb - 1) (by omega) (aCount ⟨relocL sc.lru c, some nc,
                    fun b2 i2 => if b2 = b ∧ i2 = i then sc.ptmem b i &&& NOT_A
                      else sc.ptmem b2 i2⟩) k2
                  ⟨relocL sc.lru c, some nc,
                    fun b2 i2 => if b2 = b ∧ i2 = i then sc.ptmem b i &&& NOT_A
                      else sc.ptmem b2 i2⟩ start nc hinv2 (by omega) (le_refl _)
                  hk20 hkr22
              refine ⟨F + 1, v, sc2, ?_, hpost⟩
              have hstep := @svLoop_step_rule2 start F sc c nc b i hinv.clock_eq hw hV hKB hTR hA hnc
              simp only [if_pos hrel, if_neg hlap] at hstep
              rw [hstep]
              exact hF
        · -- already the tail: no relocation
          by_cases hlap : nc = start
          · have hstep := @svLoop_step_rule2 start 0 sc c nc b i hinv.clock_eq hw hV hKB hTR hA hnc
            simp only [if_neg hrel, if_pos hlap] at hstep
            refine ⟨1, start, _, hstep, ?_, ?_, Or.inl rfl⟩
            · exact hinv.start_in
            · intro c2 hc2
              obtain ⟨y, hy, hyin⟩ := hinv.closed start hinv.start_in
              have hc2b : (sc.lru.pages start).next = some c2 := hc2
              rw [hy] at hc2b
              obtain rfl : y = c2 := Option.some.inj hc2b
              exact hyin
          · have hinv2 := @svinv_clear start c nc b i sc hinv hnc hncin hlap
            obtain ⟨k2, hk20, hkr22⟩ := hinv2.reach1
            have hac : aCount ⟨sc.lru, some nc,
                fun b2 i2 => if b2 = b ∧ i2 = i then sc.ptmem b i &&& NOT_A
                  else sc.ptmem b2 i2⟩ < aCount sc :=
              aCount_clear_lt hinv.pte64 hcin (hinv.bound c hcin) hloc hA
                (fun x => ⟨rfl, rfl, rfl⟩)
            obtain ⟨F, v, sc2, hF, hpost⟩ :=
              iha (ab - 1) (by omega) k2 ⟨sc.lru, some nc,
                  fun b2 i2 => if b2 = b ∧ i2 = i then sc.ptmem b i &&& NOT_A
                    else sc.ptmem b2 i2⟩ start nc hinv2 hva (by omega) hk20 hkr22
            refine ⟨F + 1, v, sc2, ?_, hpost⟩
            have hstep := @svLoop_step_rule2 start F sc c nc b i hinv.clock_eq hw hV hKB hTR hA hnc
            simp only [if_neg hrel, if_neg hlap] at hstep
            rw [hstep]
            exact hF
      · -- rule 3
        push_neg at hA
        refine ⟨1, c, { sc with clock_hand := (sc.lru.pages c).next }, ?_, ?_⟩
        · exact @svLoop_step_rule3 start 0 sc c b i hinv.clock_eq hw hV hKB hTR hA
        · refine ⟨hcin, ?_, Or.inr ⟨b, i, hw, hV, hKB, hA⟩⟩
          intro c2 hc2
          have hc2b : (sc.lru.pages c).next = some c2 := hc2
          rw [hnc] at hc2b
          obtain rfl : nc = c2 := Option.some.inj hc2b
          exact hncin

/-- Well-formedness of the LRU list and scan state (spec §3: a
non-empty circular doubly-linked list of in-range, non-page-table
frames with valid `vaddr`s, `tail->next == head`, every linked node on
the `next`-cycle, the clock cursor NULL or on a linked node, and PTEs
64-bit words). -/
structure WFlru (s : Kstate) : Prop where
  closed : ∀ x, (s.lru.pages x).in_lru = true →
    ∃ y, (s.lru.pages x).next = some y ∧ (s.lru.pages y).in_lru = true
  bound : ∀ x, (s.lru.pages x).in_lru = true → x < PHYSTOP / PGSIZE
  no_pt : ∀ x, (s.lru.pages x).in_lru = true → (s.lru.pages x).is_page_table = false
  va_lt : ∀ x, (s.lru.pages x).in_lru = true → (s.lru.pages x).vaddr < MAXVA
  head_in : ∀ hd, s.lru.lru_head = some hd → (s.lru.pages hd).in_lru = true
  tail_of_head : ∀ hd, s.lru.lru_head = some hd → ∃ tl, s.lru.lru_tail = some tl
  tail_in : ∀ tl, s.lru.lru_tail = some tl → (s.lru.pages tl).in_lru = true
  tail_next : ∀ tl, s.lru.lru_tail = some tl → (s.lru.pages tl).next = s.lru.lru_head
  on_cycle : ∀ x, (s.lru.pages x).in_lru = true →
    ∃ k, 0 < k ∧ (gnext s.lru.pages)^[k] x = x
  clock_ok : ∀ c0, s.clock_hand = some c0 → (s.lru.pages c0).in_lru = true
  pte64 : ∀ b i, s.ptmem b i < 2 ^ 64

/-- C7: on every well-formed non-empty circular LRU list,
`select_victim` terminates (for sufficient fuel, which only models the
unbounded C loop) and returns a victim entry that is linked; the
cursor it leaves behind points at a linked entry; and the victim
either was chosen by the Access-bit-clear rule 3 (a mapped user leaf
whose Access bit is clear) or -- the full-lap case -- is exactly the
entry under the cursor when the scan started (the lap snapshot). -/
theorem c7_select_victim_terminates {s : Kstate} {h0 : Nat}
    (hwf : WFlru s) (hne : s.lru.lru_head = some h0) :
    ∃ fuel v s2, select_victim fuel s = .ok (some v, s2) ∧
      (s2.lru.pages v).in_lru = true ∧
      (∀ c2, s2.clock_hand = some c2 → (s2.lru.pages c2).in_lru = true) ∧
      (v = s.clock_hand.getD h0 ∨
        ∃ b i, walk0 s2.ptmem (s2.lru.pages v).pagetable (s2.lru.pages v).vaddr
            = .ok (some (b, i)) ∧
          s2.ptmem b i &&& PTE_V ≠ 0 ∧ (s2.lru.pages v).vaddr < KERNBASE ∧
          s2.ptmem b i &&& PTE_A = 0) := by
  -- the starting cursor and the scan state after the NULL-cursor default
  obtain ⟨tl, htl⟩ := hwf.tail_of_head h0 hne
  have hrun : ∀ ch0 : Nat, ∀ sc1 : ScanSt, sc1.lru = s.lru → sc1.ptmem = s.ptmem →
      sc1.clock_hand = some ch0 → (s.lru.pages ch0).in_lru = true →
      ∃ fuel v sc2, svLoop ch0 fuel sc1 = .ok (some v, sc2) ∧ SvPost ch0 v sc2 := by
    intro ch0 sc1 hl hp hc hin
    obtain ⟨k0, hk00, hk0r⟩ := hwf.on_cycle ch0 hin
    refine svLoop_total (vaCount sc1) (aCount sc1) k0 sc1 ch0 ch0
      ⟨hc, ?_, ?_, ?_, ?_, ?_, ?_, ?_, ?_, ?_, ?_⟩ (le_refl _) (le_refl _) hk00 ?_
    · rw [hl]
      exact hin
    · rw [hl]
      exact hin
    · rw [hl]
      exact hwf.closed
    · rw [hl]
      exact hwf.bound
    · rw [hl]
      exact hwf.no_pt
    · rw [hl]
      exact hwf.va_lt
    · rw [hl]
      exact ⟨h0, hne, hwf.head_in h0 hne⟩
    · rw [hl]
      exact ⟨tl, htl, hwf.tail_in tl htl, hwf.tail_next tl htl⟩
    · rw [hl]
      exact ⟨k0, hk00, hk0r⟩
    · rw [hp]
      exact hwf.pte64
    · rw [hl]
      exact hk0r
  rcases hck : s.clock_hand with _ | c0
  · -- NULL cursor: defaulted to the head
    have hin : (s.lru.pages h0).in_lru = true := hwf.head_in h0 hne
    have hva : ¬ (MAXVA ≤ (s.lru.pages h0).vaddr) := not_le.mpr (hwf.va_lt h0 hin)
    obtain ⟨fuel, v, sc2, hF, hpost⟩ :=
      hrun h0 ⟨s.lru, some h0, s.ptmem⟩ rfl rfl rfl hin
    refine ⟨fuel, v,
      { s with lru := sc2.lru, clock_hand := sc2.clock_hand, ptmem := sc2.ptmem },
      ?_, ?_, ?_, ?_⟩
    · have hsvs : select_victimS fuel ⟨s.lru, s.clock_hand, s.ptmem⟩
          = .ok (some v, sc2) := by
        simp only [select_victimS, hne, hck, eq_self_iff_true, if_true, if_neg hva]
        exact hF
      simp only [select_victim, hsvs]
    · exact hpost.1
    · exact hpost.2.1
    · rcases hpost.2.2 with hv | hv
      · left
        exact hv
      · right
        exact hv
  · -- cursor already set
    have hin : (s.lru.pages c0).in_lru = true := hwf.clock_ok c0 hck
    have hva : ¬ (MAXVA ≤ (s.lru.pages c0).vaddr) := not_le.mpr (hwf.va_lt c0 hin)
    obtain ⟨fuel, v, sc2, hF, hpost⟩ :=
      hrun c0 ⟨s.lru, some c0, s.ptmem⟩ rfl rfl rfl hin
    refine ⟨fuel, v,
      { s with lru := sc2.lru, clock_hand := sc2.clock_hand, ptmem := sc2.ptmem },
      ?_, ?_, ?_, ?_⟩
    · have hsvs : select_victimS fuel ⟨s.lru, s.clock_hand, s.ptmem⟩
          = .ok (some v, sc2) := by
        have hcn : ¬ ((some c0 : Option Nat) = none) := Option.some_ne_none c0
        simp only [select_victimS, hne, hck, if_neg hcn, if_neg hva]
        exact hF
      simp only [select_victim, hsvs]
    · exact hpost.1
    · exact hpost.2.1
    · rcases hpost.2.2 with hv | hv
      · left
        exact hv
      · right
        exact hv

/-- Concrete witness state for C7: a single-node circular LRU list
(frame index 0x80000, `vaddr` 0, all PTE memory zero) with a NULL
cursor. -/
def c7pages : Nat → Page :=
  fun j => if j = 524288 then ⟨false, true, 0, 0, some 524288, some 524288⟩
    else ⟨false, false, 0, 0, none, none⟩

/-- The witness `Kstate` around `c7pages`. -/
def sC7 : Kstate :=
  ⟨⟨c7pages, some 524288, some 524288, 1⟩, none, [], [], 0, 0,
    fun _ _ => 0, fun _ _ => 0, fun _ _ => 0⟩

/-- Witness for `c7_select_victim_terminates`: on the concrete
single-node list the scan terminates with a linked victim and a linked
cursor. -/
theorem c7_select_victim_terminates_witness :
    ∃ fuel v s2, select_victim fuel sC7 = .ok (some v, s2) ∧
      (s2.lru.pages v).in_lru = true ∧
      (∀ c2, s2.clock_hand = some c2 → (s2.lru.pages c2).in_lru = true) ∧
      (v = sC7.clock_hand.getD 524288 ∨
        ∃ b i, walk0 s2.ptmem (s2.lru.pages v).pagetable (s2.lru.pages v).vaddr
            = .ok (some (b, i)) ∧
          s2.ptmem b i &&& PTE_V ≠ 0 ∧ (s2.lru.pages v).vaddr < KERNBASE ∧
          s2.ptmem b i &&& PTE_A = 0) :=
  c7_select_victim_terminates
    ⟨fun x hx => by
        by_cases h : x = 524288
        · subst h
          exact ⟨524288, by simp [sC7, c7pages], by simp [sC7, c7pages]⟩
        · simp [sC7, c7pages, h] at hx,
      fun x hx => by
        by_cases h : x = 524288
        · subst h
          decide
        · simp [sC7, c7pages, h] at hx,
      fun x hx => by
        by_cases h : x = 524288
        · subst h
          simp [sC7, c7pages]
        · simp [sC7, c7pages, h] at hx,
      fun x hx => by
        by_cases h : x = 524288
        · subst h
          simp [sC7, c7pages]
          decide
        · simp [sC7, c7pages, h] at hx,
      fun hd hhd => by
        simp only [sC7] at hhd
        obtain rfl : 524288 = hd := Option.some.inj hhd
        simp [sC7, c7pages],
      fun hd _ => ⟨524288, rfl⟩,
      fun tl htl => by
        simp only [sC7] at htl
        obtain rfl : 524288 = tl := Option.some.inj htl
        simp [sC7, c7pages],
      fun tl htl => by
        simp only [sC7] at htl
        obtain rfl : 524288 = tl := Option.some.inj htl
        simp [sC7, c7pages],
      fun x hx => by
        by_cases h : x = 524288
        · subst h
          exact ⟨1, one_pos, by simp [gnext, sC7, c7pages]⟩
        · simp [sC7, c7pages, h] at hx,
      fun c0 hc => by simp [sC7] at hc,
      fun b i => by
        show (0 : Nat) < 2 ^ 64
        decide⟩
    rfl
